import Mathlib

/-!
# migration-tool-go: catalog, queries, Stages A, B and C, scheduler and runner

A shallow embedding of the extraction / upload pipeline of
`repository/repo.go`, `services/postgres_migration.go`,
`services/migration_runner.go`, `services/doris_sync.go`,
`dtos/table_info_chan.go` and `main.go`.

Conventions of the embedding.

* Go `int` is `Int`; lengths, counters (`uint64`) and loop fuel are `Nat`.
  The counters never come near `2 ^ 64` (every counted record is held in
  memory), so no wrap-around is modelled for them.
* A Go runtime panic, an exhausted loop budget and an event that a state
  cannot take are results of type `Fault`.
* A buffered channel is its capacity together with the values sent on it, in
  send order; a send appends.  Blocking on a full queue delays a send and does
  not change what is sent, so it is not part of the model.
* A loop around a `select` (Stage B, Stage C, the drain loop of `Run`) is a
  step function over the events the `select` and the other goroutines
  produce, and a run is a list of such events.
* The database, the JSON encoders, the formatter `fmt.Sprintf("%v", ·)`, the
  sink and the UUID generator are the environment: they appear as parameters
  or as data carried by events.  `uuid.UUID.String` and `hex.Encode` are
  written out, digit by digit.
* A statement sent to the source is its text, a `String`, and the list of the
  values bound to it.
-/

namespace MigrationTool

/-! ## Data model (`dtos`) -/

/-- Ways an embedded Go function stops without a value. -/
inductive Fault where
  | indexOutOfRange
  | sliceBoundsOutOfRange
  | outOfFuel
  | blocked
  | makechanSizeOutOfRange
  | interfaceConversion
  deriving DecidableEq, Repr

deriving instance DecidableEq for Except

/-- The struct `common.WorkerConfiguration`. -/
structure WorkerConfiguration where
  NoOfWorkers : Int
  WorkerBatchSize : Int
  IdBatchSize : Int
  ConcurrentTables : Int
  BatchProcessingTimeoutMs : Int
  RecordBatchSize : Int
  deriving DecidableEq, Repr

/-- The struct `dtos.PrimaryKey`. -/
structure PrimaryKey where
  ColumnName : String
  DataType : String
  deriving DecidableEq, Repr

/-- The struct `dtos.ColumnInfo`; a `sql.NullInt64` is an `Option Int`. -/
structure ColumnInfo where
  Schema : String
  Table : String
  Name : String
  DataType : String
  Ordinal : Int
  Precision : Option Int
  Scale : Option Int
  DatetimePrecision : Option Int
  IsPrimaryKey : Bool
  deriving DecidableEq, Repr

/-- The struct `dtos.TableInfo`. -/
structure TableInfo where
  TableSchema : String
  TableName : String
  Columns : List ColumnInfo
  PrimaryKeys : List PrimaryKey
  deriving DecidableEq, Repr

/-- A sample descriptor: table `public.platform` with the single PK column `id`. -/
def platformTable : TableInfo :=
  { TableSchema := "public"
    TableName := "platform"
    Columns := [⟨"public", "platform", "id", "int8", 1, some 64, some 0, none, true⟩]
    PrimaryKeys := [⟨"id", "int8"⟩] }

/-- The struct `dtos.PrimaryKeyRange`: a tag and two two-element arrays, of
which the one the tag does not name keeps its zero value (`none`). -/
structure PrimaryKeyRange (κ : Type) where
  type : String
  IdRange : Option (κ × κ)
  MultiKeyRange : Option (κ × κ)
  deriving DecidableEq, Repr

/-- A buffered Go channel: `make(chan α, cap)` and the values sent so far. -/
structure Chan (α : Type) where
  cap : Int
  sent : List α
  deriving DecidableEq, Repr

/-- The statement `ch <- v`. -/
def Chan.send {α : Type} (ch : Chan α) (v : α) : Chan α :=
  { ch with sent := ch.sent ++ [v] }

/-- The struct `dtos.TableInfoChan`. -/
structure TableInfoChan (κ ρ : Type) where
  TableInfo : TableInfo
  PrimaryKeyRange : Chan (PrimaryKeyRange κ)
  RecordsChan : Chan ρ
  totalUuidsRead : Nat
  totalRecordsRead : Nat
  ReadingIdsDone : Bool
  ReadingRecordsDone : Bool
  deriving DecidableEq, Repr

/-- The run-time check of `make(chan T, size)`: the panic
`makechan: size out of range` for a negative size. -/
def makechan (size : Int) : Except Fault Unit :=
  if size < 0 then .error .makechanSizeOutOfRange else .ok ()

/-- The constructor `dtos.NewTableInfoChan(tableInfo, primaryKeyRangeSize, recordsChanSize)`
for sizes its two `make` calls accept.  On a negative size `make` panics and no
channel object exists; `GetRecordsFromSource`, which passes the configured
sizes, raises that panic (`makechan`) before it builds the object. -/
def NewTableInfoChan {κ ρ : Type} (tableInfo : TableInfo) (primaryKeyRangeSize : Int)
    (recordsChanSize : Int) : TableInfoChan κ ρ :=
  { TableInfo := tableInfo
    PrimaryKeyRange := { cap := primaryKeyRangeSize, sent := [] }
    RecordsChan := { cap := recordsChanSize, sent := [] }
    totalUuidsRead := 0
    totalRecordsRead := 0
    ReadingIdsDone := false
    ReadingRecordsDone := false }

/-- The method `IncrementTotalUuidsRead`. -/
def TableInfoChan.IncrementTotalUuidsRead {κ ρ : Type} (t : TableInfoChan κ ρ) (count : Nat) :
    TableInfoChan κ ρ :=
  { t with totalUuidsRead := t.totalUuidsRead + count }

/-- The method `IncrementTotalRecordsRead`. -/
def TableInfoChan.IncrementTotalRecordsRead {κ ρ : Type} (t : TableInfoChan κ ρ) (count : Nat) :
    TableInfoChan κ ρ :=
  { t with totalRecordsRead := t.totalRecordsRead + count }

/-! ## Stage A (`services/postgres_migration.go`) -/

/-- Go slice indexing `ids[i]` with an `int` index: a panic outside `0 .. len-1`. -/
def goIndex {α : Type} (xs : List α) (i : Int) : Except Fault α :=
  if 0 ≤ i then
    match xs[i.toNat]? with
    | some x => .ok x
    | none => .error .indexOutOfRange
  else .error .indexOutOfRange

/-- The slicing loop of Stage A,
`for i := 0; i < len(ids); i += workerBatchSize`, from the loop variable `i` on:
the pairs `(ids[i], ids[end-1])` it sends, in send order. -/
def sliceLoop {κ : Type} (ids : List κ) (workerBatchSize : Int) :
    Nat → Int → Except Fault (List (κ × κ))
  | 0, _ => .error .outOfFuel
  | fuel + 1, i =>
    if i < (ids.length : Int) then
      let end0 := i + workerBatchSize
      let end1 := if end0 > (ids.length : Int) then (ids.length : Int) else end0
      match goIndex ids i, goIndex ids (end1 - 1) with
      | .ok lo, .ok hi =>
        match sliceLoop ids workerBatchSize fuel (i + workerBatchSize) with
        | .ok rest => .ok ((lo, hi) :: rest)
        | .error f => .error f
      | .error f, _ => .error f
      | _, .error f => .error f
    else .ok []

/-- One pass of the slicing loop over a page; `len(ids) + 1` iterations are
always enough: a pass over a page of `n` keys makes at most `n` turns. -/
def slicePage {κ : Type} (ids : List κ) (workerBatchSize : Int) : Except Fault (List (κ × κ)) :=
  sliceLoop ids workerBatchSize (ids.length + 1) 0

/-- The tag and payload Stage A sends for a single-column key window. -/
def idRange {κ : Type} (r : κ × κ) : PrimaryKeyRange κ :=
  { type := "id_range", IdRange := some r, MultiKeyRange := none }

/-- The tag and payload Stage A sends for a composite key window. -/
def multiKeyRange {κ : Type} (r : κ × κ) : PrimaryKeyRange κ :=
  { type := "multi_key", IdRange := none, MultiKeyRange := some r }

/-- Sending a list of ranges on the `PrimaryKeyRange` channel, in order. -/
def TableInfoChan.sendRanges {κ ρ : Type} (t : TableInfoChan κ ρ)
    (rs : List (MigrationTool.PrimaryKeyRange κ)) : TableInfoChan κ ρ :=
  rs.foldl (fun acc r => { acc with PrimaryKeyRange := acc.PrimaryKeyRange.send r }) t

/-- The method `getPrimaryKeyRange`.  The repository call
`p.repo.FetchBatchPrimaryKeys(ctx, lastId, includeLastId, schema, table, primaryKey, idBatchSize)`
is the parameter `FetchBatchPrimaryKeys`; the unbounded `for` loop runs on fuel. -/
def getPrimaryKeyRange {κ ρ ε : Type}
    (FetchBatchPrimaryKeys : κ → Bool → Int → Except ε (List κ)) :
    Nat → κ → Bool → Int → Int → TableInfoChan κ ρ → Except Fault (TableInfoChan κ ρ)
  | 0, _, _, _, _, _ => .error .outOfFuel
  | fuel + 1, lastId, includeLastId, idBatchSize, workerBatchSize, tableInfoChan =>
    match FetchBatchPrimaryKeys lastId includeLastId idBatchSize with
    | .error _ => .ok tableInfoChan
    | .ok ids =>
      if ids.length = 0 then
        .ok { tableInfoChan with ReadingIdsDone := true }
      else
        match slicePage ids workerBatchSize with
        | .error f => .error f
        | .ok rs =>
          let t1 := tableInfoChan.sendRanges (rs.map idRange)
          let t2 := t1.IncrementTotalUuidsRead ids.length
          match goIndex ids ((ids.length : Int) - 1) with
          | .error f => .error f
          | .ok last =>
            getPrimaryKeyRange FetchBatchPrimaryKeys fuel last false idBatchSize
              workerBatchSize t2

/-- The method `getMultiPrimaryKeyRange`, with the repository call
`FetchBatchMultiPrimaryKeys` as a parameter; a composite key (a Go map from
PK column name to value) is a value of `κ`. -/
def getMultiPrimaryKeyRange {κ ρ ε : Type}
    (FetchBatchMultiPrimaryKeys : κ → Bool → Int → Except ε (List κ)) :
    Nat → κ → Bool → Int → Int → TableInfoChan κ ρ → Except Fault (TableInfoChan κ ρ)
  | 0, _, _, _, _, _ => .error .outOfFuel
  | fuel + 1, lastIds, includeLastId, idBatchSize, workerBatchSize, tableInfoChan =>
    match FetchBatchMultiPrimaryKeys lastIds includeLastId idBatchSize with
    | .error _ => .ok tableInfoChan
    | .ok ids =>
      if ids.length = 0 then
        .ok { tableInfoChan with ReadingIdsDone := true }
      else
        match slicePage ids workerBatchSize with
        | .error f => .error f
        | .ok rs =>
          let t1 := tableInfoChan.sendRanges (rs.map multiKeyRange)
          let t2 := t1.IncrementTotalUuidsRead ids.length
          match goIndex ids ((ids.length : Int) - 1) with
          | .error f => .error f
          | .ok last =>
            getMultiPrimaryKeyRange FetchBatchMultiPrimaryKeys fuel last false idBatchSize
              workerBatchSize t2

/-- The keyset page the source returns for
`SELECT pk FROM t WHERE pk >= $1 ORDER BY pk LIMIT $2` (`>` when not
inclusive), for a table whose keys are listed in `K` in ascending order. -/
def keysetPage {κ : Type} [LinearOrder κ] (K : List κ) (cursor : κ) (inclusive : Bool)
    (limit : Nat) : List κ :=
  (K.filter (fun k => if inclusive then decide (cursor ≤ k) else decide (cursor < k))).take limit

/-- Membership of a key in a range read as the closed interval `[lo, hi]`
(the predicate `pk >= $1 AND pk <= $2` of `GetRecordsById`). -/
def inRange {κ : Type} [LinearOrder κ] (k : κ) (r : κ × κ) : Bool :=
  decide (r.1 ≤ k) && decide (k ≤ r.2)

/-- The windows of the `id_range` ranges sent on a channel, in send order. -/
def idRanges {κ : Type} (rs : List (PrimaryKeyRange κ)) : List (κ × κ) :=
  rs.filterMap (fun r => if r.type = "id_range" then r.IdRange else none)

/-- The windows of the `multi_key` ranges sent on a channel, in send order. -/
def multiKeyRanges {κ : Type} (rs : List (PrimaryKeyRange κ)) : List (κ × κ) :=
  rs.filterMap (fun r => if r.type = "multi_key" then r.MultiKeyRange else none)

/-- Consecutive pieces of a list, each a head and a tail of at most `w - 1`
further elements; `fuel` bounds the number of pieces. -/
def chunksOf {α : Type} (w : Nat) : Nat → List α → List (α × List α)
  | 0, _ => []
  | _ + 1, [] => []
  | fuel + 1, x :: xs => (x, xs.take (w - 1)) :: chunksOf w fuel (xs.drop (w - 1))

/-- First and last element of a piece. -/
def chunkEnds {α : Type} (c : α × List α) : α × α :=
  (c.1, c.2.getLastD c.1)

/-- The elements of a piece. -/
def chunkList {α : Type} (c : α × List α) : List α :=
  c.1 :: c.2

/-- A composite primary key: the values of the PK columns in PK column order.
Mathlib orders lists lexicographically, which is SQL row comparison. -/
abbrev Tuple (V : Type) := List V

/-! ## Sink and Stage C (`services/doris_sync.go`, `services/migration_runner.go`) -/

/-- A Go `map[string]β` as an association list with distinct keys. -/
abbrev GoMap (β : Type) := List (String × β)

/-- The lookup `m[k]` with the comma-ok result. -/
def mapGet {β : Type} (m : GoMap β) (k : String) : Option β :=
  (m.find? (fun e => decide (e.1 = k))).map Prod.snd

/-- The assignment `m[k] = v`. -/
def mapSet {β : Type} (m : GoMap β) (k : String) (v : β) : GoMap β :=
  (k, v) :: m.filter (fun e => !decide (e.1 = k))

/-- The call `lo.Values(m)`. -/
def mapValues {β : Type} (m : GoMap β) : List β :=
  m.map Prod.snd

/-- What the HTTP client gives back to `StreamLoadDoris`. -/
inductive HttpOutcome where
  | requestError (msg : String)
  | sendError (msg : String)
  | readError (msg : String)
  | response (statusCode : Nat) (status : String) (body : String)
  deriving DecidableEq, Repr

/-- The method `StreamLoadDoris`: one PUT, whose outcome is `out`. -/
def StreamLoadDoris (out : HttpOutcome) (uniqueLabel : String) : Except String Unit :=
  match out with
  | .requestError msg => .error ("failed to create request: " ++ msg)
  | .sendError msg => .error ("failed to send request: " ++ msg)
  | .readError msg => .error ("failed to read response body: " ++ msg)
  | .response statusCode status body =>
    if statusCode ≠ 200 then
      .error ("stream load failed for label " ++ uniqueLabel ++ " with status " ++ status ++
        " response " ++ body)
    else .ok ()

/-- The method `SyncDoris`: upload, then record `noOfRecords` under the label. -/
def SyncDoris (out : HttpOutcome) (noOfRecords : Nat) (uniqueLabel : String)
    (checkAllRecordsProcessed : GoMap Nat) : Except String (GoMap Nat) :=
  match StreamLoadDoris out uniqueLabel with
  | .error e => .error e
  | .ok _ => .ok (mapSet checkAllRecordsProcessed uniqueLabel noOfRecords)

/-- The function `utils.ConvertRecordsToJSON` as `processBatch` calls it (no
debug file); `marshal` is `json.MarshalIndent`. -/
def ConvertRecordsToJSON {ρ : Type} (marshal : List ρ → Except String String)
    (records : List ρ) : Except String String :=
  if records.length = 0 then .error "no records to write"
  else
    match marshal records with
    | .error e => .error ("failed to marshal JSON: " ++ e)
    | .ok jsonData => .ok jsonData

/-- What the environment supplies to one call of `processBatch`: the UUID it
draws as label and the outcome of the PUT, should one be made. -/
structure SinkEnv where
  label : String
  http : HttpOutcome
  deriving DecidableEq, Repr

/-- One PUT issued to the sink. -/
structure SinkPut where
  table : String
  label : String
  payload : String
  noOfRecords : Nat
  deriving DecidableEq, Repr

/-- One call of `processBatch`, as observed from outside: the batch, the PUTs
issued for it and whether it was uploaded. -/
structure BatchCall (ρ : Type) where
  records : List ρ
  puts : List SinkPut
  uploaded : Bool
  deriving DecidableEq, Repr

/-- The struct `migrationRunner` (without its start time). -/
structure migrationRunner (ρ : Type) where
  failedRecords : GoMap (List ρ)
  workerConfig : WorkerConfiguration
  deriving DecidableEq, Repr

/-- The value of `m.failedRecords[table]`, `nil` when absent. -/
def migrationRunner.failed {ρ : Type} (m : migrationRunner ρ) (table : String) : List ρ :=
  (mapGet m.failedRecords table).getD []

/-- The statement
`m.failedRecords[table] = append(m.failedRecords[table], records...)`. -/
def migrationRunner.appendFailed {ρ : Type} (m : migrationRunner ρ) (table : String)
    (records : List ρ) : migrationRunner ρ :=
  { m with failedRecords := mapSet m.failedRecords table (m.failed table ++ records) }

/-- The function `NewMigrationRunner`. -/
def NewMigrationRunner {ρ : Type} (workerConfig : WorkerConfiguration) : migrationRunner ρ :=
  let workerConfig :=
    if workerConfig.WorkerBatchSize ≤ 0 then { workerConfig with WorkerBatchSize := 10000 }
    else workerConfig
  let workerConfig :=
    if workerConfig.IdBatchSize ≤ 0 then { workerConfig with IdBatchSize := 10000 }
    else workerConfig
  let workerConfig :=
    if workerConfig.ConcurrentTables ≤ 0 then { workerConfig with ConcurrentTables := 10 }
    else workerConfig
  let workerConfig :=
    if workerConfig.BatchProcessingTimeoutMs ≤ 0 then
      { workerConfig with BatchProcessingTimeoutMs := 500 }
    else workerConfig
  let workerConfig :=
    if workerConfig.RecordBatchSize ≤ 0 then { workerConfig with RecordBatchSize := 5000 }
    else workerConfig
  { failedRecords := [], workerConfig := workerConfig }

/-- The state of one run of `processTableInfo`: its locals, the runner, and
the log of the `processBatch` calls made so far. -/
structure StageC (ρ : Type) where
  m : migrationRunner ρ
  records : List ρ
  checkAllRecordsProcessed : GoMap Nat
  processedRecordsChan : Bool
  calls : List (BatchCall ρ)
  deriving DecidableEq, Repr

/-- The method `processBatch`. -/
def processBatch {ρ : Type} (marshal : List ρ → Except String String) (tableName : String)
    (env : SinkEnv) (s : StageC ρ) (records : List ρ) : StageC ρ :=
  match ConvertRecordsToJSON marshal records with
  | .error _ =>
    { s with
      m := s.m.appendFailed tableName records
      calls := s.calls ++ [{ records := records, puts := [], uploaded := false }] }
  | .ok bytesData =>
    let put : SinkPut :=
      { table := tableName, label := env.label, payload := bytesData,
        noOfRecords := records.length }
    match SyncDoris env.http records.length env.label s.checkAllRecordsProcessed with
    | .error _ =>
      { s with
        m := s.m.appendFailed tableName records
        calls := s.calls ++ [{ records := records, puts := [put], uploaded := false }] }
    | .ok check =>
      { s with
        checkAllRecordsProcessed := check
        calls := s.calls ++ [{ records := records, puts := [put], uploaded := true }] }

/-- The method `checkTableProcessed`; the two values read from the shared
`TableInfoChan` are arguments. -/
def checkTableProcessed {ρ : Type} (m : migrationRunner ρ) (tableName : String)
    (checkAllRecordsProcessed : GoMap Nat) (readingRecordsDone : Bool)
    (totalRecordsRead : Nat) : Bool :=
  let totalProcessed := (mapValues checkAllRecordsProcessed).sum
  let totalFailedRecords := (m.failed tableName).length
  readingRecordsDone && decide (totalProcessed + totalFailedRecords = totalRecordsRead)

/-- What one turn of the `select` in `processTableInfo` receives. -/
inductive Event (ρ : Type) where
  | record (r : ρ) (uuidStr : String) (env : SinkEnv)
  | closed
  | timeout (env : SinkEnv) (readingRecordsDone : Bool) (totalRecordsRead : Nat)
  deriving DecidableEq, Repr

/-- Go slicing `records[:n]`. -/
def goSliceTo {α : Type} (xs : List α) (n : Int) : Except Fault (List α) :=
  if 0 ≤ n ∧ n ≤ (xs.length : Int) then .ok (xs.take n.toNat) else .error .sliceBoundsOutOfRange

/-- Go slicing `records[n:]`. -/
def goSliceFrom {α : Type} (xs : List α) (n : Int) : Except Fault (List α) :=
  if 0 ≤ n ∧ n ≤ (xs.length : Int) then .ok (xs.drop n.toNat) else .error .sliceBoundsOutOfRange

/-- One turn of the loop `for !processedRecordsChan` of `processTableInfo`. -/
def processTableInfoStep {ρ : Type} (marshal : List ρ → Except String String)
    (tableName : String) (s : StageC ρ) : Event ρ → Except Fault (StageC ρ)
  | .closed => .ok { s with processedRecordsChan := true }
  | .record record uuidStr env =>
    let s1 := { s with
      records := s.records ++ [record]
      checkAllRecordsProcessed := mapSet s.checkAllRecordsProcessed uuidStr 0 }
    if (s1.records.length : Int) ≥ s1.m.workerConfig.RecordBatchSize then
      match goSliceTo s1.records s1.m.workerConfig.RecordBatchSize with
      | .error f => .error f
      | .ok batchRecords =>
        let s2 := processBatch marshal tableName env s1 batchRecords
        if (s2.records.length : Int) > s2.m.workerConfig.RecordBatchSize then
          match goSliceFrom s2.records s2.m.workerConfig.RecordBatchSize with
          | .error f => .error f
          | .ok rest => .ok { s2 with records := rest }
        else .ok { s2 with records := [] }
    else .ok s1
  | .timeout env readingRecordsDone totalRecordsRead =>
    let flushed : Except Fault (StageC ρ) :=
      if s.records.length > 0 then
        if (s.records.length : Int) ≥ s.m.workerConfig.RecordBatchSize then
          match goSliceTo s.records s.m.workerConfig.RecordBatchSize with
          | .error f => .error f
          | .ok batchRecords =>
            let s2 := processBatch marshal tableName env s batchRecords
            match goSliceFrom s2.records s2.m.workerConfig.RecordBatchSize with
            | .error f => .error f
            | .ok rest => .ok { s2 with records := rest }
        else
          .ok { processBatch marshal tableName env s s.records with records := [] }
      else .ok s
    match flushed with
    | .error f => .error f
    | .ok s3 =>
      if checkTableProcessed s3.m tableName s3.checkAllRecordsProcessed readingRecordsDone
          totalRecordsRead then
        .ok { s3 with processedRecordsChan := true }
      else .ok s3

/-- The loop of `processTableInfo` over the events its `select` receives; it
stops at the first turn that sets `processedRecordsChan`. -/
def processTableInfoLoop {ρ : Type} (marshal : List ρ → Except String String)
    (tableName : String) : List (Event ρ) → StageC ρ → Except Fault (StageC ρ)
  | [], s => .ok s
  | e :: es, s =>
    if s.processedRecordsChan then .ok s
    else
      match processTableInfoStep marshal tableName s e with
      | .error f => .error f
      | .ok s1 => processTableInfoLoop marshal tableName es s1

/-- The method `processTableInfo`: the state it is in after the given events
(`records` is what it returns once `processedRecordsChan` is set). -/
def processTableInfo {ρ : Type} (marshal : List ρ → Except String String)
    (m : migrationRunner ρ) (tableName : String) (events : List (Event ρ)) :
    Except Fault (StageC ρ) :=
  let m1 :=
    match mapGet m.failedRecords tableName with
    | some _ => m
    | none => { m with failedRecords := mapSet m.failedRecords tableName [] }
  processTableInfoLoop marshal tableName events
    { m := m1, records := [], checkAllRecordsProcessed := [], processedRecordsChan := false,
      calls := [] }

/-! ## Catalog (`repository/repo.go`, `GetTableInfo`) -/

/-- The value `&dtos.TableInfo{TableSchema: col.Schema, TableName: col.Table}`. -/
def newTableInfo (col : ColumnInfo) : TableInfo :=
  { TableSchema := col.Schema, TableName := col.Table, Columns := [], PrimaryKeys := [] }

/-- The value of `tableMap[schema][table]`, `none` for a nil pointer. -/
def tableAt (tableMap : GoMap (GoMap TableInfo)) (schema table : String) : Option TableInfo :=
  match mapGet tableMap schema with
  | none => none
  | some tables => mapGet tables table

/-- The two appends of the `rows.Next()` loop on the entry of the row's table:
the column, and the primary key when the row is flagged. -/
def appendColumn (t : TableInfo) (col : ColumnInfo) : TableInfo :=
  let t1 := { t with Columns := t.Columns ++ [col] }
  if col.IsPrimaryKey then
    { t1 with
      PrimaryKeys := t1.PrimaryKeys ++ [{ ColumnName := col.Name, DataType := col.DataType }] }
  else t1

/-- The body of the `rows.Next()` loop of `GetTableInfo` for one scanned row:
the entry of the row's table is created when missing, then the column is
appended to it, and the primary key too when the row is flagged. -/
def addColumn (tableMap : GoMap (GoMap TableInfo)) (col : ColumnInfo) :
    GoMap (GoMap TableInfo) :=
  let tableMap1 :=
    match mapGet tableMap col.Schema with
    | none => mapSet tableMap col.Schema (mapSet [] col.Table (newTableInfo col))
    | some tables =>
      match mapGet tables col.Table with
      | none => mapSet tableMap col.Schema (mapSet tables col.Table (newTableInfo col))
      | some _ => tableMap
  let tables := (mapGet tableMap1 col.Schema).getD []
  let t := (mapGet tables col.Table).getD (newTableInfo col)
  mapSet tableMap1 col.Schema (mapSet tables col.Table (appendColumn t col))

/-- The `rows.Next()` loop of `GetTableInfo`: a row whose `Scan` fails ends
the call with that error. -/
def scanRows : GoMap (GoMap TableInfo) → List (Except String ColumnInfo) →
    Except String (GoMap (GoMap TableInfo))
  | tableMap, [] => .ok tableMap
  | _, .error e :: _ => .error e
  | tableMap, .ok col :: rows => scanRows (addColumn tableMap col) rows

/-- The method `GetTableInfo`; `query` is what `r.db.Query` gives back for
the metadata query. -/
def GetTableInfo (query : Except String (List (Except String ColumnInfo))) :
    Except String (List TableInfo) :=
  match query with
  | .error e => .error ("failed to fetch column metadata: " ++ e)
  | .ok rows =>
    match scanRows [] rows with
    | .error e => .error e
    | .ok tableMap =>
      .ok ((tableMap.map (fun v =>
        (mapValues v.2).filter (fun v2 => decide (v2.TableName = "platform")))).flatten)

/-- The rows of a table among the metadata rows, in row order. -/
def columnsOf (rows : List ColumnInfo) (schema table : String) : List ColumnInfo :=
  rows.filter (fun c => decide (c.Schema = schema) && decide (c.Table = table))

/-- The primary keys of a column list: the flagged columns, each with its own
name and type, in order. -/
def primaryKeysOf (cols : List ColumnInfo) : List PrimaryKey :=
  (cols.filter (fun c => c.IsPrimaryKey)).map
    (fun c => { ColumnName := c.Name, DataType := c.DataType })

/-- The order `ORDER BY c.table_name, c.ordinal_position` of the metadata
query, names compared character by character. -/
def rowBefore (a b : ColumnInfo) : Bool :=
  decide (a.Table.toList < b.Table.toList) ||
    (decide (a.Table = b.Table) && decide (a.Ordinal ≤ b.Ordinal))

/-- The entry the catalog loop holds for a table after the given rows. -/
def tableOf (rows : List ColumnInfo) (schema table : String) : Option TableInfo :=
  if columnsOf rows schema table = [] then none
  else some
    { TableSchema := schema, TableName := table, Columns := columnsOf rows schema table
      PrimaryKeys := primaryKeysOf (columnsOf rows schema table) }

/-! ## Start-up wiring (`main.go`, `NewPostgresMigration`) -/

/-- The struct `postgres.ExcludeTableRegexList`. -/
structure ExcludeTableRegexList where
  Schema : String
  Regex : List String
  deriving DecidableEq, Repr

/-- The struct `postgres.ExcludeTablesList`. -/
structure ExcludeTablesList where
  Schema : String
  Tables : List String
  deriving DecidableEq, Repr

/-- The struct `postgres.Configuration`. -/
structure Configuration where
  Schemas : List String
  ExcludedSchemas : List String
  ExcludeTableRegexList : List ExcludeTableRegexList
  ExcludeTablesList : List ExcludeTablesList
  Pool : Nat
  deriving DecidableEq, Repr

/-- The struct `postgresMigration` (without its repository handle). -/
structure postgresMigration where
  configuration : Configuration
  workerConfig : WorkerConfiguration
  deriving DecidableEq, Repr

/-- The function `NewPostgresMigration`. -/
def NewPostgresMigration (configuration : Configuration) (workerConfig : WorkerConfiguration) :
    postgresMigration :=
  { configuration := configuration, workerConfig := workerConfig }

/-- The arguments `processTable` passes to `getPrimaryKeyRange` and
`getMultiPrimaryKeyRange`: `(idBatchSize, workerBatchSize)`. -/
def postgresMigration.stageASizes (p : postgresMigration) : Int × Int :=
  (p.workerConfig.IdBatchSize, p.workerConfig.WorkerBatchSize)

/-- The two singletons `main` builds from the loaded configuration. -/
structure Services (ρ : Type) where
  PostgresMigration : postgresMigration
  MigrationRunner : migrationRunner ρ
  deriving DecidableEq, Repr

/-- The initialisation sequence of `main`: `NewPostgresMigration`, then
`NewMigrationRunner`, each called with `config.WorkerConfig` by value. -/
def main {ρ : Type} (SourceConfig : Configuration) (WorkerConfig : WorkerConfiguration) :
    Services ρ :=
  let PostgresMigration := NewPostgresMigration SourceConfig WorkerConfig
  let MigrationRunner := NewMigrationRunner WorkerConfig
  { PostgresMigration := PostgresMigration, MigrationRunner := MigrationRunner }

/-- A sample source configuration: schema `public`, nothing excluded. -/
def publicSchema : Configuration :=
  { Schemas := ["public"], ExcludedSchemas := [], ExcludeTableRegexList := [],
    ExcludeTablesList := [], Pool := 4 }

/-! ## Stage B (`getRecordsFromPrimaryKeyRange`) -/

/-- A worker goroutine of Stage B that has been started and is not done:
the range it was given (tagged with the number of the range) and whether its
repository call has returned and its records have been forwarded and counted. -/
structure Worker (κ : Type) where
  id : Nat
  range : PrimaryKeyRange κ
  fetched : Bool
  deriving DecidableEq, Repr

/-- The state of one run of `getRecordsFromPrimaryKeyRange`: the shared
`TableInfoChan`, how many ranges were taken off its queue, the workers in
flight (one token of `parallelProcessingChan` and one wait-group slot each),
and the local `processingDone`. -/
structure StageB (κ ρ : Type) where
  infoChan : TableInfoChan κ ρ
  received : Nat
  workers : List (Worker κ)
  processingDone : Bool
  deriving DecidableEq, Repr

/-- The ranges waiting in the `PrimaryKeyRange` queue. -/
def StageB.queue {κ ρ : Type} (s : StageB κ ρ) : List (PrimaryKeyRange κ) :=
  s.infoChan.PrimaryKeyRange.sent.drop s.received

/-- What can happen next to a run of Stage B: the three effects of the
Stage A goroutine on the shared channel object, the two cases of the `select`
of the controller loop, and the two halves of a worker goroutine. -/
inductive StageBEvent (κ ρ : Type) where
  | produced (r : PrimaryKeyRange κ)
  | counted (count : Nat)
  | idsDone
  | range
  | fetched (id : Nat) (result : Except String (List ρ))
  | exit (id : Nat)
  | timeout

/-- The body of a worker goroutine up to the end of its `switch`: on a
successful fetch every record is sent on `RecordsChan` and the count is added
to `totalRecordsRead`; on an error, or for another tag, nothing is changed. -/
def workerFetched {κ ρ : Type} (infoChan : TableInfoChan κ ρ) (r : PrimaryKeyRange κ)
    (result : Except String (List ρ)) : TableInfoChan κ ρ :=
  if r.type = "id_range" ∨ r.type = "multi_key" then
    match result with
    | .error _ => infoChan
    | .ok records =>
      ({ infoChan with
          RecordsChan := records.foldl (fun ch record => ch.send record) infoChan.RecordsChan }
        ).IncrementTotalRecordsRead records.length
  else infoChan

/-- The `time.After` case of the controller loop. -/
def controllerTimeout {κ ρ : Type} (s : StageB κ ρ) : StageB κ ρ :=
  if s.infoChan.ReadingIdsDone then
    if s.infoChan.totalUuidsRead = s.infoChan.totalRecordsRead then
      { s with infoChan := { s.infoChan with ReadingRecordsDone := true }, processingDone := true }
    else s
  else s

/-- One event of a run of `getRecordsFromPrimaryKeyRange` with
`parallelProcessingChan` of capacity `NoOfWorkers`; an event the state cannot
take (no queued range, no free worker slot, unknown worker, loop already left)
is `blocked`. -/
def getRecordsFromPrimaryKeyRangeStep {κ ρ : Type} (NoOfWorkers : Int) (s : StageB κ ρ) :
    StageBEvent κ ρ → Except Fault (StageB κ ρ)
  | .produced r =>
    .ok { s with infoChan := { s.infoChan with PrimaryKeyRange := s.infoChan.PrimaryKeyRange.send r } }
  | .counted count => .ok { s with infoChan := s.infoChan.IncrementTotalUuidsRead count }
  | .idsDone => .ok { s with infoChan := { s.infoChan with ReadingIdsDone := true } }
  | .range =>
    if s.processingDone then .error .blocked
    else
      match s.infoChan.PrimaryKeyRange.sent[s.received]? with
      | none => .error .blocked
      | some primaryKeyRange =>
        if (s.workers.length : Int) < NoOfWorkers then
          .ok { s with
            received := s.received + 1
            workers := s.workers ++ [{ id := s.received, range := primaryKeyRange, fetched := false }] }
        else .error .blocked
  | .fetched id result =>
    match s.workers.find? (fun w => decide (w.id = id) && !w.fetched) with
    | none => .error .blocked
    | some w =>
      .ok { s with
        infoChan := workerFetched s.infoChan w.range result
        workers := s.workers.map (fun v => if v.id = id then { v with fetched := true } else v) }
  | .exit id =>
    match s.workers.find? (fun w => decide (w.id = id) && w.fetched) with
    | none => .error .blocked
    | some _ => .ok { s with workers := s.workers.filter (fun v => !decide (v.id = id)) }
  | .timeout =>
    if s.processingDone then .error .blocked else .ok (controllerTimeout s)

/-- The controller loop and its workers over a sequence of events, from a
given state. -/
def getRecordsFromPrimaryKeyRangeLoop {κ ρ : Type} (NoOfWorkers : Int) :
    List (StageBEvent κ ρ) → StageB κ ρ → Except Fault (StageB κ ρ)
  | [], s => .ok s
  | e :: es, s =>
    match getRecordsFromPrimaryKeyRangeStep NoOfWorkers s e with
    | .error f => .error f
    | .ok s1 => getRecordsFromPrimaryKeyRangeLoop NoOfWorkers es s1

/-- The method `getRecordsFromPrimaryKeyRange`: the state it is in after the
given events; it has returned once `processingDone` is set and `wg.Wait()`
finds no worker left.  Its first statement,
`make(chan bool, p.workerConfig.NoOfWorkers)`, panics on a negative size. -/
def getRecordsFromPrimaryKeyRange {κ ρ : Type} (p : postgresMigration)
    (events : List (StageBEvent κ ρ)) (infoChan : TableInfoChan κ ρ) :
    Except Fault (StageB κ ρ) :=
  match makechan p.workerConfig.NoOfWorkers with
  | .error f => .error f
  | .ok _ =>
    getRecordsFromPrimaryKeyRangeLoop p.workerConfig.NoOfWorkers events
      { infoChan := infoChan, received := 0, workers := [], processingDone := false }

/-! ## Scheduler (`GetRecordsFromSource`, `processTable`) -/

/-- The admission state of `GetRecordsFromSource`: the capacity of the
channel `concurrentTables`, the tokens it holds and the wait-group counter. -/
structure Admission where
  cap : Int
  tokens : Nat
  wg : Nat
  deriving DecidableEq, Repr

/-- What the source answers for one table: the first-key query
(`GetFirstIdByPrimaryKey`, or `GetFirstIdsByMultiPrimaryKeys` for a composite
key), and the joint run of the Stage A goroutine started with that key and of
`getRecordsFromPrimaryKeyRange`, up to the return of the latter. -/
structure TableEnv (κ ρ : Type) where
  firstKey : Except String κ
  stages : κ → TableInfoChan κ ρ → Except Fault (TableInfoChan κ ρ)

/-- A call of `processTable` that has returned: the channel object as it left
it, whether it started Stage A and Stage B, and the admission state. -/
structure TableRun (κ ρ : Type) where
  tableInfoChan : TableInfoChan κ ρ
  stageA : Bool
  stageB : Bool
  admission : Admission
  deriving DecidableEq, Repr

/-- The query `SELECT pk FROM s.t ORDER BY pk ASC LIMIT 1` with `Scan`, over
the keys of the table in ascending order: no row is an error. -/
def GetFirstIdByPrimaryKey {κ : Type} (K : List κ) : Except String κ :=
  match K with
  | [] => .error "no rows in result set"
  | k :: _ => .ok k

/-- The statements `<-concurrentTables` and `wg.Done()`. -/
def Admission.release (a : Admission) : Admission :=
  { a with tokens := a.tokens - 1, wg := a.wg - 1 }

/-- The method `processTable`. -/
def processTable {κ ρ : Type} (env : TableEnv κ ρ) (tableInfoChan : TableInfoChan κ ρ)
    (concurrentTables : Admission) : Except Fault (TableRun κ ρ) :=
  if tableInfoChan.TableInfo.PrimaryKeys.length = 0 then
    .ok { tableInfoChan := tableInfoChan, stageA := false, stageB := false,
          admission := concurrentTables }
  else if tableInfoChan.TableInfo.PrimaryKeys.length > 1 then
    match env.firstKey with
    | .error _ =>
      .ok { tableInfoChan := tableInfoChan, stageA := false, stageB := false,
            admission := concurrentTables }
    | .ok firstIds =>
      match env.stages firstIds tableInfoChan with
      | .error f => .error f
      | .ok t =>
        .ok { tableInfoChan := t, stageA := true, stageB := true,
              admission := concurrentTables.release }
  else
    match env.firstKey with
    | .error _ =>
      .ok { tableInfoChan := tableInfoChan, stageA := false, stageB := false,
            admission := concurrentTables }
    | .ok firstId =>
      match env.stages firstId tableInfoChan with
      | .error f => .error f
      | .ok t =>
        .ok { tableInfoChan := t, stageA := true, stageB := true,
              admission := concurrentTables.release }

/-- A run of `GetRecordsFromSource`: the channel objects pushed on the
multiplexer as allocated, the `processTable` calls, the admission state, the
flag `processedAllTables`, the error returned and whether the call returned
(it does not when a send on `concurrentTables` or `wg.Wait()` blocks for good). -/
structure SourceRun (κ ρ : Type) where
  tableInfoChan : List (TableInfoChan κ ρ)
  tables : List (TableRun κ ρ)
  admission : Admission
  processedAllTables : Bool
  err : Option String
  returned : Bool
  deriving DecidableEq, Repr

/-- The `for` loop of `GetRecordsFromSource` over the catalog; every
`processTable` goroutine is run to its return before the next table is
admitted, so a send on a full `concurrentTables` blocks for good.  The two
`make` calls of `NewTableInfoChan` panic on a negative size. -/
def admitTables {κ ρ : Type} (p : postgresMigration) (env : TableInfo → TableEnv κ ρ) :
    List TableInfo → SourceRun κ ρ → Except Fault (SourceRun κ ρ)
  | [], run => .ok run
  | tableInfo :: rest, run =>
    match makechan p.workerConfig.WorkerBatchSize, makechan p.workerConfig.IdBatchSize with
    | .error f, _ => .error f
    | .ok _, .error f => .error f
    | .ok _, .ok _ =>
      let infoChan : TableInfoChan κ ρ :=
        NewTableInfoChan tableInfo p.workerConfig.WorkerBatchSize p.workerConfig.IdBatchSize
      let run1 := { run with tableInfoChan := run.tableInfoChan ++ [infoChan] }
      if (run1.admission.tokens : Int) < run1.admission.cap then
        let admitted : Admission :=
          { run1.admission with tokens := run1.admission.tokens + 1, wg := run1.admission.wg + 1 }
        match processTable (env tableInfo) infoChan admitted with
        | .error f => .error f
        | .ok tableRun =>
          admitTables p env rest
            { run1 with tables := run1.tables ++ [tableRun], admission := tableRun.admission }
      else .ok { run1 with returned := false }

/-- The method `GetRecordsFromSource`; `db` answers the metadata query for
the given schemas.  The call `make(chan bool, p.workerConfig.ConcurrentTables)`
that follows a successful query panics on a negative size. -/
def GetRecordsFromSource {κ ρ : Type} (p : postgresMigration)
    (db : List String → Except String (List (Except String ColumnInfo)))
    (env : TableInfo → TableEnv κ ρ) : Except Fault (SourceRun κ ρ) :=
  let start : SourceRun κ ρ :=
    { tableInfoChan := [], tables := []
      admission := { cap := p.workerConfig.ConcurrentTables, tokens := 0, wg := 0 }
      processedAllTables := false, err := none, returned := true }
  match GetTableInfo (db p.configuration.Schemas) with
  | .error e => .ok { start with err := some e }
  | .ok tableInfoList =>
    match makechan p.workerConfig.ConcurrentTables with
    | .error f => .error f
    | .ok _ =>
      match admitTables p env tableInfoList start with
      | .error f => .error f
      | .ok run =>
        if run.returned then
          if run.admission.wg = 0 then .ok { run with processedAllTables := true }
          else .ok { run with returned := false }
        else .ok run

/-! ## The runner (`Run`) -/

/-- What can happen next to a run of `Run`: the three effects of the source
goroutine (a channel object pushed on `tableInfoChan`, `processedAllTables`
set, an error returned and logged), the cancellation of the context, and the
two cases of the `select` of the drain loop; `recv` carries what the `select`
of `processTableInfo` receives for the table taken. -/
inductive RunEvent (κ ρ : Type) where
  | admitted (infoChan : TableInfoChan κ ρ)
  | processedAllTables
  | sourceError (e : String)
  | cancel
  | recv (events : List (Event ρ))
  | done

/-- The state of `Run` in its drain loop. -/
structure RunState (κ ρ : Type) where
  m : migrationRunner ρ
  tableInfoChan : List (TableInfoChan κ ρ)
  closed : Bool
  processedAllTables : Bool
  cancelled : Bool
  exitTableProcessing : Bool
  drained : List (String × List (BatchCall ρ))
  logged : List String
  deriving DecidableEq, Repr

/-- One event of the drain loop of `Run`.  A `select` case that is not ready
is `blocked`; a `recv` whose events end before `processTableInfo` returns is
`outOfFuel`. -/
def RunStep {κ ρ : Type} (marshal : List ρ → Except String String) (s : RunState κ ρ) :
    RunEvent κ ρ → Except Fault (RunState κ ρ)
  | .admitted infoChan => .ok { s with tableInfoChan := s.tableInfoChan ++ [infoChan] }
  | .processedAllTables => .ok { s with processedAllTables := true }
  | .sourceError e =>
    .ok { s with logged := s.logged ++ ["Error getting records from source: " ++ e] }
  | .cancel => .ok { s with cancelled := true }
  | .done =>
    if s.exitTableProcessing then .error .blocked
    else if s.cancelled then .ok { s with exitTableProcessing := true }
    else .error .blocked
  | .recv events =>
    if s.exitTableProcessing then .error .blocked
    else
      match s.tableInfoChan with
      | [] => if s.closed then .ok { s with exitTableProcessing := true } else .error .blocked
      | infoChan :: rest =>
        match processTableInfo marshal s.m infoChan.TableInfo.TableName events with
        | .error f => .error f
        | .ok c =>
          if c.processedRecordsChan then
            let s1 := { s with
              m := c.m
              tableInfoChan := rest
              drained := s.drained ++ [(infoChan.TableInfo.TableName, c.calls)] }
            if c.records.length = 0 ∧ s1.processedAllTables = true then
              .ok { s1 with exitTableProcessing := true }
            else .ok s1
          else .error .outOfFuel

/-- The drain loop of `Run` over a sequence of events. -/
def RunLoop {κ ρ : Type} (marshal : List ρ → Except String String) :
    List (RunEvent κ ρ) → RunState κ ρ → Except Fault (RunState κ ρ)
  | [], s => .ok s
  | e :: es, s =>
    match RunStep marshal s e with
    | .error f => .error f
    | .ok s1 => RunLoop marshal es s1

/-- What `Run` has done when it returns: the error it returns, the failed
record files it wrote (path and content) and its last loop state. -/
structure RunResult (κ ρ : Type) where
  err : Option String
  files : List (String × String)
  state : RunState κ ρ
  deriving DecidableEq, Repr

/-- The block of `Run` after the loop: one file for each table whose failed
records are not empty and can be serialized (the disk write itself is taken
to succeed; its failure is only logged). -/
def saveFailedRecords {ρ : Type} (marshal : List ρ → Except String String)
    (failedRecords : GoMap (List ρ)) : List (String × String) :=
  failedRecords.filterMap (fun entry =>
    if entry.2.length = 0 then none
    else
      match ConvertRecordsToJSON marshal entry.2 with
      | .error _ => none
      | .ok jsonData => some (entry.1 ++ "_failed_records.json", jsonData))

/-- The method `Run`: the runner starts with an empty `failedRecords` and an
open, empty `tableInfoChan`; it returns once the loop has set
`exitTableProcessing` (`outOfFuel` when the events end before that).  Its first
statement, `make(chan *dtos.TableInfoChan, m.workerConfig.ConcurrentTables)`,
panics on a negative size (a size `NewMigrationRunner` never stores). -/
def Run {κ ρ : Type} (marshal : List ρ → Except String String) (m : migrationRunner ρ)
    (events : List (RunEvent κ ρ)) : Except Fault (RunResult κ ρ) :=
  let start : RunState κ ρ :=
    { m := { m with failedRecords := [] }, tableInfoChan := [], closed := false,
      processedAllTables := false, cancelled := false, exitTableProcessing := false,
      drained := [], logged := [] }
  match makechan m.workerConfig.ConcurrentTables with
  | .error f => .error f
  | .ok _ =>
    match RunLoop marshal events start with
    | .error f => .error f
    | .ok s =>
      if s.exitTableProcessing then
        .ok { err := none, files := saveFailedRecords marshal s.m.failedRecords, state := s }
      else .error .outOfFuel

/-! ## Sample environments -/

/-- The answer of the source to the metadata query when its catalog holds
`rows`: the rows of the requested schemas (`WHERE c.table_schema in (...)`). -/
def catalogOf (rows : List ColumnInfo) (schemas : List String) :
    Except String (List (Except String ColumnInfo)) :=
  .ok ((rows.filter (fun c => decide (c.Schema ∈ schemas))).map Except.ok)

/-- The environment of a table without rows: the first-key query finds no
row (the stages are never reached). -/
def emptyTable {κ ρ : Type} : TableEnv κ ρ :=
  { firstKey := GetFirstIdByPrimaryKey [], stages := fun _ t => .ok t }

/-- One schedule of the stages of a single-column table: the Stage A goroutine
runs to its return, then the controller loop takes each range in turn, its
worker fetches, forwards and counts the records and is done, and at last the
timer fires.  The run is the channel object when the loop has then returned. -/
def sequentialStages {κ ρ : Type} (p : postgresMigration)
    (FetchBatchPrimaryKeys : κ → Bool → Int → Except String (List κ))
    (GetRecordsById : PrimaryKeyRange κ → Except String (List ρ)) (fuel : Nat)
    (firstId : κ) (tableInfoChan : TableInfoChan κ ρ) : Except Fault (TableInfoChan κ ρ) :=
  match getPrimaryKeyRange FetchBatchPrimaryKeys fuel firstId true p.stageASizes.1
      p.stageASizes.2 tableInfoChan with
  | .error f => .error f
  | .ok t =>
    let events : List (StageBEvent κ ρ) :=
      (t.PrimaryKeyRange.sent.enum.map (fun ir =>
        [StageBEvent.range, StageBEvent.fetched ir.1 (GetRecordsById ir.2),
         StageBEvent.exit ir.1])).flatten ++ [StageBEvent.timeout]
    match getRecordsFromPrimaryKeyRange p events t with
    | .error f => .error f
    | .ok s => if s.processingDone && s.workers.isEmpty then .ok s.infoChan else .error .outOfFuel

/-- The environment of a single-column table whose keys, in ascending order,
are `K` and whose records are their keys: keyset pages for Stage A and closed
ranges for Stage B, under the schedule `sequentialStages`. -/
def keysetTable (p : postgresMigration) (K : List Nat) : TableEnv Nat Nat :=
  { firstKey := GetFirstIdByPrimaryKey K
    stages := sequentialStages p
      (fun cursor inclusive limit => .ok (keysetPage K cursor inclusive limit.toNat))
      (fun r =>
        match r.IdRange with
        | some window => .ok (K.filter (fun k => inRange k window))
        | none => .ok [])
      (K.length + 1) }

/-- A source configuration that lists schema `public` and excludes it in all
three ways: the schema, the table `platform` by name and by regex. -/
def publicExcluded : Configuration :=
  { Schemas := ["public"], ExcludedSchemas := ["public"]
    ExcludeTableRegexList := [{ Schema := "public", Regex := ["^platform$"] }]
    ExcludeTablesList := [{ Schema := "public", Tables := ["platform"] }], Pool := 4 }

/-- The metadata rows of two tables named `platform`: `b.platform` with the
PK column `id`, and `a.platform` with the single column `v` and no primary key. -/
def twoSchemaRows : List ColumnInfo :=
  [⟨"b", "platform", "id", "int8", 1, some 64, some 0, none, true⟩,
   ⟨"a", "platform", "v", "text", 1, none, none, none, false⟩]

/-- A source configuration for the schemas `a` and `b`. -/
def twoSchemas : Configuration :=
  { Schemas := ["a", "b"], ExcludedSchemas := [], ExcludeTableRegexList := [],
    ExcludeTablesList := [], Pool := 4 }
/-- The descriptor `GetTableInfo` builds for `a.platform` of `twoSchemaRows`:
no primary key. -/
def noPrimaryKeyTable : TableInfo :=
  { TableSchema := "a", TableName := "platform"
    Columns := [⟨"a", "platform", "v", "text", 1, none, none, none, false⟩], PrimaryKeys := [] }

/-- A page fetch that answers the first, inclusive page with the keys 1, 2, 3
and fails afterwards (a lost connection or a cancelled context). -/
def failingSecondPage (_ : Nat) (inclusive : Bool) (_ : Int) : Except String (List Nat) :=
  if inclusive then .ok [1, 2, 3] else .error "context canceled"

/-- A state of Stage B in which Stage A has finished and the only range, of two
keys, was fetched and counted and its worker is done. -/
def countedStageB : StageB Nat Nat :=
  { infoChan :=
      { TableInfo := platformTable
        PrimaryKeyRange := { cap := 2, sent := [idRange (1, 2)] }
        RecordsChan := { cap := 3, sent := [1, 2] }
        totalUuidsRead := 2, totalRecordsRead := 2
        ReadingIdsDone := true, ReadingRecordsDone := false }
    received := 1, workers := [], processingDone := false }

/-- What `Run` returns for one table with one record when the PUT is answered
500 and the token fires afterwards: the record is in the failed-records file. -/
def failedRun : RunResult Nat Nat :=
  { err := none
    files := [("platform_failed_records.json", "[10]")]
    state :=
      { m := { failedRecords := [("platform", [10])]
               workerConfig := ⟨1, 10000, 10000, 1, 1000, 1⟩ }
        tableInfoChan := [], closed := false, processedAllTables := false, cancelled := true
        exitTableProcessing := true
        drained := [("platform",
          [{ records := [10], puts := [⟨"platform", "b1", "[10]", 1⟩], uploaded := false }])]
        logged := [] } }

/-! ## Observations on a run of Stage C -/

/-- Records carried by the successful uploads of a call log. -/
def uploadedRecords {ρ : Type} (calls : List (BatchCall ρ)) : Nat :=
  ((calls.filter (fun c => c.uploaded)).map (fun c => c.records.length)).sum

/-- Records of the batches of a call log that were not uploaded, in call order. -/
def failedBatches {ρ : Type} (calls : List (BatchCall ρ)) : List ρ :=
  ((calls.filter (fun c => !c.uploaded)).map (fun c => c.records)).flatten

/-- The UUIDs drawn while an event is handled: the tracking id of a received
record, then the label of the batch. -/
def Event.uuids {ρ : Type} : Event ρ → List String
  | .record _ uuidStr env => [uuidStr, env.label]
  | .closed => []
  | .timeout env _ _ => [env.label]

/-- Accounting invariant of Stage C: the tracking map sums to the uploaded
records, its keys are UUIDs already drawn, and `failed[table]` is what it held
on entry followed by the batches that were not uploaded. -/
def Acct {ρ : Type} (tableName : String) (init : List ρ) (seen : List String)
    (s : StageC ρ) : Prop :=
  (mapValues s.checkAllRecordsProcessed).sum = uploadedRecords s.calls ∧
  (∀ e ∈ s.checkAllRecordsProcessed, e.1 ∈ seen) ∧
  s.m.failed tableName = init ++ failedBatches s.calls

/-- The loop invariant of Stage C for batch size `R`. -/
def StageCInv {ρ : Type} (R : Int) (s : StageC ρ) : Prop :=
  s.m.workerConfig.RecordBatchSize = R ∧ (s.records.length : Int) < R ∧
    ∀ c ∈ s.calls, 1 ≤ c.records.length ∧ (c.records.length : Int) ≤ R ∧
      ∀ p ∈ c.puts, 1 ≤ p.noOfRecords ∧ (p.noOfRecords : Int) ≤ R

/-! ## Catalog: what is claimed of it -/

/-- What the catalog claims of a built `TableInfo`: its columns are the rows of
its `(schema, table)` in row order, in increasing ordinal order, and its
primary keys are the flagged ones among them, in the same order. -/
def Grouped (rows : List ColumnInfo) (ti : TableInfo) : Prop :=
  ti.Columns = columnsOf rows ti.TableSchema ti.TableName ∧ ti.Columns ≠ [] ∧
  ti.Columns.Pairwise (fun a b => a.Ordinal ≤ b.Ordinal) ∧
  ti.PrimaryKeys = primaryKeysOf ti.Columns

/-- A second sample table, `public.orders`, with the columns `id` (PK) and
`note`. -/
def ordersRows : List ColumnInfo :=
  [⟨"public", "orders", "id", "int8", 1, some 64, some 0, none, true⟩,
   ⟨"public", "orders", "note", "text", 2, none, none, none, false⟩]
/-- Both levels of the catalog map have distinct keys. -/
def CatalogKeys (tableMap : GoMap (GoMap TableInfo)) : Prop :=
  (tableMap.map Prod.fst).Nodup ∧ ∀ e ∈ tableMap, (e.2.map Prod.fst).Nodup

/-! ## Page and range queries (`repository/repo.go`) -/

/-- A Go value of type `any` as the database driver scans or binds it: `nil`, a
boolean, an integer, a string, a 16-byte array (`[16]uint8`, a scanned UUID,
each byte a number below 256), a slice and a string-keyed map (a decoded JSON
array or object), and a pointer to a cell holding such a value (`*interface{}`,
what `new(any)` makes and `Scan` fills).  The address of a cell is not part of
the value; floating-point values are left out. -/
inductive Value where
  | null
  | bool (b : Bool)
  | int (n : Int)
  | str (s : String)
  | array16 (b : List Nat)
  | slice (vs : List Value)
  | object (fields : List (String × Value))
  | pointer (cell : Value)
  deriving Repr

/-- A statement handed to the driver (`db.Query(ctx, sql, args...)`): its text
and the values bound to `$1`, `$2`, ... in order. -/
structure Query where
  sql : String
  args : List Value
  deriving Repr

/-- The call `strings.Join(elems, sep)`. -/
def Join (elems : List String) (sep : String) : String :=
  sep.intercalate elems

/-- The call `fmt.Sprintf("$%d", n)`. -/
def placeholder (n : Int) : String :=
  "$" ++ toString n

/-- The index expression `m[k]` on a `map[string]any`: `nil` for an absent key. -/
def mapIndex (m : GoMap Value) (k : String) : Value :=
  (mapGet m k).getD Value.null

/-- The call `lo.SliceToMap(columnMeta, func(item) (item.Name, item))`: a later
column of the same name replaces an earlier one. -/
def SliceToMap (columnMeta : List ColumnInfo) : GoMap ColumnInfo :=
  columnMeta.foldl (fun m item => mapSet m item.Name item) []

/-- The expression `meta[name].DataType`: the zero value `""` for an absent name. -/
def dataTypeOf (columnMetaMap : GoMap ColumnInfo) (name : String) : String :=
  ((mapGet columnMetaMap name).map (fun c => c.DataType)).getD ""

/-- The table `hextable` of `encoding/hex`. -/
def hextable : List Char :=
  "0123456789abcdef".toList

/-- The function `hex.Encode`: two digits per byte, `hextable[v>>4]` and then
`hextable[v&0x0f]`. -/
def hexEncode (src : List Nat) : List Char :=
  (src.map (fun v => [hextable.getD (v / 16) '0', hextable.getD (v % 16) '0'])).flatten

/-- The method `uuid.UUID.String` of `github.com/google/uuid` (`encodeHex`):
the hex digits of `uuid[:4]`, `uuid[4:6]`, `uuid[6:8]`, `uuid[8:10]` and
`uuid[10:]`, a hyphen between two groups. -/
def UUIDString (uuid : List Nat) : String :=
  String.mk (hexEncode (uuid.take 4) ++ '-' :: hexEncode ((uuid.drop 4).take 2) ++
    '-' :: hexEncode ((uuid.drop 6).take 2) ++ '-' :: hexEncode ((uuid.drop 8).take 2) ++
    '-' :: hexEncode (uuid.drop 10))

/-- The function `getRecord`; `Marshal` is `json.Marshal`.  The assertion
`rawValue.(*interface{})` of the `uuid` and `json` cases panics unless
`rawValue` is a cell pointer; the assertion `.([16]uint8)` on the cell holds of
the values `array16` alone.  Where the Go function returns `rawValue` the
result is the pointer, not the value in its cell. -/
def getRecord (Marshal : Value → Except String String) (columnMetaMap : GoMap ColumnInfo)
    (name : String) (rawValue : Value) : Except Fault Value :=
  if dataTypeOf columnMetaMap name = "uuid" then
    match rawValue with
    | .pointer (.array16 uuidBytes) => .ok (.str (UUIDString uuidBytes))
    | .pointer _ => .ok rawValue
    | _ => .error .interfaceConversion
  else if dataTypeOf columnMetaMap name = "json" ∨ dataTypeOf columnMetaMap name = "jsonb" then
    match rawValue with
    | .pointer cell =>
      match Marshal cell with
      | .ok bytesData => .ok (.str bytesData)
      | .error _ => .ok rawValue
    | _ => .error .interfaceConversion
  else .ok rawValue

/-- The inner loop of `deserializeRecords` over the columns of one row:
`values[i]` is a fresh cell (`new(any)`, holding `nil`) in which `Scan` stores
the value of column `i`, so the test `values[i] == nil` never holds and
`getRecord` is called with a pointer, for every name of `columnNames`. -/
def deserializeRecord (Marshal : Value → Except String String)
    (columnMetaMap : GoMap ColumnInfo) :
    List String → List Value → GoMap Value → Except Fault (GoMap Value)
  | [], _, record => .ok record
  | colName :: rest, values, record =>
    match getRecord Marshal columnMetaMap colName (.pointer (values.headD .null)) with
    | .error f => .error f
    | .ok v => deserializeRecord Marshal columnMetaMap rest values.tail (mapSet record colName v)

/-- The function `deserializeRecords` over the rows of a result set; a row is
the values `Scan` stores in the cells, in the order of the selected columns,
or the error of `Scan`, which skips the row. -/
def deserializeRecords (Marshal : Value → Except String String)
    (columnMetaMap : GoMap ColumnInfo) (columnNames : List String) :
    List (Except String (List Value)) → Except Fault (List (GoMap Value))
  | [] => .ok []
  | .error _ :: rows => deserializeRecords Marshal columnMetaMap columnNames rows
  | .ok values :: rows =>
    match deserializeRecord Marshal columnMetaMap columnNames values [] with
    | .error f => .error f
    | .ok record =>
      match deserializeRecords Marshal columnMetaMap columnNames rows with
      | .error f => .error f
      | .ok records => .ok (record :: records)

/-- The locals `params`, `rowComps` and `paramCount` of
`FetchBatchMultiPrimaryKeys`. -/
structure RowComparison where
  params : List Value
  rowComps : List String
  paramCount : Int
  deriving Repr

/-- The value bound for one PK column, the `switch pk.DataType` of
`FetchBatchMultiPrimaryKeys`; `Sprint` is `fmt.Sprintf("%v", ·)`. -/
def paramVal (Sprint : Value → String) (lastIds : GoMap Value) (pk : PrimaryKey) : Value :=
  if pk.DataType = "int" ∨ pk.DataType = "bigint" then mapIndex lastIds pk.ColumnName
  else if pk.DataType = "double precision" then mapIndex lastIds pk.ColumnName
  else .str (Sprint (mapIndex lastIds pk.ColumnName))

/-- The loop `for _, pk := range primaryKeys` of `FetchBatchMultiPrimaryKeys`
that builds the row comparison. -/
def rowComparison (Sprint : Value → String) (lastIds : GoMap Value)
    (primaryKeys : List PrimaryKey) : RowComparison :=
  primaryKeys.foldl
    (fun acc pk =>
      { params := acc.params ++ [paramVal Sprint lastIds pk]
        rowComps := acc.rowComps ++ [placeholder acc.paramCount]
        paramCount := acc.paramCount + 1 })
    { params := [], rowComps := [], paramCount := 1 }

/-- The method `FetchBatchMultiPrimaryKeys`; `db` is the driver: it runs the
statement it is handed and gives its rows or its error.  The outer result is a
panic, the inner one the error the method returns. -/
def FetchBatchMultiPrimaryKeys (Sprint : Value → String)
    (Marshal : Value → Except String String)
    (db : Query → Except String (List (Except String (List Value))))
    (lastIds : GoMap Value) (includeLastId : Bool) (columnMeta : List ColumnInfo)
    (tableSchema tableName : String) (primaryKeys : List PrimaryKey) (idBatchSize : Int) :
    Except Fault (Except String (List (GoMap Value))) :=
  let columnMetaMap := SliceToMap columnMeta
  let selectColumns := primaryKeys.map (fun pk => pk.ColumnName)
  let selectClause := Join selectColumns ", "
  let firstCompare := if includeLastId then ">=" else ">"
  let rc := rowComparison Sprint lastIds primaryKeys
  let whereConditions :=
    ["(" ++ Join selectColumns ", " ++ ") " ++ firstCompare ++ " (" ++ Join rc.rowComps ", " ++ ")"]
  let params := rc.params ++ [Value.int idBatchSize]
  let query := "SELECT " ++ selectClause ++ " FROM " ++ tableSchema ++ "." ++ tableName ++
    " WHERE " ++ Join whereConditions " AND " ++ " ORDER BY " ++ selectClause ++
    " LIMIT " ++ placeholder rc.paramCount
  match db { sql := query, args := params } with
  | .error err => .ok (.error ("failed to fetch primary key batch: " ++ err))
  | .ok rows =>
    match deserializeRecords Marshal columnMetaMap selectColumns rows with
    | .error f => .error f
    | .ok records => .ok (.ok records)

/-- The two placeholder lists of `GetRecordsByMultiPrimaryKeys`, built by the
loop `for i := range len(keys)`. -/
def rhsValuePlaceHolders (n : Nat) : List String × List String :=
  (List.range n).foldl
    (fun (acc : List String × List String) (i : Nat) =>
      (acc.1 ++ [placeholder ((i : Int) + 1)], acc.2 ++ [placeholder ((i : Int) + (n : Int) + 1)]))
    ([], [])

/-- The method `GetRecordsByMultiPrimaryKeys`; `db` is the driver. -/
def GetRecordsByMultiPrimaryKeys (Marshal : Value → Except String String)
    (db : Query → Except String (List (Except String (List Value))))
    (columns : List ColumnInfo) (keys : List PrimaryKey) (tableSchema tableName : String)
    (idsStart idsEnd : GoMap Value) : Except Fault (Except String (List (GoMap Value))) :=
  let columnMetaMap := SliceToMap columns
  let columnNames := columns.map (fun c => c.Name)
  let columnList := Join columnNames ", "
  let values := keys.foldl
    (fun acc key =>
      (acc.1 ++ [mapIndex idsStart key.ColumnName], acc.2 ++ [mapIndex idsEnd key.ColumnName]))
    (([], []) : List Value × List Value)
  let rhs := rhsValuePlaceHolders keys.length
  let rhsValuePlaceHolder1Str := Join rhs.1 ", "
  let rhsValuePlaceHolder2Str := Join rhs.2 ", "
  let value1 := values.1 ++ values.2
  let keysStr := Join (keys.map (fun key => key.ColumnName)) ", "
  match db
      { sql := "SELECT " ++ columnList ++ " FROM " ++ tableSchema ++ "." ++ tableName ++
          " WHERE (" ++ keysStr ++ ") >= (" ++ rhsValuePlaceHolder1Str ++ ") AND (" ++ keysStr ++
          ") <= (" ++ rhsValuePlaceHolder2Str ++ ") ORDER BY " ++ keysStr
        args := value1 } with
  | .error err => .ok (.error err)
  | .ok rows =>
    match deserializeRecords Marshal columnMetaMap columnNames rows with
    | .error f => .error f
    | .ok records => .ok (.ok records)

/-! ## Samples: a composite key, its cursor and a driver -/

/-- The formatting `fmt.Sprintf("%v", v)` of the values the sample cursors
hold: a pointer as an address, an integer in decimal, a string as it is, `nil`
as `<nil>` and a boolean as `true` or `false`; the samples format no other
value. -/
def sampleSprint : Value → String
  | .pointer _ => "0xc000012120"
  | .int n => toString n
  | .str s => s
  | .null => "<nil>"
  | .bool b => toString b
  | _ => ""

/-- The primary key of scenario S3 as the catalog delivers it: `tenant` of
type `int4` and `id` of type `uuid`. -/
def tenantIdKey : List PrimaryKey :=
  [⟨"tenant", "int4"⟩, ⟨"id", "uuid"⟩]

/-- The columns of the table of scenario S3. -/
def tenantIdColumns : List ColumnInfo :=
  [⟨"public", "events", "tenant", "int4", 1, some 32, some 0, none, true⟩,
   ⟨"public", "events", "id", "uuid", 2, none, none, none, true⟩]

/-- The cursor after the first page of scenario S3, the tuple `(2, u3)` as
`deserializeRecords` leaves it: the cell pointer of `tenant` and the text of
the UUID. -/
def tenantIdCursor : GoMap Value :=
  [("id", .str "00000000-0000-0000-0000-000000000003"), ("tenant", .pointer (.int 2))]

/-- A driver that answers the two statements of scenario S3 for the cursor
`(2, u3)`, the page query with the row `(2, u4)` and the range query with the
rows `(1, u1)` to `(2, u3)`, and any other statement with an error. -/
def tenantIdDriver (q : Query) : Except String (List (Except String (List Value))) :=
  if q.sql = "SELECT tenant, id FROM public.events WHERE (tenant, id) > ($1, $2) ORDER BY tenant, id LIMIT $3"
      ∧ q.args.length = 3 then
    .ok [.ok [.int 2, .array16 [0, 0, 0, 0, 0, 0, 0, 0, 0, 0, 0, 0, 0, 0, 0, 4]]]
  else if q.sql = "SELECT tenant, id FROM public.events WHERE (tenant, id) >= ($1, $2) AND (tenant, id) <= ($3, $4) ORDER BY tenant, id"
      ∧ q.args.length = 4 then
    .ok [.ok [.int 1, .array16 [0, 0, 0, 0, 0, 0, 0, 0, 0, 0, 0, 0, 0, 0, 0, 1]],
         .ok [.int 1, .array16 [0, 0, 0, 0, 0, 0, 0, 0, 0, 0, 0, 0, 0, 0, 0, 2]],
         .ok [.int 2, .array16 [0, 0, 0, 0, 0, 0, 0, 0, 0, 0, 0, 0, 0, 0, 0, 3]]]
  else .error "unexpected statement"

/-! ## Decoding: hexadecimal digits and samples -/

/-- The value of a lowercase hexadecimal digit: its place in `hextable`. -/
def hexDigit (c : Char) : Option Nat :=
  if hextable.indexOf c < 16 then some (hextable.indexOf c) else none

/-- The bytes a string of hexadecimal digits spells, two digits per byte, the
high digit first (what `hex.Decode` reads back). -/
def hexDecode : List Char → Option (List Nat)
  | [] => some []
  | [_] => none
  | hi :: lo :: rest =>
    match hexDigit hi, hexDigit lo, hexDecode rest with
    | some h, some l, some bytes => some ((16 * h + l) :: bytes)
    | _, _, _ => none

/-- The metadata of a table `public.events` with the columns `tenant`
(`int4`), `id` (`uuid`), `doc` (`jsonb`) and `note` (`text`). -/
def eventsColumns : List ColumnInfo :=
  [⟨"public", "events", "tenant", "int4", 1, some 32, some 0, none, true⟩,
   ⟨"public", "events", "id", "uuid", 2, none, none, none, true⟩,
   ⟨"public", "events", "doc", "jsonb", 3, none, none, none, false⟩,
   ⟨"public", "events", "note", "text", 4, none, none, none, false⟩]

/-- The sixteen bytes of the UUID `123e4567-e89b-12d3-a456-426614174000`. -/
def sampleUuid : List Nat :=
  [0x12, 0x3e, 0x45, 0x67, 0xe8, 0x9b, 0x12, 0xd3, 0xa4, 0x56, 0x42, 0x66, 0x14, 0x17, 0x40, 0x00]

/-- A JSON encoder that fails on a batch holding the record 0 (a record with a
value `json.MarshalIndent` rejects, such as the float `NaN`) and writes any
other batch as its list. -/
def rejectingMarshal (rs : List Nat) : Except String String :=
  if 0 ∈ rs then .error "json: unsupported value: NaN" else .ok (toString rs)

/-- The text the source returns for the sample `jsonb` document. -/
def storedDoc : String :=
  "\x7b\"a\": \"y\", \"b\": \"x\"\x7d"

/-- What the driver scans from `storedDoc` into an `any`: the decoded
document, a Go map with the keys `a` and `b`. -/
def scannedDoc : Value :=
  .object [("a", .str "y"), ("b", .str "x")]

/-- The answer of `json.Marshal` on the sample document: its keys in sorted
order and no white space.  The samples marshal no other value. -/
def sampleMarshal : Value → Except String String
  | .object [("a", .str "y"), ("b", .str "x")] => .ok "\x7b\"a\":\"y\",\"b\":\"x\"\x7d"
  | _ => .error "json: unsupported type"

/-! ## Stage A: the effects of a run -/

/-- What Stage A does, in the order it does it: a page fetch (its cursor, its
inclusive flag and the page returned), a page fetch that failed, a range sent
on the ranges queue, the key counter raised by a count, and the store of
`ReadingIdsDone`. -/
inductive StageAEffect (κ : Type) where
  | fetched (lastId : κ) (includeLastId : Bool) (ids : List κ)
  | fetchFailed (lastId : κ) (includeLastId : Bool)
  | sent (r : PrimaryKeyRange κ)
  | counted (count : Nat)
  | idsDone
  deriving DecidableEq, Repr

/-- The method `getPrimaryKeyRange` once more, returning next to the channel
object the effects of the run in order: per turn the fetch, then one send per
slice of the page, then `IncrementTotalUuidsRead`. -/
def getPrimaryKeyRangeLog {κ ρ ε : Type}
    (FetchBatchPrimaryKeys : κ → Bool → Int → Except ε (List κ)) :
    Nat → κ → Bool → Int → Int → TableInfoChan κ ρ →
      Except Fault (TableInfoChan κ ρ × List (StageAEffect κ))
  | 0, _, _, _, _, _ => .error .outOfFuel
  | fuel + 1, lastId, includeLastId, idBatchSize, workerBatchSize, tableInfoChan =>
    match FetchBatchPrimaryKeys lastId includeLastId idBatchSize with
    | .error _ => .ok (tableInfoChan, [.fetchFailed lastId includeLastId])
    | .ok ids =>
      if ids.length = 0 then
        .ok ({ tableInfoChan with ReadingIdsDone := true },
          [.fetched lastId includeLastId ids, .idsDone])
      else
        match slicePage ids workerBatchSize with
        | .error f => .error f
        | .ok rs =>
          let t1 := tableInfoChan.sendRanges (rs.map idRange)
          let t2 := t1.IncrementTotalUuidsRead ids.length
          match goIndex ids ((ids.length : Int) - 1) with
          | .error f => .error f
          | .ok last =>
            match getPrimaryKeyRangeLog FetchBatchPrimaryKeys fuel last false idBatchSize
                workerBatchSize t2 with
            | .error f => .error f
            | .ok (t3, log) =>
              .ok (t3, .fetched lastId includeLastId ids ::
                (rs.map (fun r => StageAEffect.sent (idRange r)) ++ .counted ids.length :: log))

/-- The page fetches of a log, in order. -/
def fetches {κ : Type} (log : List (StageAEffect κ)) : List (κ × Bool × List κ) :=
  log.filterMap (fun e =>
    match e with
    | .fetched lastId includeLastId ids => some (lastId, includeLastId, ids)
    | _ => none)

/-- The consecutive pages of at most `b` keys of a key list. -/
def pagesOf {κ : Type} (b : Nat) (S : List κ) : List (List κ) :=
  (chunksOf b S.length S).map chunkList

/-- The effects expected of Stage A over a list of consecutive non-empty pages
followed by the empty page: for each page its fetch, then the ranges of its
slices of `w` keys, then its count; the cursor of the next fetch is the last
key of the page. -/
def pagesLog {κ : Type} (w : Nat) : κ → Bool → List (List κ) → List (StageAEffect κ)
  | c, incl, [] => [.fetched c incl [], .idsDone]
  | c, incl, page :: rest =>
    .fetched c incl page ::
      ((chunksOf w page.length page).map (fun x => StageAEffect.sent (idRange (chunkEnds x))) ++
        .counted page.length :: pagesLog w (page.getLastD c) false rest)

/-! ## Stage C: what a run has received and flushed -/

/-- The records a sequence of events delivers from the records queue, in order. -/
def receivedRecords {ρ : Type} (events : List (Event ρ)) : List ρ :=
  events.filterMap (fun e =>
    match e with
    | .record r _ _ => some r
    | _ => none)

/-- The records of the batches passed to `processBatch` so far, in flush order. -/
def flushed {ρ : Type} (s : StageC ρ) : List ρ :=
  (s.calls.map (fun c => c.records)).flatten

/-- Scenario S2 at Stage C: the records 1..12, each with its tracking id and
the label and answer of a flush it may trigger, and then an idle timeout that
finds the table read to the end. -/
def twelveRecords : List (Event Nat) :=
  (List.range 12).map (fun i =>
    Event.record (i + 1) ("r" ++ toString i) ⟨"b" ++ toString i, .response 200 "200 OK" ""⟩) ++
  [Event.timeout ⟨"b12", .response 200 "200 OK" ""⟩ true 12]

/-! ## Samples: two tables of one name -/

/-- The metadata rows of two tables named `platform`, one in schema `archive`
and one in schema `public`, each with the single PK column `id`. -/
def twoPlatformRows : List ColumnInfo :=
  [⟨"archive", "platform", "id", "int8", 1, some 64, some 0, none, true⟩,
   ⟨"public", "platform", "id", "int8", 1, some 64, some 0, none, true⟩]

/-- A source configuration for the schemas `archive` and `public`. -/
def archiveAndPublic : Configuration :=
  { Schemas := ["archive", "public"], ExcludedSchemas := [], ExcludeTableRegexList := [],
    ExcludeTablesList := [], Pool := 4 }

/-- The channel object of the table `platform` of a schema once Stage A and
Stage B have read its keys 1, 2, 3 with page size 3 and slice size 2: the three
records wait in its records queue and both latches are set. -/
def readPlatform (schema : String) : TableInfoChan Nat Nat :=
  { TableInfo :=
      { TableSchema := schema, TableName := "platform"
        Columns := [⟨schema, "platform", "id", "int8", 1, some 64, some 0, none, true⟩]
        PrimaryKeys := [⟨"id", "int8"⟩] }
    PrimaryKeyRange := { cap := 2, sent := [idRange (1, 2), idRange (3, 3)] }
    RecordsChan := { cap := 3, sent := [1, 2, 3] }
    totalUuidsRead := 3, totalRecordsRead := 3
    ReadingIdsDone := true, ReadingRecordsDone := true }

/-! ## Lemmas: the slicing loop -/

theorem goIndex_natCast {α : Type} (xs : List α) (i : Nat) (h : i < xs.length) :
    goIndex xs (i : Int) = .ok (xs[i]) := by
  simp [goIndex, List.getElem?_eq_getElem h]

theorem getLastD_take_drop {α : Type} (ids : List α) (i w : Nat) (hw : 1 ≤ w)
    (hi : i < ids.length) (hj : min (i + w) ids.length - 1 < ids.length) :
    ((ids.drop (i + 1)).take (w - 1)).getLastD ids[i] = ids[min (i + w) ids.length - 1] := by
  rw [List.getLastD_eq_getLast?, List.getLast?_eq_getElem?]
  simp only [List.length_take, List.length_drop]
  by_cases h0 : min (w - 1) (ids.length - (i + 1)) = 0
  · have : min (i + w) ids.length - 1 = i := by omega
    have hnil : List.take (w - 1) (List.drop (i + 1) ids) = [] := by
      apply List.eq_nil_of_length_eq_zero
      simp only [List.length_take, List.length_drop]; exact h0
    simp [h0, this, hnil]
  · have hlt : min (w - 1) (ids.length - (i + 1)) - 1 < w - 1 := by omega
    rw [List.getElem?_take_of_lt hlt, List.getElem?_drop]
    have : i + 1 + (min (w - 1) (ids.length - (i + 1)) - 1) = min (i + w) ids.length - 1 := by omega
    rw [this, List.getElem?_eq_getElem hj]
    simp

theorem sliceLoop_eq_chunks {κ : Type} (ids : List κ) (w : Nat) (hw : 1 ≤ w) :
    ∀ (fuel i : Nat), ids.length - i ≤ fuel →
      sliceLoop ids (w : Int) (fuel + 1) (i : Int)
        = .ok ((chunksOf w fuel (ids.drop i)).map chunkEnds) := by
  intro fuel
  induction fuel with
  | zero =>
    intro i h
    have : ¬ ((i : Int) < (ids.length : Int)) := by omega
    simp [sliceLoop, this, chunksOf]
  | succ fuel ih =>
    intro i h
    by_cases hi : i < ids.length
    · have hi2 : ((i : Int) < (ids.length : Int)) := by omega
      have hj : min (i + w) ids.length - 1 < ids.length := by omega
      have hend : (if (i : Int) + (w : Int) > (ids.length : Int) then (ids.length : Int)
          else (i : Int) + (w : Int)) - 1 = ((min (i + w) ids.length - 1 : Nat) : Int) := by
        split_ifs <;> omega
      have hrec := ih (i + w) (by omega)
      rw [List.drop_eq_getElem_cons hi]
      rw [sliceLoop]
      simp only [hi2, if_true, hend, goIndex_natCast ids i hi, goIndex_natCast ids _ hj]
      have hcast : (i : Int) + (w : Int) = ((i + w : Nat) : Int) := by push_cast; rfl
      rw [hcast, hrec]
      simp only [chunksOf, List.map_cons, chunkEnds]
      rw [getLastD_take_drop ids i w hw hi hj, List.drop_drop]
      have : i + 1 + (w - 1) = i + w := by omega
      rw [this]
    · have hi2 : ¬ ((i : Int) < (ids.length : Int)) := by omega
      have : ids.drop i = [] := List.drop_eq_nil_of_le (by omega)
      simp [sliceLoop, hi2, this, chunksOf]

theorem slicePage_eq_chunks {κ : Type} (ids : List κ) (w : Nat) (hw : 1 ≤ w) :
    slicePage ids (w : Int) = .ok ((chunksOf w ids.length ids).map chunkEnds) := by
  have := sliceLoop_eq_chunks ids w hw ids.length 0 (by omega)
  simpa [slicePage] using this

theorem chunksOf_join {α : Type} (w : Nat) :
    ∀ (fuel : Nat) (xs : List α), xs.length ≤ fuel →
      ((chunksOf w fuel xs).map chunkList).flatten = xs := by
  intro fuel
  induction fuel with
  | zero =>
    intro xs h
    have : xs = [] := List.eq_nil_of_length_eq_zero (by omega)
    simp [chunksOf, this]
  | succ fuel ih =>
    intro xs h
    cases xs with
    | nil => simp [chunksOf]
    | cons x xs =>
      have hlen : (xs.drop (w - 1)).length ≤ fuel := by
        simp only [List.length_drop, List.length_cons] at *; omega
      simp only [chunksOf, List.map_cons, List.flatten_cons, chunkList, ih _ hlen]
      simp

theorem chunksOf_length_le {α : Type} (w : Nat) (hw : 1 ≤ w) :
    ∀ (fuel : Nat) (xs : List α), ∀ c ∈ chunksOf w fuel xs, (chunkList c).length ≤ w := by
  intro fuel
  induction fuel with
  | zero => intro xs c hc; simp [chunksOf] at hc
  | succ fuel ih =>
    intro xs c hc
    cases xs with
    | nil => simp [chunksOf] at hc
    | cons x xs =>
      simp only [chunksOf, List.mem_cons] at hc
      rcases hc with rfl | hc
      · simp only [chunkList, List.length_cons, List.length_take]; omega
      · exact ih _ c hc

theorem chunksOf_getElem? {α : Type} (w : Nat) (hw : 1 ≤ w) :
    ∀ (fuel : Nat) (xs : List α) (k : Nat), xs.length ≤ fuel →
      (chunksOf w fuel xs)[k]? =
        match xs.drop (k * w) with
        | [] => none
        | y :: ys => some (y, ys.take (w - 1)) := by
  intro fuel
  induction fuel with
  | zero =>
    intro xs k h
    have : xs = [] := List.eq_nil_of_length_eq_zero (by omega)
    simp [chunksOf, this]
  | succ fuel ih =>
    intro xs k h
    cases xs with
    | nil => simp [chunksOf]
    | cons x xs =>
      have hlen : (xs.drop (w - 1)).length ≤ fuel := by
        simp only [List.length_drop, List.length_cons] at *; omega
      cases k with
      | zero => simp [chunksOf]
      | succ k =>
        have e : (k + 1) * w = (k * w + (w - 1)) + 1 := by
          rw [Nat.succ_mul]; omega
        simp only [chunksOf, List.getElem?_cons_succ, ih _ k hlen, e, List.drop_succ_cons,
          List.drop_drop]
        rw [Nat.add_comm (w - 1) (k * w)]

theorem chunksOf_length {α : Type} (w : Nat) (hw : 1 ≤ w) :
    ∀ (fuel : Nat) (xs : List α), xs.length ≤ fuel →
      (chunksOf w fuel xs).length = (xs.length + w - 1) / w := by
  intro fuel
  induction fuel with
  | zero =>
    intro xs h
    have : xs = [] := List.eq_nil_of_length_eq_zero (by omega)
    subst this
    simp only [chunksOf, List.length_nil]
    symm; apply Nat.div_eq_of_lt; omega
  | succ fuel ih =>
    intro xs h
    cases xs with
    | nil =>
      simp only [chunksOf, List.length_nil]
      symm; apply Nat.div_eq_of_lt; omega
    | cons x xs =>
      have hlen : (xs.drop (w - 1)).length ≤ fuel := by
        simp only [List.length_drop, List.length_cons] at *; omega
      simp only [chunksOf, List.length_cons, ih _ hlen, List.length_drop]
      by_cases hc : w - 1 ≤ xs.length
      · have e1 : xs.length - (w - 1) + w - 1 = xs.length := by omega
        have e2 : xs.length + 1 + w - 1 = xs.length + w := by omega
        rw [e1, e2, Nat.add_div_right _ (by omega)]
      · have e1 : xs.length - (w - 1) + w - 1 = w - 1 := by omega
        have e2 : xs.length + 1 + w - 1 = xs.length + w := by omega
        rw [e1, e2, Nat.add_div_right _ (by omega), Nat.div_eq_of_lt (by omega),
          Nat.div_eq_of_lt (by omega)]

/-! ## Lemmas: ranges over a sorted key list -/

theorem getLastD_eq_getLast_cons {α : Type} (x : α) (t : List α) :
    t.getLastD x = (x :: t).getLast (List.cons_ne_nil x t) := by
  cases t with
  | nil => rfl
  | cons y ys => rfl

theorem getLastD_mem_chunkList {α : Type} (c : α × List α) :
    (chunkEnds c).2 ∈ chunkList c := by
  obtain ⟨x, t⟩ := c
  simp only [chunkEnds, chunkList, getLastD_eq_getLast_cons]
  exact List.getLast_mem _

theorem le_getLast_of_sorted {κ : Type} [LinearOrder κ] (l : List κ) (hl : l.Pairwise (· < ·))
    (h : l ≠ []) : ∀ x ∈ l, x ≤ l.getLast h := by
  intro x hx
  have e := List.dropLast_append_getLast h
  rw [← e] at hx hl
  rcases List.mem_append.mp hx with hx | hx
  · have := (List.pairwise_append.mp hl).2.2 x hx (l.getLast h) (by simp)
    exact le_of_lt this
  · simp at hx; exact le_of_eq hx

theorem chunk_bounds {κ : Type} [LinearOrder κ] (c : κ × List κ)
    (hs : (chunkList c).Pairwise (· < ·)) :
    ∀ k ∈ chunkList c, (chunkEnds c).1 ≤ k ∧ k ≤ (chunkEnds c).2 := by
  intro k hk
  obtain ⟨x, t⟩ := c
  simp only [chunkList, chunkEnds] at *
  constructor
  · rcases List.mem_cons.mp hk with rfl | hk
    · exact le_refl _
    · exact le_of_lt ((List.pairwise_cons.mp hs).1 k hk)
  · rw [getLastD_eq_getLast_cons]
    exact le_getLast_of_sorted (x :: t) hs (List.cons_ne_nil _ _) k hk

theorem countP_inRange_of_lt {κ : Type} [LinearOrder κ] (k : κ) :
    ∀ (cs : List (κ × List κ)), (∀ x ∈ (cs.map chunkList).flatten, k < x) →
      (cs.map chunkEnds).countP (inRange k) = 0 := by
  intro cs h
  rw [List.countP_eq_zero]
  intro r hr
  obtain ⟨c, hc, rfl⟩ := List.mem_map.mp hr
  have hmem : c.1 ∈ (cs.map chunkList).flatten := by
    rw [List.mem_flatten]
    exact ⟨chunkList c, List.mem_map_of_mem _ hc, by simp [chunkList]⟩
  have := h _ hmem
  simp [inRange, chunkEnds, not_le.mpr this]

theorem countP_inRange_eq_one {κ : Type} [LinearOrder κ] :
    ∀ (cs : List (κ × List κ)), ((cs.map chunkList).flatten).Pairwise (· < ·) →
      ∀ k ∈ (cs.map chunkList).flatten, (cs.map chunkEnds).countP (inRange k) = 1 := by
  intro cs
  induction cs with
  | nil => intro _ k hk; simp at hk
  | cons c rest ih =>
    intro hs k hk
    simp only [List.map_cons, List.flatten_cons] at hs hk
    obtain ⟨hc, hrest, hcross⟩ := List.pairwise_append.mp hs
    simp only [List.map_cons, List.countP_cons]
    rcases List.mem_append.mp hk with hk | hk
    · have hb := chunk_bounds c hc k hk
      have h0 := countP_inRange_of_lt k rest (fun x hx => hcross k hk x hx)
      simp [h0, inRange, hb.1, hb.2]
    · have hlt := hcross _ (getLastD_mem_chunkList c) k hk
      have h1 := ih hrest k hk
      simp [h1, inRange, not_le.mpr hlt]

theorem filter_inRange_chunks {κ : Type} [LinearOrder κ] :
    ∀ (cs : List (κ × List κ)) (A : List κ),
      (A ++ (cs.map chunkList).flatten).Pairwise (· < ·) →
      (cs.map chunkEnds).map
          (fun r => (A ++ (cs.map chunkList).flatten).filter (fun k => inRange k r))
        = cs.map chunkList := by
  intro cs
  induction cs with
  | nil => intro A _; simp
  | cons c rest ih =>
    intro A hs
    simp only [List.map_cons, List.flatten_cons] at hs ⊢
    obtain ⟨_, hcR, hA⟩ := List.pairwise_append.mp hs
    obtain ⟨hc, _, hcross⟩ := List.pairwise_append.mp hcR
    have hfirst : c.1 ∈ chunkList c := by simp [chunkList]
    have hlast := getLastD_mem_chunkList c
    congr 1
    · rw [List.filter_append, List.filter_append]
      have h1 : A.filter (fun k => inRange k (chunkEnds c)) = [] := by
        rw [List.filter_eq_nil_iff]
        intro a ha
        have := hA a ha c.1 (List.mem_append_left _ hfirst)
        simp [inRange, chunkEnds, not_le.mpr this]
      have h2 : (chunkList c).filter (fun k => inRange k (chunkEnds c)) = chunkList c := by
        rw [List.filter_eq_self]
        intro k hk
        have := chunk_bounds c hc k hk
        simp [inRange, this.1, this.2]
      have h3 : ((rest.map chunkList).flatten).filter (fun k => inRange k (chunkEnds c)) = [] := by
        rw [List.filter_eq_nil_iff]
        intro x hx
        have := hcross _ hlast x hx
        simp [inRange, not_le.mpr this]
      rw [h1, h2, h3]; simp
    · have hs' : ((A ++ chunkList c) ++ (rest.map chunkList).flatten).Pairwise (· < ·) := by
        rw [List.append_assoc]; exact hs
      have := ih (A ++ chunkList c) hs'
      rw [List.append_assoc] at this
      exact this

theorem idRanges_map_idRange {κ : Type} (rs : List (κ × κ)) :
    idRanges (rs.map idRange) = rs := by
  induction rs with
  | nil => rfl
  | cons r rs ih =>
    simp only [idRanges, List.map_cons, List.filterMap_cons] at ih ⊢
    simp [idRange, ih]

theorem multiKeyRanges_map_multiKeyRange {κ : Type} (rs : List (κ × κ)) :
    multiKeyRanges (rs.map multiKeyRange) = rs := by
  induction rs with
  | nil => rfl
  | cons r rs ih =>
    simp only [multiKeyRanges, List.map_cons, List.filterMap_cons] at ih ⊢
    simp [multiKeyRange, ih]

theorem head_le_of_sorted {κ : Type} [LinearOrder κ] (K : List κ) (c : κ)
    (hK : K.Pairwise (· < ·)) (hc : K.head? = some c) : ∀ s ∈ K, c ≤ s := by
  cases K with
  | nil => simp at hc
  | cons x xs =>
    simp only [List.head?_cons, Option.some.injEq] at hc
    subst hc
    intro s hs
    rcases List.mem_cons.mp hs with rfl | hs
    · exact le_refl _
    · exact le_of_lt ((List.pairwise_cons.mp hK).1 s hs)

theorem slicePage_index {κ : Type} (page : List κ) (w : Nat) (hw : 1 ≤ w) :
    ∃ rs, slicePage page (w : Int) = .ok rs ∧ rs.length = (page.length + w - 1) / w ∧
      ∀ k, k < rs.length →
        k * w < page.length ∧ min (k * w + w) page.length - 1 < page.length ∧
        ∃ lo hi, page[k * w]? = some lo ∧ page[min (k * w + w) page.length - 1]? = some hi ∧
          rs[k]? = some (lo, hi) := by
  refine ⟨_, slicePage_eq_chunks page w hw, ?_, ?_⟩
  · rw [List.length_map, chunksOf_length w hw _ _ (le_refl _)]
  · intro k hk
    rw [List.length_map] at hk
    have hget := chunksOf_getElem? w hw page.length page k (le_refl _)
    have hsome : (chunksOf w page.length page)[k]? = some ((chunksOf w page.length page)[k]) :=
      List.getElem?_eq_getElem hk
    have hlt : k * w < page.length := by
      by_contra hge
      rw [List.drop_eq_nil_of_le (by omega)] at hget
      rw [hget] at hsome
      exact Option.noConfusion hsome
    have hj : min (k * w + w) page.length - 1 < page.length := by omega
    refine ⟨hlt, hj, page[k * w], page[min (k * w + w) page.length - 1],
      List.getElem?_eq_getElem hlt, List.getElem?_eq_getElem hj, ?_⟩
    rw [List.getElem?_map, hget, List.drop_eq_getElem_cons hlt]
    simp only [Option.map_some', chunkEnds]
    rw [getLastD_take_drop page (k * w) w hw hlt hj]

/-! ## Lemmas: the Stage A loops over keyset pages -/

theorem sendRanges_eq {κ ρ : Type} (rs : List (PrimaryKeyRange κ)) :
    ∀ (t : TableInfoChan κ ρ), t.sendRanges rs =
      { t with PrimaryKeyRange := { t.PrimaryKeyRange with sent := t.PrimaryKeyRange.sent ++ rs } } := by
  induction rs with
  | nil => intro t; simp [TableInfoChan.sendRanges]
  | cons r rs ih =>
    intro t
    have := ih { t with PrimaryKeyRange := t.PrimaryKeyRange.send r }
    simp only [TableInfoChan.sendRanges, List.foldl_cons] at this ⊢
    rw [this]
    simp [Chan.send]

theorem keysetPage_eq {κ : Type} [LinearOrder κ] (P S : List κ) (c : κ) (incl : Bool) (b : Nat)
    (hP : ∀ p ∈ P, ¬ ((if incl then decide (c ≤ p) else decide (c < p)) = true))
    (hS : ∀ s ∈ S, (if incl then decide (c ≤ s) else decide (c < s)) = true) :
    keysetPage (P ++ S) c incl b = S.take b := by
  unfold keysetPage
  rw [List.filter_append, List.filter_eq_nil_iff.mpr hP, List.filter_eq_self.mpr hS]
  rfl

theorem goIndex_last {α : Type} (xs : List α) (h : xs ≠ []) :
    goIndex xs ((xs.length : Int) - 1) = .ok (xs.getLast h) := by
  have hpos : 0 < xs.length := List.length_pos.mpr h
  have e : (xs.length : Int) - 1 = ((xs.length - 1 : Nat) : Int) := by omega
  rw [e, goIndex_natCast xs _ (by omega), List.getLast_eq_getElem]

theorem getPrimaryKeyRange_keyset {κ ρ ε : Type} [LinearOrder κ]
    (fetch : κ → Bool → Int → Except ε (List κ)) (K : List κ) (b w : Nat)
    (hb : 1 ≤ b) (hw : 1 ≤ w) (hK : K.Pairwise (· < ·))
    (hfetch : ∀ c incl, fetch c incl (b : Int) = .ok (keysetPage K c incl b)) :
    ∀ (fuel : Nat) (P S : List κ) (c : κ) (incl : Bool) (t : TableInfoChan κ ρ),
      K = P ++ S →
      (∀ p ∈ P, ¬ ((if incl then decide (c ≤ p) else decide (c < p)) = true)) →
      (∀ s ∈ S, (if incl then decide (c ≤ s) else decide (c < s)) = true) →
      S.length < fuel →
      ∃ cs : List (κ × List κ), (cs.map chunkList).flatten = S ∧
        (∀ x ∈ cs, (chunkList x).length ≤ w) ∧
        getPrimaryKeyRange fetch fuel c incl (b : Int) (w : Int) t = .ok
          { t with
            PrimaryKeyRange :=
              { t.PrimaryKeyRange with
                sent := t.PrimaryKeyRange.sent ++ (cs.map chunkEnds).map idRange }
            totalUuidsRead := t.totalUuidsRead + S.length
            ReadingIdsDone := true } := by
  intro fuel
  induction fuel with
  | zero => intro P S c incl t _ _ _ h; omega
  | succ fuel ih =>
    intro P S c incl t hKeq hP hS hfuel
    have hpage : fetch c incl (b : Int) = .ok (S.take b) := by
      rw [hfetch, hKeq, keysetPage_eq P S c incl b hP hS]
    cases S with
    | nil =>
      refine ⟨[], by simp, by simp, ?_⟩
      simp [getPrimaryKeyRange, hpage]
    | cons x xs =>
      have hne : (x :: xs).take b ≠ [] := by
        obtain ⟨b', rfl⟩ : ∃ b', b = b' + 1 := ⟨b - 1, by omega⟩
        simp
      have hlen0 : ¬ ((x :: xs).take b).length = 0 := by
        intro h; exact hne (List.eq_nil_of_length_eq_zero h)
      have hsplit : (x :: xs).take b ++ (x :: xs).drop b = x :: xs := List.take_append_drop _ _
      have hKs : (P ++ ((x :: xs).take b ++ (x :: xs).drop b)).Pairwise (· < ·) := by
        rw [hsplit, ← hKeq]; exact hK
      obtain ⟨_, hSs, hPS⟩ := List.pairwise_append.mp hKs
      obtain ⟨hpg, _, hcross⟩ := List.pairwise_append.mp hSs
      have hlastmem := List.getLast_mem hne
      obtain ⟨cs, hcs, hcsw, hrun⟩ := ih (P ++ (x :: xs).take b) ((x :: xs).drop b)
        (((x :: xs).take b).getLast hne) false
        ((t.sendRanges ((((chunksOf w ((x :: xs).take b).length ((x :: xs).take b)).map
          chunkEnds)).map idRange)).IncrementTotalUuidsRead ((x :: xs).take b).length)
        (by rw [List.append_assoc, hsplit, hKeq])
        (by
          intro p hp
          simp only [Bool.false_eq_true, if_false, decide_eq_true_eq, not_lt]
          rcases List.mem_append.mp hp with hp | hp
          · exact le_of_lt (hPS p hp _ (List.mem_append_left _ hlastmem))
          · exact le_getLast_of_sorted _ hpg hne p hp)
        (by
          intro s hs
          simp only [Bool.false_eq_true, if_false, decide_eq_true_eq]
          exact hcross _ hlastmem s hs)
        (by
          have : ((x :: xs).take b).length + ((x :: xs).drop b).length = (x :: xs).length := by
            rw [← List.length_append, hsplit]
          have : 0 < ((x :: xs).take b).length := List.length_pos.mpr hne
          omega)
      refine ⟨chunksOf w ((x :: xs).take b).length ((x :: xs).take b) ++ cs, ?_, ?_, ?_⟩
      · rw [List.map_append, List.flatten_append, hcs, chunksOf_join w _ _ (le_refl _), hsplit]
      · intro y hy
        rcases List.mem_append.mp hy with hy | hy
        · exact chunksOf_length_le w hw _ _ y hy
        · exact hcsw y hy
      · rw [getPrimaryKeyRange, hpage]
        simp only [hlen0, if_false, slicePage_eq_chunks _ w hw, goIndex_last _ hne, hrun]
        have hl : ((x :: xs).take b).length + ((x :: xs).drop b).length = (x :: xs).length := by
          rw [← List.length_append, hsplit]
        simp only [sendRanges_eq, TableInfoChan.IncrementTotalUuidsRead, List.map_append,
          List.append_assoc, Nat.add_assoc, hl]

theorem getMultiPrimaryKeyRange_keyset {κ ρ ε : Type} [LinearOrder κ]
    (fetch : κ → Bool → Int → Except ε (List κ)) (K : List κ) (b w : Nat)
    (hb : 1 ≤ b) (hw : 1 ≤ w) (hK : K.Pairwise (· < ·))
    (hfetch : ∀ c incl, fetch c incl (b : Int) = .ok (keysetPage K c incl b)) :
    ∀ (fuel : Nat) (P S : List κ) (c : κ) (incl : Bool) (t : TableInfoChan κ ρ),
      K = P ++ S →
      (∀ p ∈ P, ¬ ((if incl then decide (c ≤ p) else decide (c < p)) = true)) →
      (∀ s ∈ S, (if incl then decide (c ≤ s) else decide (c < s)) = true) →
      S.length < fuel →
      ∃ cs : List (κ × List κ), (cs.map chunkList).flatten = S ∧
        (∀ x ∈ cs, (chunkList x).length ≤ w) ∧
        getMultiPrimaryKeyRange fetch fuel c incl (b : Int) (w : Int) t = .ok
          { t with
            PrimaryKeyRange :=
              { t.PrimaryKeyRange with
                sent := t.PrimaryKeyRange.sent ++ (cs.map chunkEnds).map multiKeyRange }
            totalUuidsRead := t.totalUuidsRead + S.length
            ReadingIdsDone := true } := by
  intro fuel
  induction fuel with
  | zero => intro P S c incl t _ _ _ h; omega
  | succ fuel ih =>
    intro P S c incl t hKeq hP hS hfuel
    have hpage : fetch c incl (b : Int) = .ok (S.take b) := by
      rw [hfetch, hKeq, keysetPage_eq P S c incl b hP hS]
    cases S with
    | nil =>
      refine ⟨[], by simp, by simp, ?_⟩
      simp [getMultiPrimaryKeyRange, hpage]
    | cons x xs =>
      have hne : (x :: xs).take b ≠ [] := by
        obtain ⟨b', rfl⟩ : ∃ b', b = b' + 1 := ⟨b - 1, by omega⟩
        simp
      have hlen0 : ¬ ((x :: xs).take b).length = 0 := by
        intro h; exact hne (List.eq_nil_of_length_eq_zero h)
      have hsplit : (x :: xs).take b ++ (x :: xs).drop b = x :: xs := List.take_append_drop _ _
      have hKs : (P ++ ((x :: xs).take b ++ (x :: xs).drop b)).Pairwise (· < ·) := by
        rw [hsplit, ← hKeq]; exact hK
      obtain ⟨_, hSs, hPS⟩ := List.pairwise_append.mp hKs
      obtain ⟨hpg, _, hcross⟩ := List.pairwise_append.mp hSs
      have hlastmem := List.getLast_mem hne
      obtain ⟨cs, hcs, hcsw, hrun⟩ := ih (P ++ (x :: xs).take b) ((x :: xs).drop b)
        (((x :: xs).take b).getLast hne) false
        ((t.sendRanges ((((chunksOf w ((x :: xs).take b).length ((x :: xs).take b)).map
          chunkEnds)).map multiKeyRange)).IncrementTotalUuidsRead ((x :: xs).take b).length)
        (by rw [List.append_assoc, hsplit, hKeq])
        (by
          intro p hp
          simp only [Bool.false_eq_true, if_false, decide_eq_true_eq, not_lt]
          rcases List.mem_append.mp hp with hp | hp
          · exact le_of_lt (hPS p hp _ (List.mem_append_left _ hlastmem))
          · exact le_getLast_of_sorted _ hpg hne p hp)
        (by
          intro s hs
          simp only [Bool.false_eq_true, if_false, decide_eq_true_eq]
          exact hcross _ hlastmem s hs)
        (by
          have : ((x :: xs).take b).length + ((x :: xs).drop b).length = (x :: xs).length := by
            rw [← List.length_append, hsplit]
          have : 0 < ((x :: xs).take b).length := List.length_pos.mpr hne
          omega)
      refine ⟨chunksOf w ((x :: xs).take b).length ((x :: xs).take b) ++ cs, ?_, ?_, ?_⟩
      · rw [List.map_append, List.flatten_append, hcs, chunksOf_join w _ _ (le_refl _), hsplit]
      · intro y hy
        rcases List.mem_append.mp hy with hy | hy
        · exact chunksOf_length_le w hw _ _ y hy
        · exact hcsw y hy
      · rw [getMultiPrimaryKeyRange, hpage]
        simp only [hlen0, if_false, slicePage_eq_chunks _ w hw, goIndex_last _ hne, hrun]
        have hl : ((x :: xs).take b).length + ((x :: xs).drop b).length = (x :: xs).length := by
          rw [← List.length_append, hsplit]
        simp only [sendRanges_eq, TableInfoChan.IncrementTotalUuidsRead, List.map_append,
          List.append_assoc, Nat.add_assoc, hl]

/-! ## Lemmas: Stage C -/

theorem processBatch_records {ρ : Type} (marshal : List ρ → Except String String)
    (tableName : String) (env : SinkEnv) (s : StageC ρ) (batch : List ρ) :
    (processBatch marshal tableName env s batch).records = s.records := by
  unfold processBatch
  split
  · rfl
  · split <;> rfl

theorem processBatch_workerConfig {ρ : Type} (marshal : List ρ → Except String String)
    (tableName : String) (env : SinkEnv) (s : StageC ρ) (batch : List ρ) :
    (processBatch marshal tableName env s batch).m.workerConfig = s.m.workerConfig := by
  unfold processBatch
  split
  · rfl
  · split <;> rfl

theorem processBatch_flag {ρ : Type} (marshal : List ρ → Except String String)
    (tableName : String) (env : SinkEnv) (s : StageC ρ) (batch : List ρ) :
    (processBatch marshal tableName env s batch).processedRecordsChan
      = s.processedRecordsChan := by
  unfold processBatch
  split
  · rfl
  · split <;> rfl

theorem processBatch_calls {ρ : Type} (marshal : List ρ → Except String String)
    (tableName : String) (env : SinkEnv) (s : StageC ρ) (batch : List ρ) :
    ∃ c : BatchCall ρ, (processBatch marshal tableName env s batch).calls = s.calls ++ [c] ∧
      c.records = batch ∧ c.puts.length ≤ 1 ∧ ∀ p ∈ c.puts, p.noOfRecords = batch.length := by
  unfold processBatch
  split
  · exact ⟨_, rfl, rfl, by simp, by simp⟩
  · split
    · exact ⟨_, rfl, rfl, by simp, by simp⟩
    · exact ⟨_, rfl, rfl, by simp, by simp⟩

theorem StageCInv_processBatch {ρ : Type} (marshal : List ρ → Except String String)
    (tableName : String) (env : SinkEnv) (R : Int) (s : StageC ρ) (batch : List ρ)
    (hc : ∀ c ∈ s.calls, 1 ≤ c.records.length ∧ (c.records.length : Int) ≤ R ∧
      ∀ p ∈ c.puts, 1 ≤ p.noOfRecords ∧ (p.noOfRecords : Int) ≤ R)
    (h1 : 1 ≤ batch.length) (h2 : (batch.length : Int) ≤ R) :
    ∀ c ∈ (processBatch marshal tableName env s batch).calls,
      1 ≤ c.records.length ∧ (c.records.length : Int) ≤ R ∧
      ∀ p ∈ c.puts, 1 ≤ p.noOfRecords ∧ (p.noOfRecords : Int) ≤ R := by
  obtain ⟨c0, hcalls, hrec, _, hputs⟩ := processBatch_calls marshal tableName env s batch
  intro c hcmem
  rw [hcalls] at hcmem
  rcases List.mem_append.mp hcmem with h | h
  · exact hc c h
  · simp only [List.mem_singleton] at h
    subst h
    rw [hrec]
    refine ⟨h1, h2, ?_⟩
    intro p hp
    rw [hputs p hp]
    exact ⟨h1, h2⟩

theorem StageCInv_step {ρ : Type} (marshal : List ρ → Except String String)
    (tableName : String) (R : Int) (hR : 1 ≤ R) (s : StageC ρ) (e : Event ρ)
    (hinv : StageCInv R s) :
    ∃ s1, processTableInfoStep marshal tableName s e = .ok s1 ∧ StageCInv R s1 := by
  obtain ⟨hcfg, hlen, hcalls⟩ := hinv
  cases e with
  | closed => exact ⟨_, rfl, hcfg, hlen, hcalls⟩
  | record r u env =>
    simp only [processTableInfoStep, hcfg, List.length_append, List.length_singleton]
    by_cases hge : ((s.records.length + 1 : Nat) : Int) ≥ R
    · have hRlen : R = ((s.records.length + 1 : Nat) : Int) := by omega
      have hslice : goSliceTo (s.records ++ [r]) R = .ok (s.records ++ [r]) := by
        simp only [goSliceTo, List.length_append, List.length_singleton]
        rw [if_pos (by omega), hRlen, Int.toNat_ofNat]
        rw [List.take_of_length_le (by simp)]
      simp only [hge, if_true, hslice, processBatch_records, processBatch_workerConfig, hcfg,
        List.length_append, List.length_singleton]
      rw [if_neg (by omega)]
      refine ⟨_, rfl, ?_, ?_, ?_⟩
      · simp only [processBatch_workerConfig, hcfg]
      · simp only [List.length_nil]; omega
      · exact StageCInv_processBatch marshal tableName env R _ _ hcalls (by simp)
          (by simp only [List.length_append, List.length_singleton]; omega)
    · simp only [hge, if_false]
      refine ⟨_, rfl, hcfg, ?_, hcalls⟩
      simp only [List.length_append, List.length_singleton]; omega
  | timeout env rd total =>
    simp only [processTableInfoStep, hcfg]
    by_cases hpos : s.records.length > 0
    · have hnge : ¬ ((s.records.length : Int) ≥ R) := by omega
      simp only [hpos, if_true, hnge, if_false]
      have hinv2 : StageCInv R
          { processBatch marshal tableName env s s.records with records := [] } := by
        refine ⟨?_, ?_, ?_⟩
        · simp only [processBatch_workerConfig, hcfg]
        · simp only [List.length_nil]; omega
        · exact StageCInv_processBatch marshal tableName env R _ _ hcalls hpos (by omega)
      split
      · exact ⟨_, rfl, hinv2⟩
      · exact ⟨_, rfl, hinv2⟩
    · simp only [hpos, if_false]
      split
      · exact ⟨_, rfl, hcfg, hlen, hcalls⟩
      · exact ⟨_, rfl, hcfg, hlen, hcalls⟩

theorem StageCInv_loop {ρ : Type} (marshal : List ρ → Except String String)
    (tableName : String) (R : Int) (hR : 1 ≤ R) :
    ∀ (events : List (Event ρ)) (s : StageC ρ), StageCInv R s →
      ∃ s1, processTableInfoLoop marshal tableName events s = .ok s1 ∧ StageCInv R s1 := by
  intro events
  induction events with
  | nil => intro s h; exact ⟨s, rfl, h⟩
  | cons e es ih =>
    intro s h
    simp only [processTableInfoLoop]
    by_cases hf : s.processedRecordsChan = true
    · simp only [hf, if_true]; exact ⟨s, rfl, h⟩
    · obtain ⟨s1, hs1, hinv1⟩ := StageCInv_step marshal tableName R hR s e h
      simp only [hf, hs1]
      exact ih s1 hinv1

theorem mapGet_mapSet_self {β : Type} (m : GoMap β) (k : String) (v : β) :
    mapGet (mapSet m k v) k = some v := by
  simp [mapGet, mapSet]

theorem mapGet_filter_ne {β : Type} (m : GoMap β) (k k' : String) (h : k' ≠ k) :
    mapGet (m.filter (fun e => !decide (e.1 = k))) k' = mapGet m k' := by
  induction m with
  | nil => rfl
  | cons e m ih =>
    obtain ⟨a, b⟩ := e
    simp only [mapGet] at ih
    by_cases hk : a = k
    · subst hk
      have hk' : ¬ a = k' := fun h' => h h'.symm
      simpa [mapGet, List.filter_cons, List.find?_cons, hk'] using ih
    · by_cases hk' : a = k'
      · subst hk'
        simp [mapGet, List.filter_cons, hk, List.find?_cons]
      · simpa [mapGet, List.filter_cons, hk, hk', List.find?_cons] using ih

theorem mapGet_mapSet_ne {β : Type} (m : GoMap β) (k k' : String) (v : β) (h : k' ≠ k) :
    mapGet (mapSet m k v) k' = mapGet m k' := by
  have h2 : ¬ k = k' := fun h' => h h'.symm
  have := mapGet_filter_ne m k k' h
  simp only [mapGet, mapSet, List.find?_cons, h2, decide_False] at this ⊢
  exact this

theorem mapSet_fresh {β : Type} (m : GoMap β) (k : String) (v : β)
    (h : ∀ e ∈ m, e.1 ≠ k) : mapSet m k v = (k, v) :: m := by
  unfold mapSet
  congr 1
  rw [List.filter_eq_self]
  intro e he
  simp [h e he]

theorem failed_appendFailed_self {ρ : Type} (m : migrationRunner ρ) (t : String)
    (rs : List ρ) : (m.appendFailed t rs).failed t = m.failed t ++ rs := by
  simp [migrationRunner.appendFailed, migrationRunner.failed, mapGet_mapSet_self]

theorem failed_appendFailed_ne {ρ : Type} (m : migrationRunner ρ) (t t' : String)
    (rs : List ρ) (h : t' ≠ t) : (m.appendFailed t rs).failed t' = m.failed t' := by
  simp only [migrationRunner.appendFailed, migrationRunner.failed, mapGet_mapSet_ne _ _ _ _ h]

theorem processBatch_cases {ρ : Type} (marshal : List ρ → Except String String)
    (tableName : String) (env : SinkEnv) (s : StageC ρ) (batch : List ρ) :
    (∃ payload, batch ≠ [] ∧ marshal batch = .ok payload ∧
      StreamLoadDoris env.http env.label = .ok () ∧
      processBatch marshal tableName env s batch =
        { s with
          checkAllRecordsProcessed := mapSet s.checkAllRecordsProcessed env.label batch.length
          calls := s.calls ++
            [{ records := batch,
               puts := [{ table := tableName, label := env.label, payload := payload,
                          noOfRecords := batch.length }],
               uploaded := true }] }) ∨
    ((batch = [] ∨ (∃ e, marshal batch = .error e) ∨
        ∃ e, StreamLoadDoris env.http env.label = .error e) ∧
      ∃ puts : List SinkPut, puts.length ≤ 1 ∧
        processBatch marshal tableName env s batch =
          { s with
            m := s.m.appendFailed tableName batch
            calls := s.calls ++ [{ records := batch, puts := puts, uploaded := false }] }) := by
  unfold processBatch ConvertRecordsToJSON SyncDoris
  by_cases hb : batch.length = 0
  · right
    refine ⟨Or.inl (List.eq_nil_of_length_eq_zero hb), [], by simp, ?_⟩
    simp [hb]
  · have hne : batch ≠ [] := fun h => hb (by simp [h])
    cases hm : marshal batch with
    | error e =>
      right
      refine ⟨Or.inr (Or.inl ⟨e, rfl⟩), [], by simp, ?_⟩
      simp [hb]
    | ok payload =>
      cases hu : StreamLoadDoris env.http env.label with
      | error e =>
        right
        refine ⟨Or.inr (Or.inr ⟨e, rfl⟩),
          [{ table := tableName, label := env.label, payload := payload,
             noOfRecords := batch.length }], by simp, ?_⟩
        simp [hb]
      | ok u =>
        left
        refine ⟨payload, hne, rfl, rfl, ?_⟩
        simp [hb]

theorem uploadedRecords_append {ρ : Type} (calls : List (BatchCall ρ)) (c : BatchCall ρ) :
    uploadedRecords (calls ++ [c])
      = uploadedRecords calls + (if c.uploaded then c.records.length else 0) := by
  unfold uploadedRecords
  by_cases h : c.uploaded = true <;> simp [List.filter_append, List.filter_cons, h]

theorem failedBatches_append {ρ : Type} (calls : List (BatchCall ρ)) (c : BatchCall ρ) :
    failedBatches (calls ++ [c])
      = failedBatches calls ++ (if c.uploaded then [] else c.records) := by
  unfold failedBatches
  by_cases h : c.uploaded = true <;> simp [List.filter_append, List.filter_cons, h]

theorem Acct_congr {ρ : Type} (tableName : String) (init : List ρ) (seen : List String)
    (s s1 : StageC ρ) (hc : s1.checkAllRecordsProcessed = s.checkAllRecordsProcessed)
    (hm : s1.m = s.m) (hl : s1.calls = s.calls) (h : Acct tableName init seen s) :
    Acct tableName init seen s1 := by
  unfold Acct at *
  rw [hc, hm, hl]; exact h

theorem Acct_mono {ρ : Type} (tableName : String) (init : List ρ) (seen seen1 : List String)
    (s : StageC ρ) (hsub : ∀ x ∈ seen, x ∈ seen1) (h : Acct tableName init seen s) :
    Acct tableName init seen1 s :=
  ⟨h.1, fun e he => hsub _ (h.2.1 e he), h.2.2⟩

theorem Acct_track {ρ : Type} (tableName : String) (init : List ρ) (seen : List String)
    (s : StageC ρ) (u : String) (rs : List ρ) (hu : u ∉ seen)
    (h : Acct tableName init seen s) :
    Acct tableName init (seen ++ [u])
      { s with
        records := rs
        checkAllRecordsProcessed := mapSet s.checkAllRecordsProcessed u 0 } := by
  obtain ⟨h1, h2, h3⟩ := h
  have hfresh : ∀ e ∈ s.checkAllRecordsProcessed, e.1 ≠ u := by
    intro e he heq
    exact hu (heq ▸ h2 e he)
  refine ⟨?_, ?_, h3⟩
  · simp only [mapSet_fresh _ _ _ hfresh, mapValues, List.map_cons, List.sum_cons, Nat.zero_add]
    exact h1
  · intro e he
    simp only [mapSet_fresh _ _ _ hfresh, List.mem_cons] at he
    rcases he with rfl | he
    · simp
    · exact List.mem_append_left _ (h2 e he)

theorem Acct_processBatch {ρ : Type} (marshal : List ρ → Except String String)
    (tableName : String) (env : SinkEnv) (init : List ρ) (seen : List String)
    (s : StageC ρ) (batch : List ρ) (hl : env.label ∉ seen)
    (h : Acct tableName init seen s) :
    Acct tableName init (seen ++ [env.label]) (processBatch marshal tableName env s batch) := by
  obtain ⟨h1, h2, h3⟩ := h
  have hfresh : ∀ e ∈ s.checkAllRecordsProcessed, e.1 ≠ env.label := by
    intro e he heq
    exact hl (heq ▸ h2 e he)
  rcases processBatch_cases marshal tableName env s batch with
    ⟨payload, _, _, _, heq⟩ | ⟨_, puts, _, heq⟩
  · rw [heq]
    refine ⟨?_, ?_, ?_⟩
    · simp only [mapSet_fresh _ _ _ hfresh, mapValues, List.map_cons, List.sum_cons,
        uploadedRecords_append, if_true]
      simp only [mapValues] at h1
      omega
    · intro e he
      simp only [mapSet_fresh _ _ _ hfresh, List.mem_cons] at he
      rcases he with rfl | he
      · simp
      · exact List.mem_append_left _ (h2 e he)
    · simp only [failedBatches_append, Bool.true_eq_false, if_true, List.append_nil]
      exact h3
  · rw [heq]
    refine ⟨?_, ?_, ?_⟩
    · simp only [uploadedRecords_append, Bool.false_eq_true, if_false, Nat.add_zero]
      exact h1
    · intro e he
      exact List.mem_append_left _ (h2 e he)
    · simp only [failedBatches_append, Bool.false_eq_true, if_false,
        failed_appendFailed_self, h3, List.append_assoc]

theorem Acct_step {ρ : Type} (marshal : List ρ → Except String String)
    (tableName : String) (init : List ρ) (seen : List String) (s s1 : StageC ρ)
    (e : Event ρ) (hnd : (seen ++ e.uuids).Nodup) (h : Acct tableName init seen s)
    (hstep : processTableInfoStep marshal tableName s e = .ok s1) :
    Acct tableName init (seen ++ e.uuids) s1 := by
  cases e with
  | closed =>
    simp only [processTableInfoStep] at hstep
    injection hstep with hstep
    subst hstep
    simpa [Event.uuids] using h
  | record r u env =>
    simp only [Event.uuids] at hnd ⊢
    have hnd' : (seen ++ [u] ++ [env.label]).Nodup := by simpa using hnd
    have hu : u ∉ seen := by
      intro hmem
      have := (List.nodup_append.mp (List.nodup_append.mp hnd').1).2.2
      exact this hmem (by simp)
    have hl : env.label ∉ seen ++ [u] := by
      intro hmem
      exact (List.nodup_append.mp hnd').2.2 hmem (by simp)
    have hassoc : seen ++ [u, env.label] = seen ++ [u] ++ [env.label] := by simp
    rw [hassoc]
    have hA := Acct_track tableName init seen s u (s.records ++ [r]) hu h
    have hB := fun batch => Acct_processBatch marshal tableName env init (seen ++ [u]) _ batch
      hl hA
    simp only [processTableInfoStep] at hstep
    split at hstep
    · split at hstep
      · exact Except.noConfusion hstep
      · rename_i batch _
        have hC := hB batch
        split at hstep
        · split at hstep
          · exact Except.noConfusion hstep
          · injection hstep with hstep
            subst hstep
            exact Acct_congr _ _ _ _ _ rfl rfl rfl hC
        · injection hstep with hstep
          subst hstep
          exact Acct_congr _ _ _ _ _ rfl rfl rfl hC
    · injection hstep with hstep
      subst hstep
      exact Acct_mono _ _ _ _ _ (fun x hx => List.mem_append_left _ hx) hA
  | timeout env rd total =>
    simp only [Event.uuids] at hnd ⊢
    have hl : env.label ∉ seen := by
      intro hmem
      exact (List.nodup_append.mp hnd).2.2 hmem (by simp)
    have hB := fun batch => Acct_processBatch marshal tableName env init seen s batch hl h
    have hmono := Acct_mono tableName init seen (seen ++ [env.label]) s
      (fun x hx => List.mem_append_left _ hx) h
    simp only [processTableInfoStep] at hstep
    have key : ∀ s3 : StageC ρ, Acct tableName init (seen ++ [env.label]) s3 →
        (if checkTableProcessed s3.m tableName s3.checkAllRecordsProcessed rd total = true then
          (Except.ok { s3 with processedRecordsChan := true } : Except Fault (StageC ρ))
          else Except.ok s3) = Except.ok s1 →
        Acct tableName init (seen ++ [env.label]) s1 := by
      intro s3 h3 heq
      split at heq
      · injection heq with heq
        subst heq
        exact Acct_congr _ _ _ _ _ rfl rfl rfl h3
      · injection heq with heq
        subst heq
        exact h3
    split at hstep
    · exact Except.noConfusion hstep
    · rename_i s3 hflush
      refine key s3 ?_ hstep
      split at hflush
      · split at hflush
        · split at hflush
          · exact Except.noConfusion hflush
          · rename_i batch _
            split at hflush
            · exact Except.noConfusion hflush
            · injection hflush with hflush
              subst hflush
              exact Acct_congr _ _ _ _ _ rfl rfl rfl (hB batch)
        · injection hflush with hflush
          subst hflush
          exact Acct_congr _ _ _ _ _ rfl rfl rfl (hB s.records)
      · injection hflush with hflush
        subst hflush
        exact hmono

theorem Acct_loop {ρ : Type} (marshal : List ρ → Except String String)
    (tableName : String) (init : List ρ) :
    ∀ (events : List (Event ρ)) (seen : List String) (s s1 : StageC ρ),
      (seen ++ (events.map Event.uuids).flatten).Nodup → Acct tableName init seen s →
      processTableInfoLoop marshal tableName events s = .ok s1 →
      ∃ seen1, Acct tableName init seen1 s1 := by
  intro events
  induction events with
  | nil =>
    intro seen s s1 _ h hrun
    simp only [processTableInfoLoop] at hrun
    injection hrun with hrun
    subst hrun
    exact ⟨seen, h⟩
  | cons e es ih =>
    intro seen s s1 hnd h hrun
    simp only [processTableInfoLoop] at hrun
    split at hrun
    · injection hrun with hrun
      subst hrun
      exact ⟨seen, h⟩
    · split at hrun
      · exact Except.noConfusion hrun
      · rename_i s2 hstep
        simp only [List.map_cons, List.flatten_cons, ← List.append_assoc] at hnd
        have hA := Acct_step marshal tableName init seen s s2 e
          (List.nodup_append.mp hnd).1 h hstep
        exact ih _ _ _ hnd hA hrun

theorem processTableInfoLoop_append {ρ : Type} (marshal : List ρ → Except String String)
    (tableName : String) (e : Event ρ) :
    ∀ (pre : List (Event ρ)) (s0 s : StageC ρ),
      processTableInfoLoop marshal tableName pre s0 = .ok s → s.processedRecordsChan = false →
      processTableInfoLoop marshal tableName (pre ++ [e]) s0
        = processTableInfoStep marshal tableName s e := by
  intro pre
  induction pre with
  | nil =>
    intro s0 s hrun hflag
    simp only [processTableInfoLoop] at hrun
    injection hrun with hrun
    subst hrun
    simp only [List.nil_append, processTableInfoLoop, hflag, Bool.false_eq_true, if_false]
    cases processTableInfoStep marshal tableName s0 e <;> rfl
  | cons e1 pre ih =>
    intro s0 s hrun hflag
    simp only [processTableInfoLoop, List.cons_append] at hrun ⊢
    split at hrun
    · rename_i h0
      injection hrun with hrun
      subst hrun
      rw [hflag] at h0
      exact Bool.noConfusion h0
    · rename_i h0
      rw [if_neg h0]
      split at hrun
      · exact Except.noConfusion hrun
      · rename_i s2 hstep
        exact ih s2 s hrun hflag

theorem timeout_sets_flag {ρ : Type} (marshal : List ρ → Except String String)
    (tableName : String) (env : SinkEnv) (rd : Bool) (total : Nat) (s s1 : StageC ρ)
    (hstep : processTableInfoStep marshal tableName s (.timeout env rd total) = .ok s1)
    (h0 : s.processedRecordsChan = false) (h1 : s1.processedRecordsChan = true) :
    checkTableProcessed s1.m tableName s1.checkAllRecordsProcessed rd total = true := by
  simp only [processTableInfoStep] at hstep
  split at hstep
  · exact Except.noConfusion hstep
  · rename_i s3 hflush
    have hflag3 : s3.processedRecordsChan = false := by
      split at hflush
      · split at hflush
        · split at hflush
          · exact Except.noConfusion hflush
          · split at hflush
            · exact Except.noConfusion hflush
            · injection hflush with hflush
              subst hflush
              simp only [processBatch_flag, h0]
        · injection hflush with hflush
          subst hflush
          simp only [processBatch_flag, h0]
      · injection hflush with hflush
        subst hflush
        exact h0
    split at hstep
    · rename_i hcheck
      injection hstep with hstep
      subst hstep
      exact hcheck
    · injection hstep with hstep
      subst hstep
      rw [hflag3] at h1
      exact Bool.noConfusion h1

theorem Acct_init {ρ : Type} (m : migrationRunner ρ) (tableName : String) :
    Acct tableName (m.failed tableName) []
      { m := (match mapGet m.failedRecords tableName with
          | some _ => m
          | none => { m with failedRecords := mapSet m.failedRecords tableName [] })
        records := [], checkAllRecordsProcessed := [], processedRecordsChan := false,
        calls := [] } := by
  refine ⟨rfl, by simp, ?_⟩
  simp only [failedBatches, List.filter_nil, List.map_nil, List.flatten_nil, List.append_nil]
  cases hg : mapGet m.failedRecords tableName with
  | some v => rfl
  | none => simp [migrationRunner.failed, mapGet_mapSet_self, hg]

/-! ## Lemmas: the scheduler -/

theorem map_eq_replicate {α β : Type} (f : α → β) (c : β) :
    ∀ l : List α, (∀ x ∈ l, f x = c) → l.map f = List.replicate l.length c := by
  intro l
  induction l with
  | nil => intro _; rfl
  | cons x xs ih =>
    intro h
    simp only [List.map_cons, List.length_cons, List.replicate_succ]
    rw [h x (List.mem_cons_self _ _), ih (fun y hy => h y (List.mem_cons_of_mem _ hy))]

theorem makechan_ok (size : Int) (u : Unit) (h : makechan size = .ok u) : 0 ≤ size := by
  unfold makechan at h
  split at h
  · exact Except.noConfusion h
  · omega

theorem admitTables_allocated {κ ρ : Type} (p : postgresMigration)
    (env : TableInfo → TableEnv κ ρ) :
    ∀ (tables : List TableInfo) (run run1 : SourceRun κ ρ),
      (∀ t ∈ run.tableInfoChan, (∃ tableInfo,
        t = NewTableInfoChan tableInfo p.workerConfig.WorkerBatchSize p.workerConfig.IdBatchSize) ∧
        0 ≤ p.workerConfig.WorkerBatchSize ∧ 0 ≤ p.workerConfig.IdBatchSize) →
      admitTables p env tables run = .ok run1 →
      ∀ t ∈ run1.tableInfoChan, (∃ tableInfo,
        t = NewTableInfoChan tableInfo p.workerConfig.WorkerBatchSize p.workerConfig.IdBatchSize) ∧
        0 ≤ p.workerConfig.WorkerBatchSize ∧ 0 ≤ p.workerConfig.IdBatchSize := by
  intro tables
  induction tables with
  | nil =>
    intro run run1 h hrun
    simp only [admitTables] at hrun
    injection hrun with hrun
    subst hrun
    exact h
  | cons tableInfo rest ih =>
    intro run run1 h hrun
    simp only [admitTables] at hrun
    split at hrun
    · exact Except.noConfusion hrun
    · exact Except.noConfusion hrun
    · rename_i u1 u2 hW hI
      have h1 : ∀ t ∈ run.tableInfoChan ++
          [(NewTableInfoChan tableInfo p.workerConfig.WorkerBatchSize p.workerConfig.IdBatchSize :
            TableInfoChan κ ρ)], (∃ tableInfo,
          t = NewTableInfoChan tableInfo p.workerConfig.WorkerBatchSize
            p.workerConfig.IdBatchSize) ∧
          0 ≤ p.workerConfig.WorkerBatchSize ∧ 0 ≤ p.workerConfig.IdBatchSize := by
        intro t ht
        rcases List.mem_append.mp ht with ht | ht
        · exact h t ht
        · exact ⟨⟨tableInfo, List.mem_singleton.mp ht⟩, makechan_ok _ _ hW, makechan_ok _ _ hI⟩
      split at hrun
      · split at hrun
        · exact Except.noConfusion hrun
        · exact ih _ _ h1 hrun
      · injection hrun with hrun
        subst hrun
        exact h1

theorem GetRecordsFromSource_allocated {κ ρ : Type} (p : postgresMigration)
    (db : List String → Except String (List (Except String ColumnInfo)))
    (env : TableInfo → TableEnv κ ρ) (run : SourceRun κ ρ)
    (hrun : GetRecordsFromSource p db env = .ok run) :
    ∀ t ∈ run.tableInfoChan, (∃ tableInfo,
      t = NewTableInfoChan tableInfo p.workerConfig.WorkerBatchSize p.workerConfig.IdBatchSize) ∧
      0 ≤ p.workerConfig.WorkerBatchSize ∧ 0 ≤ p.workerConfig.IdBatchSize := by
  simp only [GetRecordsFromSource] at hrun
  split at hrun
  · injection hrun with hrun
    subst hrun
    intro t ht
    simp at ht
  · split at hrun
    · exact Except.noConfusion hrun
    · split at hrun
      · exact Except.noConfusion hrun
      · rename_i run0 hadmit
        have h0 := admitTables_allocated p env _ _ run0 (by intro t ht; simp at ht) hadmit
        split at hrun
        · split at hrun
          · injection hrun with hrun
            subst hrun
            exact h0
          · injection hrun with hrun
            subst hrun
            exact h0
        · injection hrun with hrun
          subst hrun
          exact h0

/-! ## Lemmas: the catalog -/

theorem tableAt_eq_getD (tableMap : GoMap (GoMap TableInfo)) (schema table : String) :
    mapGet ((mapGet tableMap schema).getD []) table = tableAt tableMap schema table := by
  unfold tableAt
  cases mapGet tableMap schema with
  | none => rfl
  | some tables => rfl

theorem tableAt_mapSet (tableMap : GoMap (GoMap TableInfo)) (S T : String) (v : TableInfo)
    (schema table : String) :
    tableAt (mapSet tableMap S (mapSet ((mapGet tableMap S).getD []) T v)) schema table =
      if schema = S ∧ table = T then some v else tableAt tableMap schema table := by
  by_cases hs : schema = S
  · subst hs
    by_cases ht : table = T
    · subst ht
      simp [tableAt, mapGet_mapSet_self]
    · simp only [ht, and_false, if_false]
      rw [← tableAt_eq_getD tableMap schema table]
      simp only [tableAt, mapGet_mapSet_self, mapGet_mapSet_ne _ _ _ _ ht]
  · simp only [hs, false_and, if_false]
    simp only [tableAt, mapGet_mapSet_ne _ _ _ _ hs]

theorem tableAt_addColumn (tableMap : GoMap (GoMap TableInfo)) (col : ColumnInfo)
    (schema table : String) :
    tableAt (addColumn tableMap col) schema table =
      if schema = col.Schema ∧ table = col.Table then
        some (appendColumn ((tableAt tableMap col.Schema col.Table).getD (newTableInfo col)) col)
      else tableAt tableMap schema table := by
  have hensure : ∀ tm1 : GoMap (GoMap TableInfo),
      (∀ s t, tableAt tm1 s t =
        if s = col.Schema ∧ t = col.Table then
          some ((tableAt tableMap col.Schema col.Table).getD (newTableInfo col))
        else tableAt tableMap s t) →
      tableAt (mapSet tm1 col.Schema (mapSet ((mapGet tm1 col.Schema).getD []) col.Table
          (appendColumn ((mapGet ((mapGet tm1 col.Schema).getD []) col.Table).getD
            (newTableInfo col)) col))) schema table =
        if schema = col.Schema ∧ table = col.Table then
          some (appendColumn ((tableAt tableMap col.Schema col.Table).getD (newTableInfo col)) col)
        else tableAt tableMap schema table := by
    intro tm1 h1
    rw [tableAt_mapSet, tableAt_eq_getD, h1 col.Schema col.Table]
    by_cases hst : schema = col.Schema ∧ table = col.Table
    · simp [hst]
    · simp only [hst, if_false, h1 schema table]
  unfold addColumn
  apply hensure
  intro s t
  cases h1 : mapGet tableMap col.Schema with
  | none =>
    have hnone : tableAt tableMap col.Schema col.Table = none := by simp [tableAt, h1]
    have := tableAt_mapSet tableMap col.Schema col.Table (newTableInfo col) s t
    simp only [h1, Option.getD_none] at this
    simp only [this, hnone, Option.getD_none]
  | some tables =>
    cases h2 : mapGet tables col.Table with
    | none =>
      have hnone : tableAt tableMap col.Schema col.Table = none := by simp [tableAt, h1, h2]
      have := tableAt_mapSet tableMap col.Schema col.Table (newTableInfo col) s t
      simp only [h1, Option.getD_some] at this
      simp only [h2, this, hnone, Option.getD_none]
    | some t0 =>
      have hsome : tableAt tableMap col.Schema col.Table = some t0 := by simp [tableAt, h1, h2]
      simp only [h2]
      by_cases hst : s = col.Schema ∧ t = col.Table
      · obtain ⟨rfl, rfl⟩ := hst
        simp [hsome]
      · simp only [hst, if_false]

theorem columnsOf_append (rows : List ColumnInfo) (col : ColumnInfo) (schema table : String) :
    columnsOf (rows ++ [col]) schema table =
      columnsOf rows schema table ++
        (if schema = col.Schema ∧ table = col.Table then [col] else []) := by
  unfold columnsOf
  rw [List.filter_append]
  congr 1
  by_cases hs : schema = col.Schema
  · by_cases ht : table = col.Table
    · simp [List.filter_cons, hs, ht]
    · have ht' : ¬ col.Table = table := fun h => ht h.symm
      simp [List.filter_cons, hs, ht, ht']
  · have hs' : ¬ col.Schema = schema := fun h => hs h.symm
    simp [List.filter_cons, hs, hs']

theorem tableOf_append (rows : List ColumnInfo) (col : ColumnInfo) (schema table : String) :
    tableOf (rows ++ [col]) schema table =
      if schema = col.Schema ∧ table = col.Table then
        some (appendColumn ((tableOf rows col.Schema col.Table).getD (newTableInfo col)) col)
      else tableOf rows schema table := by
  by_cases h : schema = col.Schema ∧ table = col.Table
  · obtain ⟨rfl, rfl⟩ := h
    simp only [and_self, if_true, tableOf, columnsOf_append]
    by_cases hc : columnsOf rows col.Schema col.Table = []
    · by_cases hp : col.IsPrimaryKey = true <;>
        simp [hc, appendColumn, newTableInfo, primaryKeysOf, hp]
    · by_cases hp : col.IsPrimaryKey = true <;>
        simp [hc, appendColumn, primaryKeysOf, hp, List.filter_append]
  · simp only [h, if_false, tableOf, columnsOf_append, List.append_nil]

theorem tableAt_foldl (rows : List ColumnInfo) :
    ∀ (done : List ColumnInfo) (tableMap : GoMap (GoMap TableInfo)),
      (∀ schema table, tableAt tableMap schema table = tableOf done schema table) →
      ∀ schema table,
        tableAt (rows.foldl addColumn tableMap) schema table
          = tableOf (done ++ rows) schema table := by
  induction rows with
  | nil => intro done tableMap h schema table; simpa using h schema table
  | cons col rows ih =>
    intro done tableMap h schema table
    have hstep : ∀ schema table, tableAt (addColumn tableMap col) schema table
        = tableOf (done ++ [col]) schema table := by
      intro schema table
      rw [tableAt_addColumn, tableOf_append, h, h]
    have := ih (done ++ [col]) (addColumn tableMap col) hstep schema table
    simpa using this

theorem scanRows_ok (rows : List ColumnInfo) :
    ∀ tableMap, scanRows tableMap (rows.map Except.ok) = .ok (rows.foldl addColumn tableMap) := by
  induction rows with
  | nil => intro tableMap; rfl
  | cons col rows ih => intro tableMap; simp only [List.map_cons, scanRows, List.foldl_cons, ih]

theorem columnsOf_sorted (rows : List ColumnInfo) (schema table : String)
    (hsorted : rows.Pairwise (fun a b => rowBefore a b = true)) :
    (columnsOf rows schema table).Pairwise (fun a b => a.Ordinal ≤ b.Ordinal) := by
  unfold columnsOf
  have hsub := List.Pairwise.sublist (List.filter_sublist (l := rows)
    (p := fun c => decide (c.Schema = schema) && decide (c.Table = table))) hsorted
  rw [List.pairwise_iff_forall_sublist] at hsub ⊢
  intro a b hab
  have ha : a ∈ rows.filter (fun c => decide (c.Schema = schema) && decide (c.Table = table)) :=
    hab.subset (by simp)
  have hb : b ∈ rows.filter (fun c => decide (c.Schema = schema) && decide (c.Table = table)) :=
    hab.subset (by simp)
  simp only [List.mem_filter, Bool.and_eq_true, decide_eq_true_eq] at ha hb
  have h := hsub hab
  simp only [rowBefore, Bool.or_eq_true, Bool.and_eq_true, decide_eq_true_eq] at h
  rcases h with h | h
  · rw [ha.2.2, hb.2.2] at h
    exact absurd h (lt_irrefl _)
  · exact h.2

theorem mapGet_mem {β : Type} (m : GoMap β) (k : String) (v : β)
    (h : mapGet m k = some v) : (k, v) ∈ m := by
  unfold mapGet at h
  cases hf : m.find? (fun e => decide (e.1 = k)) with
  | none => simp [hf] at h
  | some e =>
    rw [hf] at h
    simp only [Option.map_some', Option.some.injEq] at h
    have hp := List.find?_some hf
    have hm := List.mem_of_find?_eq_some hf
    simp only [decide_eq_true_eq] at hp
    obtain ⟨a, b⟩ := e
    simp only at hp h
    subst hp; subst h
    exact hm

theorem mapGet_of_mem {β : Type} (m : GoMap β) (k : String) (v : β)
    (hnd : (m.map Prod.fst).Nodup) (h : (k, v) ∈ m) : mapGet m k = some v := by
  induction m with
  | nil => simp at h
  | cons e m ih =>
    obtain ⟨a, b⟩ := e
    simp only [List.map_cons, List.nodup_cons] at hnd
    rcases List.mem_cons.mp h with heq | hmem
    · injection heq with h1 h2
      subst h1; subst h2
      simp [mapGet]
    · have hne : ¬ a = k := by
        intro hak
        subst hak
        exact hnd.1 (List.mem_map_of_mem Prod.fst hmem)
      have := ih hnd.2 hmem
      simp only [mapGet, List.find?_cons, hne, decide_False] at this ⊢
      exact this

theorem keysNodup_mapSet {β : Type} (m : GoMap β) (k : String) (v : β)
    (hnd : (m.map Prod.fst).Nodup) : ((mapSet m k v).map Prod.fst).Nodup := by
  unfold mapSet
  simp only [List.map_cons, List.nodup_cons]
  constructor
  · intro hmem
    obtain ⟨e, he, hek⟩ := List.mem_map.mp hmem
    simp only [List.mem_filter, Bool.not_eq_true', decide_eq_false_iff_not] at he
    exact he.2 hek
  · exact List.Nodup.sublist (List.Sublist.map _ (List.filter_sublist _)) hnd

theorem mem_mapSet {β : Type} (m : GoMap β) (k : String) (v : β) (e : String × β)
    (h : e ∈ mapSet m k v) : e = (k, v) ∨ e ∈ m := by
  unfold mapSet at h
  rcases List.mem_cons.mp h with h | h
  · exact Or.inl h
  · exact Or.inr (List.mem_of_mem_filter h)

theorem CatalogKeys_set (tableMap : GoMap (GoMap TableInfo)) (S T : String) (v : TableInfo)
    (h : CatalogKeys tableMap) :
    CatalogKeys (mapSet tableMap S (mapSet ((mapGet tableMap S).getD []) T v)) := by
  refine ⟨keysNodup_mapSet _ _ _ h.1, ?_⟩
  intro e he
  rcases mem_mapSet _ _ _ _ he with rfl | he
  · apply keysNodup_mapSet
    cases hg : mapGet tableMap S with
    | none => simp
    | some tables => exact h.2 _ (mapGet_mem _ _ _ hg)
  · exact h.2 e he

theorem CatalogKeys_addColumn (tableMap : GoMap (GoMap TableInfo)) (col : ColumnInfo)
    (h : CatalogKeys tableMap) : CatalogKeys (addColumn tableMap col) := by
  unfold addColumn
  apply CatalogKeys_set
  cases h1 : mapGet tableMap col.Schema with
  | none =>
    have := CatalogKeys_set tableMap col.Schema col.Table (newTableInfo col) h
    simpa [h1] using this
  | some tables =>
    cases h2 : mapGet tables col.Table with
    | none =>
      have := CatalogKeys_set tableMap col.Schema col.Table (newTableInfo col) h
      simpa [h1, h2] using this
    | some t0 => simpa [h2] using h

theorem CatalogKeys_foldl (rows : List ColumnInfo) :
    ∀ tableMap, CatalogKeys tableMap → CatalogKeys (rows.foldl addColumn tableMap) := by
  induction rows with
  | nil => intro tableMap h; exact h
  | cons col rows ih => intro tableMap h; exact ih _ (CatalogKeys_addColumn _ _ h)

theorem tableAt_of_mem (tableMap : GoMap (GoMap TableInfo)) (h : CatalogKeys tableMap)
    (e : String × GoMap TableInfo) (he : e ∈ tableMap) (ti : TableInfo)
    (hti : ti ∈ mapValues e.2) : ∃ table, tableAt tableMap e.1 table = some ti := by
  obtain ⟨s, tables⟩ := e
  obtain ⟨⟨t, ti'⟩, hmem, rfl⟩ := List.mem_map.mp hti
  refine ⟨t, ?_⟩
  simp only [tableAt, mapGet_of_mem _ _ _ h.1 he]
  exact mapGet_of_mem _ _ _ (h.2 _ he) hmem

theorem Grouped_of_tableAt (rows : List ColumnInfo)
    (hsorted : rows.Pairwise (fun a b => rowBefore a b = true))
    (tableMap : GoMap (GoMap TableInfo))
    (hmap : ∀ schema table, tableAt tableMap schema table = tableOf rows schema table)
    (schema table : String) (ti : TableInfo) (h : tableAt tableMap schema table = some ti) :
    ti.TableSchema = schema ∧ ti.TableName = table ∧ Grouped rows ti := by
  rw [hmap] at h
  unfold tableOf at h
  split at h
  · exact Option.noConfusion h
  · rename_i hne
    injection h with h
    subst h
    exact ⟨rfl, rfl, rfl, hne, columnsOf_sorted rows schema table hsorted, rfl⟩

/-! ## Lemmas: the statements sent to the source -/

theorem foldl_pair_append_map {α β γ : Type} (f : α → β) (g : α → γ) (l : List α) :
    ∀ init : List β × List γ,
      l.foldl (fun acc x => (acc.1 ++ [f x], acc.2 ++ [g x])) init
        = (init.1 ++ l.map f, init.2 ++ l.map g) := by
  induction l with
  | nil => intro init; simp
  | cons x xs ih => intro init; simp [ih]

theorem rowComparison_foldl (Sprint : Value → String) (lastIds : GoMap Value)
    (primaryKeys : List PrimaryKey) :
    ∀ acc : RowComparison,
      primaryKeys.foldl
        (fun acc pk =>
          ({ params := acc.params ++ [paramVal Sprint lastIds pk]
             rowComps := acc.rowComps ++ [placeholder acc.paramCount]
             paramCount := acc.paramCount + 1 } : RowComparison)) acc
      = { params := acc.params ++ primaryKeys.map (paramVal Sprint lastIds)
          rowComps := acc.rowComps ++
            (List.range primaryKeys.length).map (fun (i : Nat) => placeholder (acc.paramCount + (i : Int)))
          paramCount := acc.paramCount + (primaryKeys.length : Int) } := by
  induction primaryKeys with
  | nil => intro acc; simp
  | cons pk pks ih =>
    intro acc
    rw [List.foldl_cons, ih]
    simp only [List.map_cons, List.length_cons, List.range_succ_eq_map, List.map_map,
      List.append_assoc, List.singleton_append, Nat.cast_add, Nat.cast_one]
    congr 1
    · simp only [Nat.cast_zero, Int.add_zero, List.cons.injEq, true_and, List.append_cancel_left_eq]
      apply List.map_congr_left
      intro i _
      simp only [Function.comp, Nat.cast_succ]
      congr 1
      omega
    · omega

theorem rowComparison_eq (Sprint : Value → String) (lastIds : GoMap Value)
    (primaryKeys : List PrimaryKey) :
    rowComparison Sprint lastIds primaryKeys
      = { params := primaryKeys.map (paramVal Sprint lastIds)
          rowComps := (List.range primaryKeys.length).map (fun (i : Nat) => placeholder ((i : Int) + 1))
          paramCount := (primaryKeys.length : Int) + 1 } := by
  rw [rowComparison, rowComparison_foldl]
  simp only [List.nil_append]
  congr 1
  · apply List.map_congr_left
    intro i _
    congr 1
    omega
  · omega

theorem rhsValuePlaceHolders_eq (n : Nat) :
    rhsValuePlaceHolders n
      = ((List.range n).map (fun (i : Nat) => placeholder ((i : Int) + 1)),
         (List.range n).map (fun (i : Nat) => placeholder ((i : Int) + (n : Int) + 1))) := by
  rw [rhsValuePlaceHolders, foldl_pair_append_map]
  simp

theorem getRecord_pointer (Marshal : Value → Except String String)
    (columnMetaMap : GoMap ColumnInfo) (name : String) (cell : Value) :
    ∃ v, getRecord Marshal columnMetaMap name (.pointer cell) = .ok v := by
  unfold getRecord
  split
  · split
    · exact ⟨_, rfl⟩
    · exact ⟨_, rfl⟩
    · rename_i h1 h2
      exact absurd rfl (h2 cell)
  · split
    · split
      · split
        · exact ⟨_, rfl⟩
        · exact ⟨_, rfl⟩
      · rename_i h
        exact absurd rfl (h cell)
    · exact ⟨_, rfl⟩

theorem deserializeRecord_ok (Marshal : Value → Except String String)
    (columnMetaMap : GoMap ColumnInfo) :
    ∀ (columnNames : List String) (values : List Value) (record : GoMap Value),
      ∃ r, deserializeRecord Marshal columnMetaMap columnNames values record = .ok r := by
  intro columnNames
  induction columnNames with
  | nil => intro values record; exact ⟨record, rfl⟩
  | cons colName rest ih =>
    intro values record
    obtain ⟨v, hv⟩ := getRecord_pointer Marshal columnMetaMap colName (values.headD .null)
    simp only [deserializeRecord, hv]
    exact ih _ _

theorem deserializeRecords_ok (Marshal : Value → Except String String)
    (columnMetaMap : GoMap ColumnInfo) (columnNames : List String) :
    ∀ rows : List (Except String (List Value)),
      ∃ records, deserializeRecords Marshal columnMetaMap columnNames rows = .ok records := by
  intro rows
  induction rows with
  | nil => exact ⟨[], rfl⟩
  | cons row rows ih =>
    obtain ⟨records, hrec⟩ := ih
    cases row with
    | error e => exact ⟨records, by simp only [deserializeRecords, hrec]⟩
    | ok values =>
      obtain ⟨r, hr⟩ := deserializeRecord_ok Marshal columnMetaMap columnNames values []
      exact ⟨r :: records, by simp only [deserializeRecords, hr, hrec]⟩

/-! ## Lemmas: hexadecimal digits -/

theorem hextable_digit : ∀ i : Fin 16,
    hextable.getD i.val '0' ∈ hextable ∧ hexDigit (hextable.getD i.val '0') = some i.val := by
  decide

theorem hexEncode_cons (v : Nat) (l : List Nat) :
    hexEncode (v :: l)
      = hextable.getD (v / 16) '0' :: hextable.getD (v % 16) '0' :: hexEncode l := by
  simp [hexEncode]

theorem hexEncode_append (a b : List Nat) : hexEncode (a ++ b) = hexEncode a ++ hexEncode b := by
  simp [hexEncode]

theorem hexEncode_length (l : List Nat) : (hexEncode l).length = 2 * l.length := by
  induction l with
  | nil => rfl
  | cons v l ih => rw [hexEncode_cons]; simp only [List.length_cons, ih]; omega

theorem hexEncode_mem (l : List Nat) (hl : ∀ x ∈ l, x < 256) :
    ∀ c ∈ hexEncode l, c ∈ hextable := by
  induction l with
  | nil => intro c hc; simp [hexEncode] at hc
  | cons v l ih =>
    intro c hc
    rw [hexEncode_cons] at hc
    have hv : v < 256 := hl v (List.mem_cons_self _ _)
    rcases List.mem_cons.mp hc with rfl | hc
    · exact (hextable_digit ⟨v / 16, by omega⟩).1
    · rcases List.mem_cons.mp hc with rfl | hc
      · exact (hextable_digit ⟨v % 16, by omega⟩).1
      · exact ih (fun x hx => hl x (List.mem_cons_of_mem _ hx)) c hc

theorem hexDecode_hexEncode (l : List Nat) (hl : ∀ x ∈ l, x < 256) :
    hexDecode (hexEncode l) = some l := by
  induction l with
  | nil => rfl
  | cons v l ih =>
    have hv : v < 256 := hl v (List.mem_cons_self _ _)
    rw [hexEncode_cons, hexDecode, (hextable_digit ⟨v / 16, by omega⟩).2,
      (hextable_digit ⟨v % 16, by omega⟩).2, ih (fun x hx => hl x (List.mem_cons_of_mem _ hx))]
    simp only [Option.some.injEq, List.cons.injEq, and_true]
    omega

theorem uuid_groups (b : List Nat) :
    b.take 4 ++ ((b.drop 4).take 2 ++ ((b.drop 6).take 2 ++ ((b.drop 8).take 2 ++ b.drop 10)))
      = b := by
  have h1 : (b.drop 8).take 2 ++ b.drop 10 = b.drop 8 := by
    have := List.take_append_drop 2 (b.drop 8)
    rwa [List.drop_drop] at this
  have h2 : (b.drop 6).take 2 ++ b.drop 8 = b.drop 6 := by
    have := List.take_append_drop 2 (b.drop 6)
    rwa [List.drop_drop] at this
  have h3 : (b.drop 4).take 2 ++ b.drop 6 = b.drop 4 := by
    have := List.take_append_drop 2 (b.drop 4)
    rwa [List.drop_drop] at this
  rw [h1, h2, h3, List.take_append_drop]

/-! ## Lemmas: the failed-record map of a run -/

theorem processBatch_runner {ρ : Type} (marshal : List ρ → Except String String)
    (tableName : String) (env : SinkEnv) (s : StageC ρ) (batch : List ρ) :
    (processBatch marshal tableName env s batch).m = s.m ∨
    (processBatch marshal tableName env s batch).m = s.m.appendFailed tableName batch := by
  rcases processBatch_cases marshal tableName env s batch with ⟨_, _, _, _, h⟩ | ⟨_, _, _, h⟩
  · rw [h]; exact Or.inl rfl
  · rw [h]; exact Or.inr rfl

theorem processTableInfoStep_runner {ρ : Type} (marshal : List ρ → Except String String)
    (tableName : String) (P : migrationRunner ρ → Prop)
    (hP : ∀ (m : migrationRunner ρ) (batch : List ρ), P m → P (m.appendFailed tableName batch))
    (s s1 : StageC ρ) (e : Event ρ) (h : P s.m)
    (hstep : processTableInfoStep marshal tableName s e = .ok s1) : P s1.m := by
  have hB : ∀ (env : SinkEnv) (s0 : StageC ρ) (batch : List ρ), P s0.m →
      P (processBatch marshal tableName env s0 batch).m := by
    intro env s0 batch h0
    rcases processBatch_runner marshal tableName env s0 batch with e1 | e1
    · rw [e1]; exact h0
    · rw [e1]; exact hP _ _ h0
  cases e with
  | closed =>
    simp only [processTableInfoStep] at hstep
    injection hstep with hstep
    subst hstep
    exact h
  | record r u env =>
    simp only [processTableInfoStep] at hstep
    split at hstep
    · split at hstep
      · exact Except.noConfusion hstep
      · rename_i batch _
        split at hstep
        · split at hstep
          · exact Except.noConfusion hstep
          · injection hstep with hstep
            subst hstep
            exact hB env _ batch h
        · injection hstep with hstep
          subst hstep
          exact hB env _ batch h
    · injection hstep with hstep
      subst hstep
      exact h
  | timeout env rd total =>
    simp only [processTableInfoStep] at hstep
    split at hstep
    · exact Except.noConfusion hstep
    · rename_i s3 hflush
      have h3 : P s3.m := by
        split at hflush
        · split at hflush
          · split at hflush
            · exact Except.noConfusion hflush
            · rename_i batch _
              split at hflush
              · exact Except.noConfusion hflush
              · injection hflush with hflush
                subst hflush
                exact hB env s batch h
          · injection hflush with hflush
            subst hflush
            exact hB env s s.records h
        · injection hflush with hflush
          subst hflush
          exact h
      split at hstep
      · injection hstep with hstep
        subst hstep
        exact h3
      · injection hstep with hstep
        subst hstep
        exact h3

theorem processTableInfoLoop_runner {ρ : Type} (marshal : List ρ → Except String String)
    (tableName : String) (P : migrationRunner ρ → Prop)
    (hP : ∀ (m : migrationRunner ρ) (batch : List ρ), P m → P (m.appendFailed tableName batch)) :
    ∀ (events : List (Event ρ)) (s s1 : StageC ρ), P s.m →
      processTableInfoLoop marshal tableName events s = .ok s1 → P s1.m := by
  intro events
  induction events with
  | nil =>
    intro s s1 h hrun
    simp only [processTableInfoLoop] at hrun
    injection hrun with hrun
    subst hrun
    exact h
  | cons e es ih =>
    intro s s1 h hrun
    simp only [processTableInfoLoop] at hrun
    split at hrun
    · injection hrun with hrun
      subst hrun
      exact h
    · split at hrun
      · exact Except.noConfusion hrun
      · rename_i s2 hstep
        exact ih s2 s1 (processTableInfoStep_runner marshal tableName P hP s s2 e h hstep) hrun

theorem keysNodup_appendFailed {ρ : Type} (tableName : String) (m : migrationRunner ρ)
    (batch : List ρ) (h : (m.failedRecords.map Prod.fst).Nodup) :
    ((m.appendFailed tableName batch).failedRecords.map Prod.fst).Nodup :=
  keysNodup_mapSet _ _ _ h

theorem processTableInfo_keys {ρ : Type} (marshal : List ρ → Except String String)
    (m : migrationRunner ρ) (tableName : String) (events : List (Event ρ)) (c : StageC ρ)
    (h : (m.failedRecords.map Prod.fst).Nodup)
    (hrun : processTableInfo marshal m tableName events = .ok c) :
    (c.m.failedRecords.map Prod.fst).Nodup := by
  unfold processTableInfo at hrun
  refine processTableInfoLoop_runner marshal tableName
    (fun m => (m.failedRecords.map Prod.fst).Nodup)
    (fun m batch hm => keysNodup_appendFailed tableName m batch hm) events _ c ?_ hrun
  cases mapGet m.failedRecords tableName with
  | some v => exact h
  | none => exact keysNodup_mapSet _ _ _ h

theorem RunStep_keys {κ ρ : Type} (marshal : List ρ → Except String String)
    (s s1 : RunState κ ρ) (e : RunEvent κ ρ) (h : (s.m.failedRecords.map Prod.fst).Nodup)
    (hstep : RunStep marshal s e = .ok s1) : (s1.m.failedRecords.map Prod.fst).Nodup := by
  cases e with
  | admitted infoChan =>
    simp only [RunStep] at hstep
    injection hstep with hstep; subst hstep; exact h
  | processedAllTables =>
    simp only [RunStep] at hstep
    injection hstep with hstep; subst hstep; exact h
  | sourceError e =>
    simp only [RunStep] at hstep
    injection hstep with hstep; subst hstep; exact h
  | cancel =>
    simp only [RunStep] at hstep
    injection hstep with hstep; subst hstep; exact h
  | done =>
    simp only [RunStep] at hstep
    split at hstep
    · exact Except.noConfusion hstep
    · split at hstep
      · injection hstep with hstep; subst hstep; exact h
      · exact Except.noConfusion hstep
  | recv events =>
    simp only [RunStep] at hstep
    split at hstep
    · exact Except.noConfusion hstep
    · split at hstep
      · split at hstep
        · injection hstep with hstep; subst hstep; exact h
        · exact Except.noConfusion hstep
      · split at hstep
        · exact Except.noConfusion hstep
        · rename_i c hc
          have hk := processTableInfo_keys marshal _ _ _ c h hc
          split at hstep
          · split at hstep
            · injection hstep with hstep; subst hstep; exact hk
            · injection hstep with hstep; subst hstep; exact hk
          · exact Except.noConfusion hstep

theorem RunLoop_keys {κ ρ : Type} (marshal : List ρ → Except String String) :
    ∀ (events : List (RunEvent κ ρ)) (s s1 : RunState κ ρ),
      (s.m.failedRecords.map Prod.fst).Nodup → RunLoop marshal events s = .ok s1 →
      (s1.m.failedRecords.map Prod.fst).Nodup := by
  intro events
  induction events with
  | nil =>
    intro s s1 h hrun
    simp only [RunLoop] at hrun
    injection hrun with hrun; subst hrun; exact h
  | cons e es ih =>
    intro s s1 h hrun
    simp only [RunLoop] at hrun
    split at hrun
    · exact Except.noConfusion hrun
    · rename_i s2 hstep
      exact ih s2 s1 (RunStep_keys marshal s s2 e h hstep) hrun

theorem append_right_cancel (a b suffix : String) (h : a ++ suffix = b ++ suffix) : a = b := by
  have hd := congrArg String.data h
  simp only [String.data_append] at hd
  exact String.ext (List.append_cancel_right hd)

theorem mem_saveFailedRecords {ρ : Type} (marshal : List ρ → Except String String)
    (failedRecords : GoMap (List ρ)) (path content : String) :
    (path, content) ∈ saveFailedRecords marshal failedRecords ↔
      ∃ entry ∈ failedRecords, entry.2 ≠ [] ∧ marshal entry.2 = .ok content ∧
        path = entry.1 ++ "_failed_records.json" := by
  simp only [saveFailedRecords, List.mem_filterMap]
  constructor
  · rintro ⟨entry, hmem, hsome⟩
    refine ⟨entry, hmem, ?_⟩
    split at hsome
    · exact Option.noConfusion hsome
    · rename_i hlen
      simp only [ConvertRecordsToJSON, hlen, if_false] at hsome
      cases hm : marshal entry.2 with
      | error e => simp [hm] at hsome
      | ok j =>
        simp only [hm, Option.some.injEq, Prod.mk.injEq] at hsome
        refine ⟨fun h0 => hlen (by simp [h0]), ?_, hsome.1.symm⟩
        rw [hsome.2]
  · rintro ⟨entry, hmem, hne, hm, hpath⟩
    refine ⟨entry, hmem, ?_⟩
    have hlen : ¬ entry.2.length = 0 := fun h0 => hne (List.eq_nil_of_length_eq_zero h0)
    simp only [hlen, if_false, ConvertRecordsToJSON, hm, hpath]

/-! ## Lemmas: the effects of Stage A over keyset pages -/

theorem getPrimaryKeyRangeLog_fst {κ ρ ε : Type}
    (fetch : κ → Bool → Int → Except ε (List κ)) :
    ∀ (fuel : Nat) (c : κ) (incl : Bool) (b w : Int) (t : TableInfoChan κ ρ),
      (getPrimaryKeyRangeLog fetch fuel c incl b w t).map Prod.fst
        = getPrimaryKeyRange fetch fuel c incl b w t := by
  intro fuel
  induction fuel with
  | zero => intro c incl b w t; rfl
  | succ fuel ih =>
    intro c incl b w t
    simp only [getPrimaryKeyRangeLog, getPrimaryKeyRange]
    cases fetch c incl b with
    | error e => rfl
    | ok ids =>
      simp only
      by_cases h0 : ids.length = 0
      · simp only [h0, if_true]; rfl
      · simp only [h0, if_false]
        cases slicePage ids w with
        | error f => rfl
        | ok rs =>
          simp only
          cases goIndex ids ((ids.length : Int) - 1) with
          | error f => rfl
          | ok last =>
            simp only
            rw [← ih]
            cases getPrimaryKeyRangeLog fetch fuel last false b w
              ((t.sendRanges (rs.map idRange)).IncrementTotalUuidsRead ids.length) with
            | error f => rfl
            | ok r => rfl

theorem chunksOf_fuel {α : Type} (w : Nat) (hw : 1 ≤ w) (xs : List α) (f1 f2 : Nat)
    (h1 : xs.length ≤ f1) (h2 : xs.length ≤ f2) : chunksOf w f1 xs = chunksOf w f2 xs := by
  apply List.ext_getElem?
  intro k
  rw [chunksOf_getElem? w hw f1 xs k h1, chunksOf_getElem? w hw f2 xs k h2]

theorem pagesOf_cons {κ : Type} (b : Nat) (hb : 1 ≤ b) (x : κ) (xs : List κ) :
    pagesOf b (x :: xs) = (x :: xs).take b :: pagesOf b ((x :: xs).drop b) := by
  obtain ⟨b', rfl⟩ : ∃ b', b = b' + 1 := ⟨b - 1, by omega⟩
  simp only [pagesOf, List.length_cons, chunksOf, List.map_cons, chunkList, List.take_succ_cons,
    List.drop_succ_cons, Nat.add_sub_cancel]
  congr 2
  exact chunksOf_fuel (b' + 1) hb _ _ _ (by simp) (le_refl _)

theorem pagesOf_nil {κ : Type} (b : Nat) : pagesOf b ([] : List κ) = [] := rfl

theorem pagesOf_length {κ : Type} (b : Nat) (hb : 1 ≤ b) (S : List κ) :
    (pagesOf b S).length = (S.length + b - 1) / b := by
  simp only [pagesOf, List.length_map]
  exact chunksOf_length b hb _ S (le_refl _)

theorem pagesOf_flatten {κ : Type} (b : Nat) (S : List κ) : (pagesOf b S).flatten = S :=
  chunksOf_join b _ S (le_refl _)

theorem pagesOf_ne_nil {κ : Type} (b : Nat) (S : List κ) : ∀ p ∈ pagesOf b S, p ≠ [] := by
  intro p hp
  obtain ⟨c, _, rfl⟩ := List.mem_map.mp hp
  simp [chunkList]

theorem getPrimaryKeyRangeLog_keyset {κ ρ ε : Type} [LinearOrder κ]
    (fetch : κ → Bool → Int → Except ε (List κ)) (K : List κ) (b w : Nat)
    (hb : 1 ≤ b) (hw : 1 ≤ w) (hK : K.Pairwise (· < ·))
    (hfetch : ∀ c incl, fetch c incl (b : Int) = .ok (keysetPage K c incl b)) :
    ∀ (fuel : Nat) (P S : List κ) (c : κ) (incl : Bool) (t : TableInfoChan κ ρ),
      K = P ++ S →
      (∀ p ∈ P, ¬ ((if incl then decide (c ≤ p) else decide (c < p)) = true)) →
      (∀ s ∈ S, (if incl then decide (c ≤ s) else decide (c < s)) = true) →
      (pagesOf b S).length < fuel →
      ∃ t1 : TableInfoChan κ ρ,
        getPrimaryKeyRangeLog fetch fuel c incl (b : Int) (w : Int) t
          = .ok (t1, pagesLog w c incl (pagesOf b S)) ∧
        t1.totalUuidsRead = t.totalUuidsRead + S.length ∧ t1.ReadingIdsDone = true := by
  intro fuel
  induction fuel with
  | zero => intro P S c incl t _ _ _ h; omega
  | succ fuel ih =>
    intro P S c incl t hKeq hP hS hfuel
    have hpage : fetch c incl (b : Int) = .ok (S.take b) := by
      rw [hfetch, hKeq, keysetPage_eq P S c incl b hP hS]
    cases S with
    | nil =>
      refine ⟨{ t with ReadingIdsDone := true }, ?_, rfl, rfl⟩
      simp [getPrimaryKeyRangeLog, hpage, pagesOf_nil, pagesLog]
    | cons x xs =>
      have hne : (x :: xs).take b ≠ [] := by
        obtain ⟨b', rfl⟩ : ∃ b', b = b' + 1 := ⟨b - 1, by omega⟩
        simp
      have hlen0 : ¬ ((x :: xs).take b).length = 0 := by
        intro h; exact hne (List.eq_nil_of_length_eq_zero h)
      have hsplit : (x :: xs).take b ++ (x :: xs).drop b = x :: xs := List.take_append_drop _ _
      have hKs : (P ++ ((x :: xs).take b ++ (x :: xs).drop b)).Pairwise (· < ·) := by
        rw [hsplit, ← hKeq]; exact hK
      obtain ⟨_, hSs, hPS⟩ := List.pairwise_append.mp hKs
      obtain ⟨hpg, _, hcross⟩ := List.pairwise_append.mp hSs
      have hlastmem := List.getLast_mem hne
      rw [pagesOf_cons b hb] at hfuel ⊢
      obtain ⟨t1, hrun, hcount, hdone⟩ := ih (P ++ (x :: xs).take b) ((x :: xs).drop b)
        (((x :: xs).take b).getLast hne) false
        ((t.sendRanges ((((chunksOf w ((x :: xs).take b).length ((x :: xs).take b)).map
          chunkEnds)).map idRange)).IncrementTotalUuidsRead ((x :: xs).take b).length)
        (by rw [List.append_assoc, hsplit, hKeq])
        (by
          intro p hp
          simp only [Bool.false_eq_true, if_false, decide_eq_true_eq, not_lt]
          rcases List.mem_append.mp hp with hp | hp
          · exact le_of_lt (hPS p hp _ (List.mem_append_left _ hlastmem))
          · exact le_getLast_of_sorted _ hpg hne p hp)
        (by
          intro s hs
          simp only [Bool.false_eq_true, if_false, decide_eq_true_eq]
          exact hcross _ hlastmem s hs)
        (by simp only [List.length_cons] at hfuel; omega)
      refine ⟨t1, ?_, ?_, hdone⟩
      · rw [getPrimaryKeyRangeLog, hpage]
        simp only [hlen0, if_false, slicePage_eq_chunks _ w hw, goIndex_last _ hne, hrun,
          pagesLog]
        rw [List.getLastD_eq_getLast?, List.getLast?_eq_getLast _ hne]
        simp only [List.map_map, Option.getD_some]
        rfl
      · rw [hcount]
        have hl : ((x :: xs).take b).length + ((x :: xs).drop b).length = (x :: xs).length := by
          rw [← List.length_append, hsplit]
        simp only [sendRanges_eq, TableInfoChan.IncrementTotalUuidsRead]
        omega

theorem fetches_pagesLog_nil {κ : Type} (w : Nat) (c : κ) (incl : Bool) :
    fetches (pagesLog w c incl []) = [(c, incl, [])] := rfl

theorem fetches_pagesLog_cons {κ : Type} (w : Nat) (c : κ) (incl : Bool) (page : List κ)
    (rest : List (List κ)) :
    fetches (pagesLog w c incl (page :: rest))
      = (c, incl, page) :: fetches (pagesLog w (page.getLastD c) false rest) := by
  simp only [pagesLog, fetches, List.filterMap_cons, List.filterMap_append, List.filterMap_map]
  have : List.filterMap
      ((fun e : StageAEffect κ =>
        match e with
        | .fetched lastId includeLastId ids => some (lastId, includeLastId, ids)
        | _ => none) ∘ fun x => StageAEffect.sent (idRange (chunkEnds x)))
      (chunksOf w page.length page) = [] := by
    apply List.filterMap_eq_nil_iff.mpr
    intro a _
    rfl
  rw [this]
  rfl

theorem fetches_pagesLog_length {κ : Type} (w : Nat) :
    ∀ (pages : List (List κ)) (c : κ) (incl : Bool),
      (fetches (pagesLog w c incl pages)).length = pages.length + 1 := by
  intro pages
  induction pages with
  | nil => intro c incl; rfl
  | cons page rest ih =>
    intro c incl
    rw [fetches_pagesLog_cons, List.length_cons, ih, List.length_cons]

theorem fetches_pagesLog_sorted {κ : Type} [LinearOrder κ] (w : Nat) :
    ∀ (pages : List (List κ)) (c : κ) (incl : Bool),
      (∀ p ∈ pages, p ≠ []) → pages.flatten.Pairwise (· < ·) →
      (∀ x ∈ pages.flatten, c < x) →
      ((fetches (pagesLog w c incl pages)).map (fun f => f.1)).Pairwise (· < ·) ∧
      ∀ y ∈ (fetches (pagesLog w c incl pages)).map (fun f => f.1), y = c ∨ y ∈ pages.flatten := by
  intro pages
  induction pages with
  | nil =>
    intro c incl _ _ _
    simp [fetches_pagesLog_nil]
  | cons page rest ih =>
    intro c incl hne hs hc
    have hpne : page ≠ [] := hne page (List.mem_cons_self _ _)
    have hlast : page.getLastD c = page.getLast hpne := by
      rw [List.getLastD_eq_getLast?, List.getLast?_eq_getLast _ hpne]; rfl
    have hlastmem : page.getLast hpne ∈ page := List.getLast_mem hpne
    rw [List.flatten_cons] at hs hc
    obtain ⟨_, hrest, hcross⟩ := List.pairwise_append.mp hs
    obtain ⟨hsorted, hmem⟩ := ih (page.getLast hpne) false
      (fun p hp => hne p (List.mem_cons_of_mem _ hp)) hrest
      (fun x hx => hcross _ hlastmem x hx)
    rw [fetches_pagesLog_cons, hlast, List.map_cons]
    constructor
    · refine List.pairwise_cons.mpr ⟨?_, hsorted⟩
      intro y hy
      rcases hmem y hy with rfl | hy
      · exact hc _ (List.mem_append_left _ hlastmem)
      · exact hc _ (List.mem_append_right _ hy)
    · intro y hy
      rcases List.mem_cons.mp hy with rfl | hy
      · exact Or.inl rfl
      · right
        rw [List.flatten_cons]
        rcases hmem y hy with rfl | hy
        · exact List.mem_append_left _ hlastmem
        · exact List.mem_append_right _ hy

theorem fetches_pagesLog_pages {κ : Type} (w : Nat) :
    ∀ (pages : List (List κ)) (c : κ) (incl : Bool),
      (fetches (pagesLog w c incl pages)).map (fun f => f.2.2) = pages ++ [[]] := by
  intro pages
  induction pages with
  | nil => intro c incl; rfl
  | cons page rest ih =>
    intro c incl
    rw [fetches_pagesLog_cons, List.map_cons, ih, List.cons_append]

/-! ## Lemmas: conservation in Stage C -/

theorem flushed_processBatch {ρ : Type} (marshal : List ρ → Except String String)
    (tableName : String) (env : SinkEnv) (s : StageC ρ) (batch : List ρ) :
    (((processBatch marshal tableName env s batch).calls.map (fun c => c.records)).flatten)
      = (s.calls.map (fun c => c.records)).flatten ++ batch := by
  obtain ⟨c, hcalls, hrec, _, _⟩ := processBatch_calls marshal tableName env s batch
  simp only [hcalls, List.map_append, List.flatten_append, List.map_cons, List.map_nil,
    List.flatten_cons, List.flatten_nil, List.append_nil, hrec]

theorem goSliceTo_ok {α : Type} (xs batch : List α) (n : Int)
    (h : goSliceTo xs n = .ok batch) :
    batch = xs.take n.toNat ∧ 0 ≤ n ∧ n ≤ (xs.length : Int) := by
  unfold goSliceTo at h
  split at h
  · rename_i hb
    injection h with h
    exact ⟨h.symm, hb.1, hb.2⟩
  · exact Except.noConfusion h

theorem goSliceFrom_ok {α : Type} (xs rest : List α) (n : Int)
    (h : goSliceFrom xs n = .ok rest) : rest = xs.drop n.toNat := by
  unfold goSliceFrom at h
  split at h
  · injection h with h
    exact h.symm
  · exact Except.noConfusion h

theorem conservation_step {ρ : Type} (marshal : List ρ → Except String String)
    (tableName : String) (s s1 : StageC ρ) (e : Event ρ)
    (hstep : processTableInfoStep marshal tableName s e = .ok s1) :
    flushed s1 ++ s1.records = flushed s ++ s.records ++ receivedRecords [e] := by
  unfold flushed
  cases e with
  | closed =>
    simp only [processTableInfoStep] at hstep
    injection hstep with hstep
    subst hstep
    simp [receivedRecords]
  | record r u env =>
    simp only [processTableInfoStep] at hstep
    have hrecv : receivedRecords [Event.record r u env] = [r] := rfl
    rw [hrecv, List.append_assoc]
    split at hstep
    · rename_i hge
      split at hstep
      · exact Except.noConfusion hstep
      · rename_i batch hslice
        obtain ⟨hbatch, h0, hle⟩ := goSliceTo_ok _ _ _ hslice
        split at hstep
        · split at hstep
          · exact Except.noConfusion hstep
          · rename_i rest hfrom
            have hrest := goSliceFrom_ok _ _ _ hfrom
            injection hstep with hstep
            subst hstep
            simp only [processBatch_records, processBatch_workerConfig] at hrest
            simp only [flushed_processBatch, hbatch, hrest, List.append_assoc,
              List.take_append_drop]
        · rename_i hgt
          injection hstep with hstep
          subst hstep
          simp only [processBatch_records, processBatch_workerConfig] at hgt
          have hall : batch = s.records ++ [r] := by
            rw [hbatch]
            apply List.take_of_length_le
            omega
          simp only [flushed_processBatch, hall, List.append_nil]
    · injection hstep with hstep
      subst hstep
      rfl
  | timeout env rd total =>
    simp only [processTableInfoStep] at hstep
    have hrecv : receivedRecords [Event.timeout env rd total] = ([] : List ρ) := rfl
    rw [hrecv, List.append_nil]
    split at hstep
    · exact Except.noConfusion hstep
    · rename_i s3 hflush
      have h3 : (s3.calls.map (fun c => c.records)).flatten ++ s3.records
          = (s.calls.map (fun c => c.records)).flatten ++ s.records := by
        split at hflush
        · split at hflush
          · split at hflush
            · exact Except.noConfusion hflush
            · rename_i batch hslice
              obtain ⟨hbatch, _, _⟩ := goSliceTo_ok _ _ _ hslice
              split at hflush
              · exact Except.noConfusion hflush
              · rename_i rest hfrom
                have hrest := goSliceFrom_ok _ _ _ hfrom
                injection hflush with hflush
                subst hflush
                simp only [processBatch_records, processBatch_workerConfig] at hrest
                simp only [flushed_processBatch, hbatch, hrest, List.append_assoc,
                  List.take_append_drop]
          · injection hflush with hflush
            subst hflush
            simp only [flushed_processBatch, List.append_nil]
        · injection hflush with hflush
          subst hflush
          rfl
      split at hstep
      · injection hstep with hstep
        subst hstep
        exact h3
      · injection hstep with hstep
        subst hstep
        exact h3

theorem conservation_loop {ρ : Type} (marshal : List ρ → Except String String)
    (tableName : String) (R : Int) (hR : 1 ≤ R) :
    ∀ (events : List (Event ρ)) (s0 : StageC ρ), StageCInv R s0 →
      ∃ (s : StageC ρ) (n : Nat),
        processTableInfoLoop marshal tableName events s0 = .ok s ∧ n ≤ events.length ∧
        processTableInfoLoop marshal tableName (events.take n) s0 = .ok s ∧
        (n < events.length → s.processedRecordsChan = true) ∧
        (∀ j, j < n → ∃ sj, processTableInfoLoop marshal tableName (events.take j) s0 = .ok sj ∧
          sj.processedRecordsChan = false) ∧
        flushed s ++ s.records = flushed s0 ++ s0.records ++ receivedRecords (events.take n) := by
  intro events
  induction events with
  | nil =>
    intro s0 _
    exact ⟨s0, 0, rfl, le_refl _, rfl, by simp, by simp, by simp [receivedRecords]⟩
  | cons e es ih =>
    intro s0 hinv
    by_cases hf : s0.processedRecordsChan = true
    · refine ⟨s0, 0, ?_, by simp, rfl, fun _ => hf, by simp, by simp [receivedRecords]⟩
      simp only [processTableInfoLoop, hf, if_true]
    · obtain ⟨s1, hs1, hinv1⟩ := StageCInv_step marshal tableName R hR s0 e hinv
      obtain ⟨s, n, hrun, hn, htake, hflag, hprev, hcons⟩ := ih s1 hinv1
      have hunfold : ∀ rest : List (Event ρ),
          processTableInfoLoop marshal tableName (e :: rest) s0
            = processTableInfoLoop marshal tableName rest s1 := by
        intro rest
        simp only [processTableInfoLoop, hf, hs1]
        rfl
      refine ⟨s, n + 1, ?_, ?_, ?_, ?_, ?_, ?_⟩
      · rw [hunfold, hrun]
      · simp only [List.length_cons]; omega
      · rw [List.take_succ_cons, hunfold, htake]
      · intro hlt
        simp only [List.length_cons] at hlt
        exact hflag (by omega)
      · intro j hj
        cases j with
        | zero =>
          refine ⟨s0, rfl, ?_⟩
          cases h : s0.processedRecordsChan with
          | true => exact absurd h hf
          | false => rfl
        | succ j =>
          obtain ⟨sj, hsj, hfj⟩ := hprev j (by omega)
          exact ⟨sj, by rw [List.take_succ_cons, hunfold, hsj], hfj⟩
      · rw [hcons, conservation_step marshal tableName s0 s1 e hs1, List.take_succ_cons]
        simp only [receivedRecords, List.filterMap_cons, List.filterMap_nil, List.append_assoc]
        cases e <;> simp

theorem StageCInv_init {ρ : Type} (m : migrationRunner ρ) (tableName : String)
    (hR : 1 ≤ m.workerConfig.RecordBatchSize) :
    StageCInv m.workerConfig.RecordBatchSize
      ({ m := (match mapGet m.failedRecords tableName with
            | some _ => m
            | none => { m with failedRecords := mapSet m.failedRecords tableName [] })
         records := [], checkAllRecordsProcessed := [], processedRecordsChan := false,
         calls := [] } : StageC ρ) := by
  refine ⟨?_, ?_, by simp⟩
  · cases mapGet m.failedRecords tableName <;> rfl
  · simp only [List.length_nil]; omega

theorem timeout_empties {ρ : Type} (marshal : List ρ → Except String String)
    (tableName : String) (R : Int) (s : StageC ρ) (env : SinkEnv) (rd : Bool) (total : Nat)
    (hinv : StageCInv R s) :
    ∃ s1, processTableInfoStep marshal tableName s (.timeout env rd total) = .ok s1 ∧
      s1.records = [] ∧ flushed s1 = flushed s ++ s.records ∧
      s1.calls.length ≤ s.calls.length + 1 := by
  obtain ⟨hcfg, hlen, _⟩ := hinv
  unfold flushed
  simp only [processTableInfoStep, hcfg]
  by_cases hpos : s.records.length > 0
  · have hnge : ¬ ((s.records.length : Int) ≥ R) := by omega
    obtain ⟨c, hcalls, _, _, _⟩ := processBatch_calls marshal tableName env s s.records
    simp only [hpos, if_true, hnge, if_false]
    split
    · exact ⟨_, rfl, rfl, flushed_processBatch marshal tableName env s s.records, by simp [hcalls]⟩
    · exact ⟨_, rfl, rfl, flushed_processBatch marshal tableName env s s.records, by simp [hcalls]⟩
  · have hnil : s.records = [] := List.eq_nil_of_length_eq_zero (by omega)
    simp only [hpos, if_false]
    split
    · exact ⟨_, rfl, hnil, by simp [hnil], by simp⟩
    · exact ⟨_, rfl, hnil, by simp [hnil], by simp⟩

theorem record_keeps_flag {ρ : Type} (marshal : List ρ → Except String String)
    (tableName : String) (s s1 : StageC ρ) (r : ρ) (u : String) (env : SinkEnv)
    (hstep : processTableInfoStep marshal tableName s (.record r u env) = .ok s1) :
    s1.processedRecordsChan = s.processedRecordsChan := by
  simp only [processTableInfoStep] at hstep
  split at hstep
  · split at hstep
    · exact Except.noConfusion hstep
    · split at hstep
      · split at hstep
        · exact Except.noConfusion hstep
        · injection hstep with hstep
          subst hstep
          simp only [processBatch_flag]
      · injection hstep with hstep
        subst hstep
        simp only [processBatch_flag]
  · injection hstep with hstep
    subst hstep
    rfl

theorem returned_empty_loop {ρ : Type} (marshal : List ρ → Except String String)
    (tableName : String) (R : Int) (hR : 1 ≤ R) :
    ∀ (events : List (Event ρ)) (s0 s : StageC ρ), StageCInv R s0 →
      (s0.processedRecordsChan = true → s0.records = []) → Event.closed ∉ events →
      processTableInfoLoop marshal tableName events s0 = .ok s →
      (s.processedRecordsChan = true → s.records = []) := by
  intro events
  induction events with
  | nil =>
    intro s0 s _ h0 _ hrun
    simp only [processTableInfoLoop] at hrun
    injection hrun with hrun
    subst hrun
    exact h0
  | cons e es ih =>
    intro s0 s hinv h0 hopen hrun
    simp only [processTableInfoLoop] at hrun
    split at hrun
    · injection hrun with hrun
      subst hrun
      exact h0
    · rename_i hf
      split at hrun
      · exact Except.noConfusion hrun
      · rename_i s1 hstep
        obtain ⟨s1', hs1', hinv1⟩ := StageCInv_step marshal tableName R hR s0 e hinv
        rw [hstep] at hs1'
        injection hs1' with hs1'
        subst hs1'
        refine ih s1 s hinv1 ?_ (fun hmem => hopen (List.mem_cons_of_mem _ hmem)) hrun
        cases e with
        | closed => exact absurd (List.mem_cons_self _ _) hopen
        | record r u env =>
          intro h1
          rw [record_keeps_flag marshal tableName s0 s1 r u env hstep] at h1
          exact absurd h1 hf
        | timeout env rd total =>
          intro _
          obtain ⟨s2, hs2, hnil, _⟩ := timeout_empties marshal tableName R s0 env rd total hinv
          rw [hstep] at hs2
          injection hs2 with hs2
          subst hs2
          exact hnil

/-! ## Stage A: coverage, slicing, range shape -/

theorem chunkEnds_mem {κ : Type} (cs : List (κ × List κ)) :
    ∀ r ∈ cs.map chunkEnds, r.1 ∈ (cs.map chunkList).flatten ∧ r.2 ∈ (cs.map chunkList).flatten := by
  intro r hr
  obtain ⟨c, hc, rfl⟩ := List.mem_map.mp hr
  have hin : chunkList c ∈ cs.map chunkList := List.mem_map_of_mem _ hc
  constructor
  · exact List.mem_flatten.mpr ⟨_, hin, by simp [chunkList, chunkEnds]⟩
  · exact List.mem_flatten.mpr ⟨_, hin, getLastD_mem_chunkList c⟩

/-- C1. Single-column coverage: over a strictly increasing key list `K`, with
page size `b ≥ 1`, slice size `w ≥ 1`, a repository that answers with keyset
pages of `K` and the minimum of `K` as first cursor, `getPrimaryKeyRange`
returns (any fuel above `|K|` is enough), every key of `K` lies in exactly one
emitted range, the keys the emitted ranges select from `K` are, in order,
exactly `K`, and every range bound is a key of `K`. -/
theorem single_column_coverage {κ ρ ε : Type} [LinearOrder κ]
    (fetch : κ → Bool → Int → Except ε (List κ)) (K : List κ) (c : κ) (b w : Nat)
    (tableInfo : TableInfo) (capR capC : Int)
    (hb : 1 ≤ b) (hw : 1 ≤ w) (hK : K.Pairwise (· < ·)) (hc : K.head? = some c)
    (hfetch : ∀ cur incl, fetch cur incl (b : Int) = .ok (keysetPage K cur incl b)) :
    ∀ fuel, K.length < fuel →
      ∃ t : TableInfoChan κ ρ,
        getPrimaryKeyRange fetch fuel c true (b : Int) (w : Int)
          (NewTableInfoChan tableInfo capR capC) = .ok t ∧
        (∀ k ∈ K, (idRanges t.PrimaryKeyRange.sent).countP (inRange k) = 1) ∧
        ((idRanges t.PrimaryKeyRange.sent).map
          (fun r => K.filter (fun k => inRange k r))).flatten = K ∧
        (∀ r ∈ idRanges t.PrimaryKeyRange.sent, r.1 ∈ K ∧ r.2 ∈ K) := by
  intro fuel hfuel
  obtain ⟨cs, hcs, _, hrun⟩ := getPrimaryKeyRange_keyset fetch K b w hb hw hK hfetch fuel [] K c
    true (NewTableInfoChan tableInfo capR capC : TableInfoChan κ ρ) rfl (by simp)
    (by
      intro s hs
      simpa using head_le_of_sorted K c hK hc s hs)
    hfuel
  refine ⟨_, hrun, ?_, ?_, ?_⟩
  · intro k hk
    simp only [NewTableInfoChan, List.nil_append, idRanges_map_idRange]
    rw [← hcs] at hk hK
    exact countP_inRange_eq_one cs hK k hk
  · simp only [NewTableInfoChan, List.nil_append, idRanges_map_idRange]
    have h := filter_inRange_chunks cs [] (by rw [List.nil_append, hcs]; exact hK)
    rw [List.nil_append, hcs] at h
    rw [h, hcs]
  · simp only [NewTableInfoChan, List.nil_append, idRanges_map_idRange]
    intro r hr
    have := chunkEnds_mem cs r hr
    rw [hcs] at this
    exact this

/-- Witness of C1: the keys 1..12 with page size 5 and slice size 2. -/
theorem single_column_coverage_witness :
      ∃ t : TableInfoChan Nat Unit,
        getPrimaryKeyRange
          (fun cur incl limit =>
            (.ok (keysetPage [1, 2, 3, 4, 5, 6, 7, 8, 9, 10, 11, 12] cur incl limit.toNat) :
              Except Unit (List Nat)))
          13 1 true ((5 : Nat) : Int) ((2 : Nat) : Int)
          (NewTableInfoChan platformTable 2 5) = .ok t ∧
        (∀ k ∈ [1, 2, 3, 4, 5, 6, 7, 8, 9, 10, 11, 12],
          (idRanges t.PrimaryKeyRange.sent).countP (inRange k) = 1) ∧
        ((idRanges t.PrimaryKeyRange.sent).map
          (fun r => [1, 2, 3, 4, 5, 6, 7, 8, 9, 10, 11, 12].filter (fun k => inRange k r))).flatten
            = [1, 2, 3, 4, 5, 6, 7, 8, 9, 10, 11, 12] ∧
        (∀ r ∈ idRanges t.PrimaryKeyRange.sent,
          r.1 ∈ [1, 2, 3, 4, 5, 6, 7, 8, 9, 10, 11, 12] ∧
          r.2 ∈ [1, 2, 3, 4, 5, 6, 7, 8, 9, 10, 11, 12]) :=
  single_column_coverage _ [1, 2, 3, 4, 5, 6, 7, 8, 9, 10, 11, 12] 1 5 2
    platformTable 2 5 (by decide) (by decide) (by decide) rfl
    (fun _ _ => rfl) 13 (by decide)

/-- C2. Composite coverage: the same over primary-key tuples ordered
lexicographically (`List.Lex`, SQL row comparison): with keyset pages under
tuple comparison and the smallest tuple as first cursor,
`getMultiPrimaryKeyRange` returns, every tuple lies in exactly one emitted
range read as a closed lexicographic interval, and the tuples the ranges select
are, in order, exactly the table's tuples. -/
theorem composite_coverage {V ρ ε : Type} [LinearOrder V]
    (fetch : Tuple V → Bool → Int → Except ε (List (Tuple V))) (K : List (Tuple V))
    (c : Tuple V) (b w : Nat) (tableInfo : TableInfo) (capR capC : Int)
    (hb : 1 ≤ b) (hw : 1 ≤ w) (hK : K.Pairwise (fun x y => List.Lex (· < ·) x y))
    (hc : K.head? = some c)
    (hfetch : ∀ cur incl, fetch cur incl (b : Int) = .ok (keysetPage K cur incl b)) :
    ∀ fuel, K.length < fuel →
      ∃ t : TableInfoChan (Tuple V) ρ,
        getMultiPrimaryKeyRange fetch fuel c true (b : Int) (w : Int)
          (NewTableInfoChan tableInfo capR capC) = .ok t ∧
        (∀ k ∈ K, (multiKeyRanges t.PrimaryKeyRange.sent).countP (inRange k) = 1) ∧
        ((multiKeyRanges t.PrimaryKeyRange.sent).map
          (fun r => K.filter (fun k => inRange k r))).flatten = K ∧
        (∀ r ∈ multiKeyRanges t.PrimaryKeyRange.sent, r.1 ∈ K ∧ r.2 ∈ K) := by
  intro fuel hfuel
  have hK' : K.Pairwise (· < ·) := hK
  obtain ⟨cs, hcs, _, hrun⟩ := getMultiPrimaryKeyRange_keyset fetch K b w hb hw hK' hfetch fuel []
    K c true (NewTableInfoChan tableInfo capR capC : TableInfoChan (Tuple V) ρ) rfl (by simp)
    (by
      intro s hs
      simpa using head_le_of_sorted K c hK' hc s hs)
    hfuel
  refine ⟨_, hrun, ?_, ?_, ?_⟩
  · intro k hk
    simp only [NewTableInfoChan, List.nil_append, multiKeyRanges_map_multiKeyRange]
    rw [← hcs] at hk hK'
    exact countP_inRange_eq_one cs hK' k hk
  · simp only [NewTableInfoChan, List.nil_append, multiKeyRanges_map_multiKeyRange]
    have h := filter_inRange_chunks cs [] (by rw [List.nil_append, hcs]; exact hK')
    rw [List.nil_append, hcs] at h
    rw [h, hcs]
  · simp only [NewTableInfoChan, List.nil_append, multiKeyRanges_map_multiKeyRange]
    intro r hr
    have := chunkEnds_mem cs r hr
    rw [hcs] at this
    exact this

/-- Witness of C2: scenario S3, tuples `(tenant, id)` with page size 3. -/
theorem composite_coverage_witness :
      ∃ t : TableInfoChan (Tuple Int) Unit,
        getMultiPrimaryKeyRange
          (fun cur incl limit =>
            (.ok (keysetPage [[1, 1], [1, 2], [2, 3], [2, 4]] cur incl limit.toNat) :
              Except Unit (List (Tuple Int))))
          5 [1, 1] true ((3 : Nat) : Int) ((2 : Nat) : Int)
          (NewTableInfoChan platformTable 2 3) = .ok t ∧
        (∀ k ∈ ([[1, 1], [1, 2], [2, 3], [2, 4]] : List (Tuple Int)),
          (multiKeyRanges t.PrimaryKeyRange.sent).countP (inRange k) = 1) ∧
        ((multiKeyRanges t.PrimaryKeyRange.sent).map
          (fun r => ([[1, 1], [1, 2], [2, 3], [2, 4]] : List (Tuple Int)).filter
            (fun k => inRange k r))).flatten = [[1, 1], [1, 2], [2, 3], [2, 4]] ∧
        (∀ r ∈ multiKeyRanges t.PrimaryKeyRange.sent,
          r.1 ∈ ([[1, 1], [1, 2], [2, 3], [2, 4]] : List (Tuple Int)) ∧
          r.2 ∈ ([[1, 1], [1, 2], [2, 3], [2, 4]] : List (Tuple Int))) :=
  composite_coverage _ [[1, 1], [1, 2], [2, 3], [2, 4]] [1, 1] 3 2
    platformTable 2 3 (by decide) (by decide) (by decide) rfl
    (fun _ _ => rfl) 5 (by decide)

/-- C3. Page slicing: for a page of `n ≥ 1` keys and slice size `w ≥ 1`, one
pass of the slicing loop returns exactly `⌈n / w⌉` ranges, the `k`-th (from 0)
being `(page[k*w], page[min(k*w + w, n) - 1])` with both indices inside the
page; for the page 1..12 and `w = 5` the ranges are (1,5), (6,10), (11,12). -/
theorem page_slicing {κ : Type} (page : List κ) (w : Nat) (hn : 1 ≤ page.length) (hw : 1 ≤ w) :
    (∃ rs, slicePage page (w : Int) = .ok rs ∧ 1 ≤ rs.length ∧
      rs.length = (page.length + w - 1) / w ∧
      ∀ k, k < rs.length →
        k * w < page.length ∧ min (k * w + w) page.length - 1 < page.length ∧
        ∃ lo hi, page[k * w]? = some lo ∧ page[min (k * w + w) page.length - 1]? = some hi ∧
          rs[k]? = some (lo, hi)) ∧
    slicePage ([1, 2, 3, 4, 5, 6, 7, 8, 9, 10, 11, 12] : List Nat) 5
      = .ok [(1, 5), (6, 10), (11, 12)] := by
  refine ⟨?_, by decide⟩
  obtain ⟨rs, hrun, hlen, hk⟩ := slicePage_index page w hw
  refine ⟨rs, hrun, ?_, hlen, hk⟩
  rw [hlen, Nat.le_div_iff_mul_le (by omega)]
  omega

/-- Witness of C3: a page of seven keys sliced by three. -/
theorem page_slicing_witness :
    (∃ rs, slicePage ([10, 20, 30, 40, 50, 60, 70] : List Nat) ((3 : Nat) : Int) = .ok rs ∧
      1 ≤ rs.length ∧
      rs.length = (([10, 20, 30, 40, 50, 60, 70] : List Nat).length + 3 - 1) / 3 ∧
      ∀ k, k < rs.length →
        k * 3 < ([10, 20, 30, 40, 50, 60, 70] : List Nat).length ∧
        min (k * 3 + 3) ([10, 20, 30, 40, 50, 60, 70] : List Nat).length - 1
          < ([10, 20, 30, 40, 50, 60, 70] : List Nat).length ∧
        ∃ lo hi, ([10, 20, 30, 40, 50, 60, 70] : List Nat)[k * 3]? = some lo ∧
          ([10, 20, 30, 40, 50, 60, 70] : List Nat)[
            min (k * 3 + 3) ([10, 20, 30, 40, 50, 60, 70] : List Nat).length - 1]? = some hi ∧
          rs[k]? = some (lo, hi)) ∧
    slicePage ([1, 2, 3, 4, 5, 6, 7, 8, 9, 10, 11, 12] : List Nat) 5
      = .ok [(1, 5), (6, 10), (11, 12)] :=
  page_slicing [10, 20, 30, 40, 50, 60, 70] 3 (by decide) (by decide)

/-- C4. Range shape: for an ascending page and slice size `w ≥ 1`, every range
the slicing loop emits has `lo ≤ hi` and runs from an index `i` to an index
`j` of the page with `i ≤ j < i + w`; when the page is strictly ascending the
keys of the page inside the range number at most `w`. -/
theorem range_shape {κ : Type} [LinearOrder κ] (page : List κ) (w : Nat) (hw : 1 ≤ w)
    (hs : page.Pairwise (· ≤ ·)) :
    ∃ rs, slicePage page (w : Int) = .ok rs ∧
      (∀ r ∈ rs, r.1 ≤ r.2 ∧
        ∃ i j, i ≤ j ∧ j < i + w ∧ page[i]? = some r.1 ∧ page[j]? = some r.2) ∧
      (page.Pairwise (· < ·) →
        ∀ r ∈ rs, (page.filter (fun k => inRange k r)).length ≤ w) := by
  obtain ⟨rs, hrun, _, hk⟩ := slicePage_index page w hw
  refine ⟨rs, hrun, ?_, ?_⟩
  · intro r hr
    obtain ⟨k, hklt, hkr⟩ := List.getElem_of_mem hr
    obtain ⟨hi, hj, lo, hi', hlo, hhi, hget⟩ := hk k hklt
    rw [List.getElem?_eq_getElem hklt, hkr] at hget
    obtain rfl : r = (lo, hi') := Option.some.inj hget
    have hij : k * w ≤ min (k * w + w) page.length - 1 := by omega
    refine ⟨?_, k * w, _, hij, by omega, hlo, hhi⟩
    rw [List.getElem?_eq_getElem hi] at hlo
    rw [List.getElem?_eq_getElem hj] at hhi
    obtain rfl := Option.some.inj hlo
    obtain rfl := Option.some.inj hhi
    rcases Nat.eq_or_lt_of_le hij with e | hlt
    · simp only [← e]; exact le_refl _
    · exact (List.pairwise_iff_getElem.mp hs) _ _ hi hj hlt
  · intro hstrict r hr
    have hrun' := slicePage_eq_chunks page w hw
    rw [hrun] at hrun'
    obtain rfl : rs = (chunksOf w page.length page).map chunkEnds := by
      injection hrun'
    have hjoin := chunksOf_join w page.length page (le_refl _)
    have hf := filter_inRange_chunks (chunksOf w page.length page) []
      (by rw [List.nil_append, hjoin]; exact hstrict)
    rw [List.nil_append, hjoin] at hf
    obtain ⟨c, hc, rfl⟩ := List.mem_map.mp hr
    have hmem : page.filter (fun k => inRange k (chunkEnds c))
        ∈ (chunksOf w page.length page).map chunkList := by
      rw [← hf]
      exact List.mem_map_of_mem _ hr
    obtain ⟨c', hc', hceq⟩ := List.mem_map.mp hmem
    rw [← hceq]
    exact chunksOf_length_le w hw _ _ c' hc'

/-- Witness of C4: an ascending page of seven keys sliced by three. -/
theorem range_shape_witness :
    ∃ rs, slicePage ([10, 20, 30, 40, 50, 60, 70] : List Nat) ((3 : Nat) : Int) = .ok rs ∧
      (∀ r ∈ rs, r.1 ≤ r.2 ∧
        ∃ i j, i ≤ j ∧ j < i + 3 ∧ ([10, 20, 30, 40, 50, 60, 70] : List Nat)[i]? = some r.1 ∧
          ([10, 20, 30, 40, 50, 60, 70] : List Nat)[j]? = some r.2) ∧
      (([10, 20, 30, 40, 50, 60, 70] : List Nat).Pairwise (· < ·) →
        ∀ r ∈ rs,
          (([10, 20, 30, 40, 50, 60, 70] : List Nat).filter (fun k => inRange k r)).length ≤ 3) :=
  range_shape [10, 20, 30, 40, 50, 60, 70] 3 (by decide) (by decide)

/-! ## Stage C: batches, accounting, flush -/

/-- C5. Batch size upper bound: with `record_batch_size = R ≥ 1`, after any
sequence of record arrivals, idle timeouts and channel closes `processTableInfo`
is in a state (it never faults), every batch it has passed to `processBatch`
holds at least 1 and at most `R` records, and so does every PUT issued to the
sink. -/
theorem batch_size_upper_bound {ρ : Type} (marshal : List ρ → Except String String)
    (m : migrationRunner ρ) (tableName : String) (events : List (Event ρ))
    (hR : 1 ≤ m.workerConfig.RecordBatchSize) :
    ∃ s, processTableInfo marshal m tableName events = .ok s ∧
      ∀ c ∈ s.calls, 1 ≤ c.records.length ∧
        (c.records.length : Int) ≤ m.workerConfig.RecordBatchSize ∧
        ∀ p ∈ c.puts, 1 ≤ p.noOfRecords ∧ (p.noOfRecords : Int) ≤ m.workerConfig.RecordBatchSize := by
  have hinit : StageCInv m.workerConfig.RecordBatchSize
      ({ m := (match mapGet m.failedRecords tableName with
            | some _ => m
            | none => { m with failedRecords := mapSet m.failedRecords tableName [] })
         records := [], checkAllRecordsProcessed := [], processedRecordsChan := false,
         calls := [] } : StageC ρ) := by
    refine ⟨?_, ?_, by simp⟩
    · cases mapGet m.failedRecords tableName <;> rfl
    · simp only [List.length_nil]; omega
  obtain ⟨s, hs, hinv⟩ := StageCInv_loop marshal tableName _ hR events _ hinit
  exact ⟨s, hs, hinv.2.2⟩

/-- Witness of C5: scenario S2's Stage C, five records with `R = 2` and a
final idle timeout. -/
theorem batch_size_upper_bound_witness :
    ∃ s, processTableInfo (fun rs : List Nat => (.ok (toString rs) : Except String String))
        (NewMigrationRunner ⟨1, 5, 5, 1, 1000, 2⟩) "platform"
        [Event.record 1 "r1" ⟨"b1", .response 200 "200 OK" ""⟩,
         Event.record 2 "r2" ⟨"b2", .response 200 "200 OK" ""⟩,
         Event.record 3 "r3" ⟨"b3", .response 200 "200 OK" ""⟩,
         Event.timeout ⟨"b4", .response 500 "500" ""⟩ true 3] = .ok s ∧
      ∀ c ∈ s.calls, 1 ≤ c.records.length ∧
        (c.records.length : Int)
          ≤ (NewMigrationRunner ⟨1, 5, 5, 1, 1000, 2⟩ : migrationRunner Nat).workerConfig.RecordBatchSize ∧
        ∀ p ∈ c.puts, 1 ≤ p.noOfRecords ∧ (p.noOfRecords : Int)
          ≤ (NewMigrationRunner ⟨1, 5, 5, 1, 1000, 2⟩ : migrationRunner Nat).workerConfig.RecordBatchSize :=
  batch_size_upper_bound _ (NewMigrationRunner ⟨1, 5, 5, 1, 1000, 2⟩) "platform" _ (by decide)

/-- What the termination test of Stage C does establish: when the UUIDs
drawn are pairwise distinct and an idle timeout makes `checkTableProcessed`
return true (the turn that sets `processedRecordsChan`), the value of
`total_records_read` it compared equals the records carried by successful
uploads plus all the records under the table's name in `failed`;
`failed[table]` is what it held on entry followed by the records of this
table's batches that were not uploaded (exactly those when it was empty on
entry); and the tracking map, zero-valued per-record entries included, sums to
the uploaded records. -/
theorem failure_accounting {ρ : Type} (marshal : List ρ → Except String String)
    (m : migrationRunner ρ) (tableName : String) (pre : List (Event ρ)) (env : SinkEnv)
    (readingRecordsDone : Bool) (totalRecordsRead : Nat) (s s1 : StageC ρ)
    (hfresh : (((pre ++ [Event.timeout env readingRecordsDone totalRecordsRead]).map
      Event.uuids).flatten).Nodup)
    (hpre : processTableInfo marshal m tableName pre = .ok s)
    (hrunning : s.processedRecordsChan = false)
    (hpost : processTableInfo marshal m tableName
      (pre ++ [Event.timeout env readingRecordsDone totalRecordsRead]) = .ok s1)
    (hdone : s1.processedRecordsChan = true) :
    totalRecordsRead = uploadedRecords s1.calls + (s1.m.failed tableName).length ∧
    s1.m.failed tableName = m.failed tableName ++ failedBatches s1.calls ∧
    (m.failed tableName = [] → s1.m.failed tableName = failedBatches s1.calls) ∧
    (mapValues s1.checkAllRecordsProcessed).sum = uploadedRecords s1.calls ∧
    readingRecordsDone = true := by
  unfold processTableInfo at hpre hpost
  obtain ⟨seen, hsum, _, hfailed⟩ := Acct_loop marshal tableName (m.failed tableName) _ [] _ s1
    (by simpa using hfresh) (Acct_init m tableName) hpost
  rw [processTableInfoLoop_append marshal tableName _ pre _ s hpre hrunning] at hpost
  have hcheck := timeout_sets_flag marshal tableName env readingRecordsDone totalRecordsRead
    s s1 hpost hrunning hdone
  simp only [checkTableProcessed, Bool.and_eq_true, decide_eq_true_eq] at hcheck
  refine ⟨?_, hfailed, ?_, hsum, hcheck.1⟩
  · rw [← hsum]; exact hcheck.2.symm
  · intro h0
    rw [hfailed, h0, List.nil_append]

/-- C6 at the failing input: two tables named `platform` (schemas `archive`
and `public`), `R = 1`.  The only record of the first table, 99, is answered
500 and stays under `failed["platform"]`.  The second table has two records;
the first, 10, is uploaded and an idle timeout then finds the table read to
the end with `total_records_read = 2`.  `checkTableProcessed` counts the record
of the other table as this table's failure, `1 + 1 = 2`, and ends the table:
one record of it was uploaded, none of it failed, one was never received. -/
theorem shared_failed_entry_ends_table_early :
    ((processTableInfo (fun rs : List Nat => (.ok (toString rs) : Except String String))
        { failedRecords := [], workerConfig := ⟨1, 5, 5, 1, 1000, 1⟩ } "platform"
        [Event.record 99 "r0" ⟨"b0", .response 500 "500" ""⟩,
         Event.timeout ⟨"t0", .response 200 "200 OK" ""⟩ true 1]).toOption.map
      (fun s => (s.processedRecordsChan, s.m)))
      = some (true, { failedRecords := [("platform", [99])]
                      workerConfig := ⟨1, 5, 5, 1, 1000, 1⟩ }) ∧
    ((processTableInfo (fun rs : List Nat => (.ok (toString rs) : Except String String))
        { failedRecords := [("platform", [99])], workerConfig := ⟨1, 5, 5, 1, 1000, 1⟩ }
        "platform"
        [Event.record 10 "r1" ⟨"b1", .response 200 "200 OK" ""⟩,
         Event.timeout ⟨"t1", .response 200 "200 OK" ""⟩ true 2]).toOption.map
      (fun s => (s.processedRecordsChan, uploadedRecords s.calls, failedBatches s.calls,
        s.m.failed "platform")))
      = some (true, 1, [], [99]) ∧
    (2 : Nat) ≠ 1 + ([] : List Nat).length := by
  refine ⟨by decide, by decide, by decide⟩

/-- C7. Flush outcome: for a non-empty batch `processBatch` logs one call with
at most one PUT (no retry) and leaves the buffer alone, and exactly one of two
things holds.  Either serialization and the PUT succeed: the call is an
upload, the tracking map maps the label to the batch's record count and is
unchanged elsewhere, the uploaded total grows by that count and the runner
(`failed` included) is unchanged.  Or serialization or the PUT fails: the call
is not an upload, `failed[table]` is extended by exactly the batch's records in
order, other tables' failed records and the tracking map are unchanged, and so
is the uploaded total. -/
theorem flush_outcome {ρ : Type} (marshal : List ρ → Except String String)
    (tableName : String) (env : SinkEnv) (s : StageC ρ) (batch : List ρ) (hne : batch ≠ []) :
    ∃ c : BatchCall ρ,
      (processBatch marshal tableName env s batch).calls = s.calls ++ [c] ∧
      c.records = batch ∧ c.puts.length ≤ 1 ∧
      (processBatch marshal tableName env s batch).records = s.records ∧
      (((∃ payload, marshal batch = .ok payload) ∧
          StreamLoadDoris env.http env.label = .ok () ∧ c.uploaded = true ∧
          mapGet (processBatch marshal tableName env s batch).checkAllRecordsProcessed env.label
            = some batch.length ∧
          (∀ k, k ≠ env.label →
            mapGet (processBatch marshal tableName env s batch).checkAllRecordsProcessed k
              = mapGet s.checkAllRecordsProcessed k) ∧
          uploadedRecords (processBatch marshal tableName env s batch).calls
            = uploadedRecords s.calls + batch.length ∧
          (processBatch marshal tableName env s batch).m = s.m) ∨
       (((∃ e, marshal batch = .error e) ∨ ∃ e, StreamLoadDoris env.http env.label = .error e) ∧
          c.uploaded = false ∧
          (processBatch marshal tableName env s batch).m.failed tableName
            = s.m.failed tableName ++ batch ∧
          (∀ t, t ≠ tableName →
            (processBatch marshal tableName env s batch).m.failed t = s.m.failed t) ∧
          (processBatch marshal tableName env s batch).checkAllRecordsProcessed
            = s.checkAllRecordsProcessed ∧
          uploadedRecords (processBatch marshal tableName env s batch).calls
            = uploadedRecords s.calls)) := by
  rcases processBatch_cases marshal tableName env s batch with
    ⟨payload, _, hm, hu, heq⟩ | ⟨hwhy, puts, hputs, heq⟩
  · rw [heq]
    refine ⟨_, rfl, rfl, by simp, rfl, Or.inl ⟨⟨payload, hm⟩, hu, rfl, ?_, ?_, ?_, rfl⟩⟩
    · exact mapGet_mapSet_self _ _ _
    · intro k hk
      exact mapGet_mapSet_ne _ _ _ _ hk
    · simp only [uploadedRecords_append, if_true]
  · rw [heq]
    have hwhy' : (∃ e, marshal batch = .error e) ∨
        ∃ e, StreamLoadDoris env.http env.label = .error e := by
      rcases hwhy with h | h
      · exact absurd h hne
      · exact h
    refine ⟨_, rfl, rfl, hputs, rfl, Or.inr ⟨hwhy', rfl, ?_, ?_, rfl, ?_⟩⟩
    · exact failed_appendFailed_self _ _ _
    · intro t ht
      exact failed_appendFailed_ne _ _ _ _ ht
    · simp only [uploadedRecords_append, Bool.false_eq_true, if_false, Nat.add_zero]

/-- Witness of C7: a batch of two records answered with status 500. -/
theorem flush_outcome_witness :
    ∃ c : BatchCall Nat,
      (processBatch (fun rs : List Nat => (.ok (toString rs) : Except String String)) "platform"
        ⟨"b1", .response 500 "500" ""⟩
        { m := { failedRecords := [], workerConfig := ⟨1, 5, 5, 1, 1000, 2⟩ }, records := [],
          checkAllRecordsProcessed := [], processedRecordsChan := false, calls := [] }
        [10, 20]).calls = [] ++ [c] ∧ c.records = [10, 20] ∧ c.puts.length ≤ 1 :=
  (flush_outcome (fun rs : List Nat => (.ok (toString rs) : Except String String)) "platform"
    ⟨"b1", .response 500 "500" ""⟩
    { m := { failedRecords := [], workerConfig := ⟨1, 5, 5, 1, 1000, 2⟩ }, records := [],
      checkAllRecordsProcessed := [], processedRecordsChan := false, calls := [] }
    [10, 20] (by decide)).imp (fun _ h => ⟨h.1, h.2.1, h.2.2.1⟩)

/-! ## Start-up: capacities and defaults -/

/-- Counterexample to C8 as stated: with `worker_batch_size = 5000` and
`id_batch_size = 10000` the allocated ranges queue has capacity 5000 and the
records queue capacity 10000. -/
theorem queue_capacities_as_stated_fails :
    ∃ run : SourceRun Nat Nat,
      GetRecordsFromSource (NewPostgresMigration publicSchema ⟨4, 5000, 10000, 10, 500, 5000⟩)
        (catalogOf platformTable.Columns) (fun _ => emptyTable) = .ok run ∧
      ∃ t ∈ run.tableInfoChan,
        ¬ (t.PrimaryKeyRange.cap = (10000 : Int) ∧ t.RecordsChan.cap = (5000 : Int)) :=
  ⟨_, rfl, NewTableInfoChan platformTable 5000 10000, by decide, by decide⟩

/-- C8 (amended). Queue capacities: whenever `GetRecordsFromSource` is in a
state (`make` panics on a negative size), every `TableInfoChan` it has
allocated has a ranges queue of capacity `worker_batch_size` and a records
queue of capacity `id_batch_size`, and both sizes are non-negative when it
has allocated one. -/
theorem queue_capacities {κ ρ : Type} (p : postgresMigration)
    (db : List String → Except String (List (Except String ColumnInfo)))
    (env : TableInfo → TableEnv κ ρ) (run : SourceRun κ ρ)
    (hrun : GetRecordsFromSource p db env = .ok run) :
    run.tableInfoChan.map (fun t => (t.PrimaryKeyRange.cap, t.RecordsChan.cap))
      = List.replicate run.tableInfoChan.length
          (p.workerConfig.WorkerBatchSize, p.workerConfig.IdBatchSize) ∧
    (run.tableInfoChan ≠ [] →
      0 ≤ p.workerConfig.WorkerBatchSize ∧ 0 ≤ p.workerConfig.IdBatchSize) := by
  have hall := GetRecordsFromSource_allocated p db env run hrun
  constructor
  · apply map_eq_replicate
    intro t ht
    obtain ⟨⟨tableInfo, rfl⟩, _⟩ := hall t ht
    rfl
  · intro hne
    obtain ⟨t, ht⟩ := List.exists_mem_of_ne_nil _ hne
    exact (hall t ht).2

/-- Witness of C8 (amended): the sample catalog with sizes 5000 and 10000;
with the sizes -5 and -3 the first `make` panics and nothing is allocated. -/
theorem queue_capacities_witness :
    (({ tableInfoChan := [NewTableInfoChan platformTable 5000 10000]
        tables := [{ tableInfoChan := NewTableInfoChan platformTable 5000 10000
                     stageA := false, stageB := false, admission := ⟨10, 1, 1⟩ }]
        admission := ⟨10, 1, 1⟩, processedAllTables := false, err := none
        returned := false } : SourceRun Nat Nat).tableInfoChan.map
         (fun t => (t.PrimaryKeyRange.cap, t.RecordsChan.cap))
       = List.replicate 1 ((5000 : Int), (10000 : Int))) ∧
    (GetRecordsFromSource (NewPostgresMigration publicSchema ⟨4, -5, -3, 10, 500, 5000⟩)
        (catalogOf platformTable.Columns) (fun _ => emptyTable) :
        Except Fault (SourceRun Nat Nat)) = .error .makechanSizeOutOfRange ∧
    (GetRecordsFromSource (NewPostgresMigration publicSchema ⟨4, 5000, 10000, -1, 500, 5000⟩)
        (catalogOf platformTable.Columns) (fun _ => emptyTable) :
        Except Fault (SourceRun Nat Nat)) = .error .makechanSizeOutOfRange :=
  ⟨(queue_capacities (NewPostgresMigration publicSchema ⟨4, 5000, 10000, 10, 500, 5000⟩)
      (catalogOf platformTable.Columns) (fun _ => emptyTable) _ (by decide)).1,
    by decide, by decide⟩

/-- C9. Runner defaults: the configuration `NewMigrationRunner` stores has
each of worker_batch_size, id_batch_size, concurrent_tables,
batch_processing_timeout_ms and record_batch_size equal to the configured
value when that is `> 0` and to 10000, 10000, 10, 500, 5000 otherwise, and
no_of_workers unchanged. -/
theorem runner_defaults {ρ : Type} (workerConfig : WorkerConfiguration) :
    (NewMigrationRunner workerConfig : migrationRunner ρ).workerConfig =
      { NoOfWorkers := workerConfig.NoOfWorkers
        WorkerBatchSize :=
          if workerConfig.WorkerBatchSize > 0 then workerConfig.WorkerBatchSize else 10000
        IdBatchSize := if workerConfig.IdBatchSize > 0 then workerConfig.IdBatchSize else 10000
        ConcurrentTables :=
          if workerConfig.ConcurrentTables > 0 then workerConfig.ConcurrentTables else 10
        BatchProcessingTimeoutMs :=
          if workerConfig.BatchProcessingTimeoutMs > 0 then workerConfig.BatchProcessingTimeoutMs
          else 500
        RecordBatchSize :=
          if workerConfig.RecordBatchSize > 0 then workerConfig.RecordBatchSize else 5000 } := by
  obtain ⟨n, a, b, c, d, e⟩ := workerConfig
  simp only [NewMigrationRunner, gt_iff_lt]
  by_cases ha : a ≤ 0 <;> by_cases hb : b ≤ 0 <;> by_cases hc : c ≤ 0 <;>
    by_cases hd : d ≤ 0 <;> by_cases he : e ≤ 0 <;>
    simp [ha, hb, hc, hd, he, not_lt.mpr, not_le.mp]

/-- C10 at the failing input (all sizes 0): the runner holds the defaults
10000, 10000, 10 while `PostgresMigration` holds the configured zeros, so
Stage A is called with page size 0 and slice size 0, the queues and the
admission channel are allocated with capacity 0 (the first send on the
admission channel then blocks), and one pass of the slicing loop over a
non-empty page with slice size 0 panics. -/
theorem defaults_do_not_reach_source_stages :
    let app : Services Nat := main publicSchema ⟨4, 0, 0, 0, 0, 0⟩
    (app.MigrationRunner.workerConfig.WorkerBatchSize = 10000 ∧
      app.MigrationRunner.workerConfig.IdBatchSize = 10000 ∧
      app.MigrationRunner.workerConfig.ConcurrentTables = 10) ∧
    app.PostgresMigration.stageASizes = (0, 0) ∧
    (GetRecordsFromSource app.PostgresMigration (catalogOf platformTable.Columns)
        (fun _ => emptyTable) : Except Fault (SourceRun Nat Nat)) =
      .ok { tableInfoChan := [NewTableInfoChan platformTable 0 0], tables := []
            admission := { cap := 0, tokens := 0, wg := 0 }, processedAllTables := false
            err := none, returned := false } ∧
    slicePage ([1, 2, 3] : List Nat) app.PostgresMigration.stageASizes.2
      = .error .indexOutOfRange := by
  decide

/-! ## Catalog -/

/-- C11 at the failing input: from the metadata rows of `public.orders`
`GetTableInfo` builds the table and returns the empty list, and from the rows
of `public.orders` and `public.platform` it returns `public.platform` only. -/
theorem catalog_returns_only_platform :
    tableAt (ordersRows.foldl addColumn []) "public" "orders"
      = some { TableSchema := "public", TableName := "orders", Columns := ordersRows
               PrimaryKeys := [⟨"id", "int8"⟩] } ∧
    GetTableInfo (.ok (ordersRows.map Except.ok)) = .ok [] ∧
    GetTableInfo (.ok ((ordersRows ++ platformTable.Columns).map Except.ok))
      = .ok [platformTable] := by
  decide

/-- C12. Catalog grouping: for metadata rows ordered by (table_name,
ordinal_position) the row loop of `GetTableInfo` succeeds; the entry
`tableMap[schema][table]` exists exactly for the pairs present in the rows;
each entry, each value stored in the map and each `TableInfo` returned carries
its own schema and name, has as `Columns` exactly the rows of its pair in
increasing ordinal order, and as `PrimaryKeys` the flagged columns among them,
each with that column's name and udt_name, in the same order. -/
theorem catalog_grouping (rows : List ColumnInfo)
    (hsorted : rows.Pairwise (fun a b => rowBefore a b = true)) :
    ∃ tableMap, scanRows [] (rows.map Except.ok) = .ok tableMap ∧
      (∀ c ∈ rows, ∃ ti, tableAt tableMap c.Schema c.Table = some ti) ∧
      (∀ schema table ti, tableAt tableMap schema table = some ti →
        ti.TableSchema = schema ∧ ti.TableName = table ∧ (∃ c ∈ rows, c.Schema = schema ∧
          c.Table = table) ∧ Grouped rows ti) ∧
      (∀ e ∈ tableMap, ∀ ti ∈ mapValues e.2, Grouped rows ti) ∧
      (∃ tis, GetTableInfo (.ok (rows.map Except.ok)) = .ok tis ∧ ∀ ti ∈ tis, Grouped rows ti) := by
  have hmap : ∀ schema table,
      tableAt (rows.foldl addColumn []) schema table = tableOf rows schema table := by
    intro schema table
    have := tableAt_foldl rows [] [] (by intro s t; simp [tableAt, tableOf, columnsOf, mapGet])
      schema table
    simpa using this
  have hkeys : CatalogKeys (rows.foldl addColumn []) :=
    CatalogKeys_foldl rows [] ⟨by simp, by intro e he; simp at he⟩
  have hvalues : ∀ e ∈ rows.foldl addColumn [], ∀ ti ∈ mapValues e.2, Grouped rows ti := by
    intro e he ti hti
    obtain ⟨table, htab⟩ := tableAt_of_mem _ hkeys e he ti hti
    exact (Grouped_of_tableAt rows hsorted _ hmap _ _ ti htab).2.2
  refine ⟨rows.foldl addColumn [], scanRows_ok rows [], ?_, ?_, hvalues, ?_⟩
  · intro c hc
    rw [hmap]
    unfold tableOf
    have hmem : c ∈ columnsOf rows c.Schema c.Table := by
      simp [columnsOf, List.mem_filter, hc]
    have hne : columnsOf rows c.Schema c.Table ≠ [] := List.ne_nil_of_mem hmem
    simp [hne]
  · intro schema table ti h
    obtain ⟨h1, h2, hg⟩ := Grouped_of_tableAt rows hsorted _ hmap schema table ti h
    refine ⟨h1, h2, ?_, hg⟩
    obtain ⟨c, hc⟩ := List.exists_mem_of_ne_nil _ hg.2.1
    rw [hg.1, h1, h2] at hc
    simp only [columnsOf, List.mem_filter, Bool.and_eq_true, decide_eq_true_eq] at hc
    exact ⟨c, hc.1, hc.2.1, hc.2.2⟩
  · simp only [GetTableInfo, scanRows_ok]
    refine ⟨_, rfl, ?_⟩
    intro ti hti
    obtain ⟨l, hl, htil⟩ := List.mem_flatten.mp hti
    obtain ⟨e, he, rfl⟩ := List.mem_map.mp hl
    exact hvalues e he ti (List.mem_of_mem_filter htil)

/-- Witness of C12: the rows of `public.orders` followed by those of
`public.platform`. -/
theorem catalog_grouping_witness :
    ∃ tableMap, scanRows [] ((ordersRows ++ platformTable.Columns).map Except.ok) = .ok tableMap ∧
      (∀ c ∈ ordersRows ++ platformTable.Columns,
        ∃ ti, tableAt tableMap c.Schema c.Table = some ti) ∧
      (∀ schema table ti, tableAt tableMap schema table = some ti →
        ti.TableSchema = schema ∧ ti.TableName = table ∧
        (∃ c ∈ ordersRows ++ platformTable.Columns, c.Schema = schema ∧ c.Table = table) ∧
        Grouped (ordersRows ++ platformTable.Columns) ti) ∧
      (∀ e ∈ tableMap, ∀ ti ∈ mapValues e.2, Grouped (ordersRows ++ platformTable.Columns) ti) ∧
      (∃ tis, GetTableInfo (.ok ((ordersRows ++ platformTable.Columns).map Except.ok)) = .ok tis ∧
        ∀ ti ∈ tis, Grouped (ordersRows ++ platformTable.Columns) ti) :=
  catalog_grouping (ordersRows ++ platformTable.Columns) (by decide)

/-! ## Scheduler -/

/-- C13 at the failing input (schema `public` listed in `excluded_schemas`,
its table `platform` listed in `exclude_tables_list` and matched by a regex of
`exclude_table_regex_list`): `GetRecordsFromSource` allocates the channel
object of `public.platform` all the same, `processTable` starts Stage A and
Stage B for it, and the run is the one of the configuration that excludes
nothing. -/
theorem exclusion_lists_are_ignored :
    (∃ run : SourceRun Nat Nat,
      GetRecordsFromSource (NewPostgresMigration publicExcluded ⟨2, 2, 3, 10, 500, 5⟩)
        (catalogOf platformTable.Columns)
        (fun _ => keysetTable (NewPostgresMigration publicExcluded ⟨2, 2, 3, 10, 500, 5⟩)
          [1, 2, 3, 4, 5]) = .ok run ∧
      run.tableInfoChan.map (fun t => t.TableInfo) = [platformTable] ∧
      run.tables.map (fun r => (r.tableInfoChan.TableInfo.TableName, r.stageA, r.stageB))
        = [("platform", true, true)]) ∧
    (GetRecordsFromSource (NewPostgresMigration publicExcluded ⟨2, 2, 3, 10, 500, 5⟩)
        (catalogOf platformTable.Columns)
        (fun _ => keysetTable (NewPostgresMigration publicSchema ⟨2, 2, 3, 10, 500, 5⟩)
          [1, 2, 3, 4, 5]) : Except Fault (SourceRun Nat Nat))
      = GetRecordsFromSource (NewPostgresMigration publicSchema ⟨2, 2, 3, 10, 500, 5⟩)
        (catalogOf platformTable.Columns)
        (fun _ => keysetTable (NewPostgresMigration publicSchema ⟨2, 2, 3, 10, 500, 5⟩)
          [1, 2, 3, 4, 5]) := by
  refine ⟨⟨_, rfl, ?_, ?_⟩, ?_⟩ <;> decide

/-- C14 at the failing input (a table without primary key): `processTable`
starts no stage and returns with the admission token and the wait-group slot
still taken; with `concurrent_tables = 1` the next table is never admitted, and
with `concurrent_tables = 10` it is processed but `wg.Wait()` never returns, so
`processedAllTables` is never set. -/
theorem table_without_primary_key_keeps_its_token :
    processTable (emptyTable : TableEnv Nat Nat) (NewTableInfoChan noPrimaryKeyTable 2 3)
        { cap := 1, tokens := 1, wg := 1 }
      = .ok { tableInfoChan := NewTableInfoChan noPrimaryKeyTable 2 3, stageA := false
              stageB := false, admission := { cap := 1, tokens := 1, wg := 1 } } ∧
    ((GetRecordsFromSource (NewPostgresMigration twoSchemas ⟨2, 2, 3, 1, 500, 5⟩)
        (catalogOf twoSchemaRows)
        (fun _ => keysetTable (NewPostgresMigration twoSchemas ⟨2, 2, 3, 1, 500, 5⟩) [1, 2, 3]) :
        Except Fault (SourceRun Nat Nat)).toOption.map
      (fun run => (run.tableInfoChan.map (fun t => t.TableInfo.TableSchema),
        run.tables.map (fun r => (r.tableInfoChan.TableInfo.TableSchema, r.stageA, r.stageB)),
        run.admission, run.processedAllTables, run.returned)))
      = some (["a", "b"], [("a", false, false)], { cap := 1, tokens := 1, wg := 1 }, false,
          false) ∧
    ((GetRecordsFromSource (NewPostgresMigration twoSchemas ⟨2, 2, 3, 10, 500, 5⟩)
        (catalogOf twoSchemaRows)
        (fun _ => keysetTable (NewPostgresMigration twoSchemas ⟨2, 2, 3, 10, 500, 5⟩) [1, 2, 3]) :
        Except Fault (SourceRun Nat Nat)).toOption.map
      (fun run => (run.tableInfoChan.map (fun t => t.TableInfo.TableSchema),
        run.tables.map (fun r => (r.tableInfoChan.TableInfo.TableSchema, r.stageA, r.stageB)),
        run.admission, run.processedAllTables, run.returned)))
      = some (["a", "b"], [("a", false, false), ("b", true, true)],
          { cap := 10, tokens := 1, wg := 1 }, false, false) := by
  refine ⟨by decide, by decide, by decide⟩

/-- C15 at the failing input (a table with the PK column `id` and no rows):
the first-key query fails, `processTable` returns at once with the channel
object untouched, so no range is sent and both latches stay false, and with the
token and the wait-group slot still taken; Stage C makes no upload for the
table, keeps `failed[table]` empty and has not terminated after its timeouts. -/
theorem empty_table_latches_nothing :
    (GetFirstIdByPrimaryKey ([] : List Nat)) = .error "no rows in result set" ∧
    processTable (keysetTable (NewPostgresMigration publicSchema ⟨2, 2, 3, 10, 500, 5⟩) [])
        (NewTableInfoChan platformTable 2 3) { cap := 10, tokens := 1, wg := 1 }
      = .ok { tableInfoChan := NewTableInfoChan platformTable 2 3, stageA := false
              stageB := false, admission := { cap := 10, tokens := 1, wg := 1 } } ∧
    (NewTableInfoChan platformTable 2 3 : TableInfoChan Nat Nat).PrimaryKeyRange.sent = [] ∧
    (NewTableInfoChan platformTable 2 3 : TableInfoChan Nat Nat).ReadingIdsDone = false ∧
    (NewTableInfoChan platformTable 2 3 : TableInfoChan Nat Nat).ReadingRecordsDone = false ∧
    ((processTableInfo (fun rs : List Nat => (.ok (toString rs) : Except String String))
        { failedRecords := [], workerConfig := ⟨2, 2, 3, 10, 500, 5⟩ } "platform"
        [Event.timeout ⟨"b1", .response 200 "200 OK" ""⟩ false 0,
         Event.timeout ⟨"b2", .response 200 "200 OK" ""⟩ false 0]).toOption.map
      (fun s => (s.calls, s.m.failed "platform", s.processedRecordsChan)))
      = some ([], [], false) := by
  refine ⟨by decide, by decide, by decide, by decide, by decide, by decide⟩

/-- C16 at the failing input (a page fetch that returns an error): both
`getPrimaryKeyRange` and `getMultiPrimaryKeyRange` return with `ReadingIdsDone`
false, when the first fetch fails and when a later one fails after ranges were
sent. -/
theorem fetch_error_leaves_ids_done_unset :
    getPrimaryKeyRange (fun _ _ _ => (.error "context canceled" : Except String (List Nat)))
        5 1 true 3 2 (NewTableInfoChan platformTable 2 3 : TableInfoChan Nat Nat)
      = .ok (NewTableInfoChan platformTable 2 3) ∧
    getMultiPrimaryKeyRange
        (fun _ _ _ => (.error "context canceled" : Except String (List (Tuple Int))))
        5 [1, 1] true 3 2 (NewTableInfoChan platformTable 2 3 : TableInfoChan (Tuple Int) Nat)
      = .ok (NewTableInfoChan platformTable 2 3) ∧
    (NewTableInfoChan platformTable 2 3 : TableInfoChan Nat Nat).ReadingIdsDone = false ∧
    (getPrimaryKeyRange failingSecondPage 5 1 true 3 2
        (NewTableInfoChan platformTable 2 3 : TableInfoChan Nat Nat)).toOption.map
      (fun t => (idRanges t.PrimaryKeyRange.sent, t.totalUuidsRead, t.ReadingIdsDone))
      = some ([(1, 2), (3, 3)], 3, false) := by
  refine ⟨by decide, by decide, by decide, by decide⟩

/-! ## Stage B -/

/-- Counterexample to C17 as stated, two runs from a fresh channel object.
In the first the controller sets `records_done` while the worker that has
counted its two records is still in flight.  In the second the first range
returns four records for two keys (rows inserted meanwhile), Stage A sends a
second range and finishes, and the controller sets `records_done` while that
range is still queued. -/
theorem records_done_guard_as_stated_fails :
    ((getRecordsFromPrimaryKeyRange (NewPostgresMigration publicSchema ⟨2, 2, 3, 10, 500, 5⟩)
        [StageBEvent.produced (idRange (1, 2)), StageBEvent.counted 2, StageBEvent.idsDone,
         StageBEvent.range, StageBEvent.fetched 0 (.ok [1, 2]), StageBEvent.timeout]
        (NewTableInfoChan platformTable 2 3 : TableInfoChan Nat Nat)).toOption.map
      (fun s => (s.infoChan.ReadingRecordsDone, s.queue, s.workers)))
      = some (true, [], [{ id := 0, range := idRange (1, 2), fetched := true }]) ∧
    ((getRecordsFromPrimaryKeyRange (NewPostgresMigration publicSchema ⟨2, 2, 3, 10, 500, 5⟩)
        [StageBEvent.produced (idRange (1, 9)), StageBEvent.counted 2, StageBEvent.range,
         StageBEvent.fetched 0 (.ok [1, 3, 5, 9]), StageBEvent.exit 0,
         StageBEvent.produced (idRange (20, 30)), StageBEvent.counted 2, StageBEvent.idsDone,
         StageBEvent.timeout]
        (NewTableInfoChan platformTable 2 3 : TableInfoChan Nat Nat)).toOption.map
      (fun s => (s.infoChan.ReadingRecordsDone, s.queue, s.workers)))
      = some (true, [idRange (20, 30)], []) := by
  refine ⟨by decide, by decide⟩

/-- C17 (amended). `records_done` guard: an event of Stage B that sets
`records_done` is the timeout case of the controller, taken in a state in which
`ids_done` is true and `total_keys_read` equals `total_records_read`; the event
changes nothing else than `records_done` and the local `processingDone`. -/
theorem records_done_guard {κ ρ : Type} (NoOfWorkers : Int) (s s1 : StageB κ ρ)
    (e : StageBEvent κ ρ)
    (hstep : getRecordsFromPrimaryKeyRangeStep NoOfWorkers s e = .ok s1)
    (hbefore : s.infoChan.ReadingRecordsDone = false)
    (hafter : s1.infoChan.ReadingRecordsDone = true) :
    e = StageBEvent.timeout ∧ s.processingDone = false ∧
    s.infoChan.ReadingIdsDone = true ∧
    s.infoChan.totalUuidsRead = s.infoChan.totalRecordsRead ∧
    s1 = { s with infoChan := { s.infoChan with ReadingRecordsDone := true }
                  processingDone := true } := by
  cases e with
  | produced r =>
    simp only [getRecordsFromPrimaryKeyRangeStep] at hstep
    injection hstep with hstep
    subst hstep
    rw [hbefore] at hafter
    exact Bool.noConfusion hafter
  | counted count =>
    simp only [getRecordsFromPrimaryKeyRangeStep] at hstep
    injection hstep with hstep
    subst hstep
    simp only [TableInfoChan.IncrementTotalUuidsRead, hbefore] at hafter
    exact Bool.noConfusion hafter
  | idsDone =>
    simp only [getRecordsFromPrimaryKeyRangeStep] at hstep
    injection hstep with hstep
    subst hstep
    rw [hbefore] at hafter
    exact Bool.noConfusion hafter
  | range =>
    simp only [getRecordsFromPrimaryKeyRangeStep] at hstep
    split at hstep
    · exact Except.noConfusion hstep
    · split at hstep
      · exact Except.noConfusion hstep
      · split at hstep
        · injection hstep with hstep
          subst hstep
          rw [hbefore] at hafter
          exact Bool.noConfusion hafter
        · exact Except.noConfusion hstep
  | fetched id result =>
    simp only [getRecordsFromPrimaryKeyRangeStep] at hstep
    split at hstep
    · exact Except.noConfusion hstep
    · rename_i w _
      injection hstep with hstep
      subst hstep
      have hkeep : (workerFetched s.infoChan w.range result).ReadingRecordsDone
          = s.infoChan.ReadingRecordsDone := by
        unfold workerFetched
        split
        · split <;> rfl
        · rfl
      simp only [hkeep, hbefore] at hafter
      exact Bool.noConfusion hafter
  | exit id =>
    simp only [getRecordsFromPrimaryKeyRangeStep] at hstep
    split at hstep
    · exact Except.noConfusion hstep
    · injection hstep with hstep
      subst hstep
      rw [hbefore] at hafter
      exact Bool.noConfusion hafter
  | timeout =>
    simp only [getRecordsFromPrimaryKeyRangeStep] at hstep
    split at hstep
    · exact Except.noConfusion hstep
    · rename_i hpd
      injection hstep with hstep
      subst hstep
      unfold controllerTimeout at hafter ⊢
      by_cases hids : s.infoChan.ReadingIdsDone = true
      · by_cases heq : s.infoChan.totalUuidsRead = s.infoChan.totalRecordsRead
        · rw [if_pos hids, if_pos heq]
          exact ⟨rfl, by simpa using hpd, hids, heq, rfl⟩
        · rw [if_pos hids, if_neg heq, hbefore] at hafter
          exact Bool.noConfusion hafter
      · rw [if_neg hids, hbefore] at hafter
        exact Bool.noConfusion hafter

/-- Witness of C17 (amended): the timeout taken after one range of two keys
was fetched and counted. -/
theorem records_done_guard_witness :
    countedStageB.processingDone = false ∧
    countedStageB.infoChan.ReadingIdsDone = true ∧
    countedStageB.infoChan.totalUuidsRead = countedStageB.infoChan.totalRecordsRead ∧
    controllerTimeout countedStageB =
      { countedStageB with
        infoChan := { countedStageB.infoChan with ReadingRecordsDone := true }
        processingDone := true } :=
  (records_done_guard 2 countedStageB (controllerTimeout countedStageB) StageBEvent.timeout
    rfl rfl rfl).2

/-! ## The runner -/

/-- C18 at the failing input (two tables named `platform`, in the schemas
`public` and `archive`, three keys each, ten concurrent tables).  The source
stage admits both tables, their Stage A and Stage B run to the end and leave
three records in each records queue, `wg.Wait()` returns and
`processedAllTables` is set.  The drain loop takes the first table, uploads its
three records, and leaves: the token has not fired, the multiplexer is not
closed and still holds the channel object of `archive.platform` with its three
records, which are never uploaded, and `Run` returns nil. -/
theorem drain_loop_leaves_queued_table :
    ((GetRecordsFromSource (NewPostgresMigration archiveAndPublic ⟨2, 2, 3, 10, 500, 5⟩)
        (catalogOf twoPlatformRows)
        (fun _ => keysetTable (NewPostgresMigration archiveAndPublic ⟨2, 2, 3, 10, 500, 5⟩)
          [1, 2, 3]) : Except Fault (SourceRun Nat Nat)).toOption.map
      (fun run => (run.processedAllTables, run.tables.map (fun r => r.tableInfoChan))))
      = some (true, [readPlatform "public", readPlatform "archive"]) ∧
    ((Run (fun rs : List Nat => (.ok (toString rs) : Except String String))
        (NewMigrationRunner ⟨2, 2, 3, 10, 500, 5⟩)
        [RunEvent.admitted (readPlatform "public"),
         RunEvent.admitted (readPlatform "archive"),
         RunEvent.processedAllTables,
         RunEvent.recv
           [Event.record 1 "r1" ⟨"b1", .response 200 "200 OK" ""⟩,
            Event.record 2 "r2" ⟨"b2", .response 200 "200 OK" ""⟩,
            Event.record 3 "r3" ⟨"b3", .response 200 "200 OK" ""⟩,
            Event.timeout ⟨"b4", .response 200 "200 OK" ""⟩ true 3]] :
        Except Fault (RunResult Nat Nat)).toOption.map
      (fun r => (r.err, r.state.exitTableProcessing, r.state.cancelled, r.state.closed,
        r.state.tableInfoChan.map (fun t => (t.TableInfo.TableSchema, t.RecordsChan.sent)),
        r.state.drained.map (fun d => (d.1, d.2.map (fun c => c.records))))))
      = some (none, true, false, false, [("archive", [1, 2, 3])],
          [("platform", [[1, 2, 3]])]) := by
  refine ⟨by decide, rfl⟩

/-- C19 at the failing input (the catalog metadata query fails):
`GetRecordsFromSource` returns the error to the goroutine `Run` started, which
logs it; `Run` itself has nothing to receive and does not return as long as
the token has not fired, and when it fires `Run` returns nil. -/
theorem catalog_failure_returns_nil :
    (GetRecordsFromSource (NewPostgresMigration publicSchema ⟨2, 2, 3, 10, 500, 5⟩)
        (fun _ => .error "connection refused") (fun _ => (emptyTable : TableEnv Nat Nat))).toOption.map
      (fun run => run.err) = some (some "failed to fetch column metadata: connection refused") ∧
    (Run (fun rs : List Nat => (.ok (toString rs) : Except String String))
        (NewMigrationRunner ⟨1, 5, 5, 1, 1000, 2⟩)
        [RunEvent.sourceError "failed to fetch column metadata: connection refused"] :
        Except Fault (RunResult Nat Nat)) = .error .outOfFuel ∧
    (Run (fun rs : List Nat => (.ok (toString rs) : Except String String))
        (NewMigrationRunner ⟨1, 5, 5, 1, 1000, 2⟩)
        [RunEvent.sourceError "failed to fetch column metadata: connection refused",
         RunEvent.recv []] : Except Fault (RunResult Nat Nat)) = .error .blocked ∧
    (Run (fun rs : List Nat => (.ok (toString rs) : Except String String))
        (NewMigrationRunner ⟨1, 5, 5, 1, 1000, 2⟩)
        [RunEvent.sourceError "failed to fetch column metadata: connection refused",
         RunEvent.done] : Except Fault (RunResult Nat Nat)) = .error .blocked ∧
    ((Run (fun rs : List Nat => (.ok (toString rs) : Except String String))
        (NewMigrationRunner ⟨1, 5, 5, 1, 1000, 2⟩)
        [RunEvent.sourceError "failed to fetch column metadata: connection refused",
         RunEvent.cancel, RunEvent.done] : Except Fault (RunResult Nat Nat)).toOption.map
      (fun r => (r.err, r.state.logged)))
      = some (none, ["Error getting records from source: failed to fetch column metadata: connection refused"]) := by
  refine ⟨by decide, by decide, by decide, by decide, by decide⟩

/-! ## The sink -/

/-- Counterexample to C20 as stated: the response `204 No Content`, whose
status code lies in 200..299, makes `StreamLoadDoris` return an error. -/
theorem sink_status_handling_as_stated_fails :
    (200 ≤ 204 ∧ 204 ≤ 299) ∧
    StreamLoadDoris (.response 204 "204 No Content" "") "b1"
      = .error "stream load failed for label b1 with status 204 No Content response " := by
  decide

/-- C20 (amended). Sink status handling: for every HTTP response
`StreamLoadDoris` returns an error if and only if the status code is not 200,
and that error is the label, the status line and the response body in the
message `stream load failed for label … with status … response …`. -/
theorem sink_status_handling (statusCode : Nat) (status body uniqueLabel : String) :
    StreamLoadDoris (.response statusCode status body) uniqueLabel =
      if statusCode = 200 then .ok ()
      else .error ("stream load failed for label " ++ uniqueLabel ++ " with status " ++ status ++
        " response " ++ body) := by
  by_cases h : statusCode = 200 <;> simp [StreamLoadDoris, h]

/-! ## The statements sent to the source -/

/-- C21. Composite page query: for every PK list `c1..cn` with `n ≥ 2` and
every driver, `FetchBatchMultiPrimaryKeys` hands the driver exactly one
statement and returns what the driver answers to it (its error, or its rows
deserialized), without a panic.  The text of the statement is
`SELECT c1, ..., cn FROM schema.table WHERE (c1, ..., cn) OP ($1, ..., $n)
ORDER BY c1, ..., cn LIMIT $(n+1)` with `OP` being `>=` when inclusive and `>`
otherwise: one tuple comparison is the whole `WHERE` clause.  It binds exactly
`n + 1` parameters, one per PK column in PK order, each the entry of the cursor
map for its column or the string `fmt.Sprintf("%v", ·)` makes of that entry,
followed by `idBatchSize`. -/
theorem composite_page_query (Sprint : Value → String)
    (Marshal : Value → Except String String)
    (db : Query → Except String (List (Except String (List Value))))
    (lastIds : GoMap Value) (includeLastId : Bool) (columnMeta : List ColumnInfo)
    (tableSchema tableName : String) (primaryKeys : List PrimaryKey) (idBatchSize : Int)
    (hn : 2 ≤ primaryKeys.length) :
    FetchBatchMultiPrimaryKeys Sprint Marshal db lastIds includeLastId columnMeta tableSchema
        tableName primaryKeys idBatchSize
      = (match db
          { sql := "SELECT " ++ Join (primaryKeys.map (fun pk => pk.ColumnName)) ", " ++
              " FROM " ++ tableSchema ++ "." ++ tableName ++ " WHERE " ++
              ("(" ++ Join (primaryKeys.map (fun pk => pk.ColumnName)) ", " ++ ") " ++
                (if includeLastId then ">=" else ">") ++ " (" ++
                Join ((List.range primaryKeys.length).map
                  (fun (i : Nat) => placeholder ((i : Int) + 1))) ", " ++ ")") ++
              " ORDER BY " ++ Join (primaryKeys.map (fun pk => pk.ColumnName)) ", " ++
              " LIMIT " ++ placeholder ((primaryKeys.length : Int) + 1)
            args := primaryKeys.map (paramVal Sprint lastIds) ++ [Value.int idBatchSize] } with
        | .error err => .ok (.error ("failed to fetch primary key batch: " ++ err))
        | .ok rows =>
          match deserializeRecords Marshal (SliceToMap columnMeta)
              (primaryKeys.map (fun pk => pk.ColumnName)) rows with
          | .error f => .error f
          | .ok records => .ok (.ok records)) ∧
    (∃ result, FetchBatchMultiPrimaryKeys Sprint Marshal db lastIds includeLastId columnMeta
        tableSchema tableName primaryKeys idBatchSize = .ok result) ∧
    (primaryKeys.map (paramVal Sprint lastIds) ++ [Value.int idBatchSize]).length
      = primaryKeys.length + 1 ∧
    (∀ pk ∈ primaryKeys,
      paramVal Sprint lastIds pk = mapIndex lastIds pk.ColumnName ∨
      paramVal Sprint lastIds pk = Value.str (Sprint (mapIndex lastIds pk.ColumnName))) ∧
    2 ≤ ((List.range primaryKeys.length).map
      (fun (i : Nat) => placeholder ((i : Int) + 1))).length := by
  have hrun : FetchBatchMultiPrimaryKeys Sprint Marshal db lastIds includeLastId columnMeta
      tableSchema tableName primaryKeys idBatchSize
      = (match db
          { sql := "SELECT " ++ Join (primaryKeys.map (fun pk => pk.ColumnName)) ", " ++
              " FROM " ++ tableSchema ++ "." ++ tableName ++ " WHERE " ++
              ("(" ++ Join (primaryKeys.map (fun pk => pk.ColumnName)) ", " ++ ") " ++
                (if includeLastId then ">=" else ">") ++ " (" ++
                Join ((List.range primaryKeys.length).map
                  (fun (i : Nat) => placeholder ((i : Int) + 1))) ", " ++ ")") ++
              " ORDER BY " ++ Join (primaryKeys.map (fun pk => pk.ColumnName)) ", " ++
              " LIMIT " ++ placeholder ((primaryKeys.length : Int) + 1)
            args := primaryKeys.map (paramVal Sprint lastIds) ++ [Value.int idBatchSize] } with
        | .error err => .ok (.error ("failed to fetch primary key batch: " ++ err))
        | .ok rows =>
          match deserializeRecords Marshal (SliceToMap columnMeta)
              (primaryKeys.map (fun pk => pk.ColumnName)) rows with
          | .error f => .error f
          | .ok records => .ok (.ok records)) := by
    simp only [FetchBatchMultiPrimaryKeys, rowComparison_eq]
    rfl
  refine ⟨hrun, ?_, by simp, ?_, by simpa using hn⟩
  · rw [hrun]
    split
    · exact ⟨_, rfl⟩
    · rename_i rows _
      obtain ⟨records, hrec⟩ := deserializeRecords_ok Marshal (SliceToMap columnMeta)
        (primaryKeys.map (fun pk => pk.ColumnName)) rows
      rw [hrec]
      exact ⟨_, rfl⟩
  · intro pk _
    unfold paramVal
    split
    · exact Or.inl rfl
    · split
      · exact Or.inl rfl
      · exact Or.inr rfl

/-- Witness of C21: the second page of scenario S3, cursor `(2, u3)`, page
size 3, against a driver that answers this statement alone with the row
`(2, u4)`. -/
theorem composite_page_query_witness :
    FetchBatchMultiPrimaryKeys sampleSprint (fun _ => .error "unused") tenantIdDriver
        tenantIdCursor false tenantIdColumns "public" "events" tenantIdKey 3
      = .ok (.ok [[("id", .str "00000000-0000-0000-0000-000000000004"),
                   ("tenant", .pointer (.int 2))]]) :=
  (composite_page_query sampleSprint (fun _ => .error "unused") tenantIdDriver tenantIdCursor
    false tenantIdColumns "public" "events" tenantIdKey 3 (by decide)).1.trans rfl

/-- C22 at the failing input, the key of scenario S3 as the catalog delivers
it (`tenant` of type `int4`, `id` of type `uuid`) with the cursor `(2, u3)` as
`deserializeRecords` leaves it: the parameter `FetchBatchMultiPrimaryKeys`
binds for `tenant` is a string, what `fmt.Sprintf("%v", ·)` makes of the cell
pointer, and not the number 2, whatever the formatter and the driver.  The
same holds for a column of each of the numeric types `int2`, `int4`, `int8`,
`float8` and `numeric`, since the `switch` keeps a value as it is only for the
type names `int`, `bigint` and `double precision`. -/
theorem numeric_cursor_bound_as_text (Sprint : Value → String)
    (Marshal : Value → Except String String)
    (db : Query → Except String (List (Except String (List Value)))) :
    FetchBatchMultiPrimaryKeys Sprint Marshal db tenantIdCursor false tenantIdColumns "public"
        "events" tenantIdKey 3
      = (match db
          { sql := "SELECT tenant, id FROM public.events WHERE (tenant, id) > ($1, $2) ORDER BY tenant, id LIMIT $3"
            args := [Value.str (Sprint (Value.pointer (Value.int 2))),
                     Value.str (Sprint (Value.str "00000000-0000-0000-0000-000000000003")),
                     Value.int 3] } with
        | .error err => .ok (.error ("failed to fetch primary key batch: " ++ err))
        | .ok rows =>
          match deserializeRecords Marshal (SliceToMap tenantIdColumns) ["tenant", "id"] rows with
          | .error f => .error f
          | .ok records => .ok (.ok records)) ∧
    Value.str (Sprint (Value.pointer (Value.int 2))) ≠ Value.int 2 ∧
    Value.str (Sprint (Value.pointer (Value.int 2))) ≠ Value.pointer (Value.int 2) ∧
    (∀ ty ∈ ["int2", "int4", "int8", "float8", "numeric"],
      paramVal Sprint tenantIdCursor ⟨"tenant", ty⟩
        = Value.str (Sprint (Value.pointer (Value.int 2)))) ∧
    (∀ ty ∈ ["int", "bigint", "double precision"],
      paramVal Sprint tenantIdCursor ⟨"tenant", ty⟩ = Value.pointer (Value.int 2)) ∧
    deserializeRecords Marshal (SliceToMap tenantIdColumns) ["tenant", "id"]
        [.ok [.int 2, .array16 [0, 0, 0, 0, 0, 0, 0, 0, 0, 0, 0, 0, 0, 0, 0, 3]]]
      = .ok [tenantIdCursor] := by
  refine ⟨rfl, by simp, by simp, ?_, ?_, rfl⟩
  · intro ty hty
    simp only [List.mem_cons, List.mem_singleton, List.not_mem_nil, or_false] at hty
    rcases hty with rfl | rfl | rfl | rfl | rfl <;> rfl
  · intro ty hty
    simp only [List.mem_cons, List.mem_singleton, List.not_mem_nil, or_false] at hty
    rcases hty with rfl | rfl | rfl <;> rfl

/-- C27. Composite range fetch: for every PK list of `n ≥ 1` columns and every
driver, `GetRecordsByMultiPrimaryKeys` hands the driver exactly one statement
and returns what the driver answers to it (its error, or its rows
deserialized), without a panic.  The statement selects the columns of the
descriptor in their declared order with the predicate
`(c1, ..., cn) >= ($1, ..., $n) AND (c1, ..., cn) <= ($(n+1), ..., $(2n))`
ordered by `c1, ..., cn`, and binds `2n` parameters: parameter `i` is
`lo[ci]` and parameter `n + i` is `hi[ci]`. -/
theorem composite_range_fetch (Marshal : Value → Except String String)
    (db : Query → Except String (List (Except String (List Value))))
    (columns : List ColumnInfo) (keys : List PrimaryKey)
    (tableSchema tableName : String) (idsStart idsEnd : GoMap Value) (hn : 1 ≤ keys.length) :
    GetRecordsByMultiPrimaryKeys Marshal db columns keys tableSchema tableName idsStart idsEnd
      = (match db
          { sql := "SELECT " ++ Join (columns.map (fun c => c.Name)) ", " ++ " FROM " ++
              tableSchema ++ "." ++ tableName ++ " WHERE (" ++
              Join (keys.map (fun key => key.ColumnName)) ", " ++ ") >= (" ++
              Join ((List.range keys.length).map
                (fun (i : Nat) => placeholder ((i : Int) + 1))) ", " ++
              ") AND (" ++ Join (keys.map (fun key => key.ColumnName)) ", " ++ ") <= (" ++
              Join ((List.range keys.length).map
                (fun (i : Nat) => placeholder ((i : Int) + (keys.length : Int) + 1))) ", " ++
              ") ORDER BY " ++ Join (keys.map (fun key => key.ColumnName)) ", "
            args := keys.map (fun key => mapIndex idsStart key.ColumnName) ++
              keys.map (fun key => mapIndex idsEnd key.ColumnName) } with
        | .error err => .ok (.error err)
        | .ok rows =>
          match deserializeRecords Marshal (SliceToMap columns) (columns.map (fun c => c.Name))
              rows with
          | .error f => .error f
          | .ok records => .ok (.ok records)) ∧
    (∃ result, GetRecordsByMultiPrimaryKeys Marshal db columns keys tableSchema tableName
        idsStart idsEnd = .ok result) ∧
    (keys.map (fun key => mapIndex idsStart key.ColumnName) ++
      keys.map (fun key => mapIndex idsEnd key.ColumnName)).length = 2 * keys.length ∧
    1 ≤ (keys.map (fun key => mapIndex idsStart key.ColumnName) ++
      keys.map (fun key => mapIndex idsEnd key.ColumnName)).length ∧
    ∀ i, i < keys.length → ∃ key, keys[i]? = some key ∧
      (keys.map (fun key => mapIndex idsStart key.ColumnName) ++
        keys.map (fun key => mapIndex idsEnd key.ColumnName))[i]?
          = some (mapIndex idsStart key.ColumnName) ∧
      (keys.map (fun key => mapIndex idsStart key.ColumnName) ++
        keys.map (fun key => mapIndex idsEnd key.ColumnName))[keys.length + i]?
          = some (mapIndex idsEnd key.ColumnName) := by
  have hrun : GetRecordsByMultiPrimaryKeys Marshal db columns keys tableSchema tableName
      idsStart idsEnd
      = (match db
          { sql := "SELECT " ++ Join (columns.map (fun c => c.Name)) ", " ++ " FROM " ++
              tableSchema ++ "." ++ tableName ++ " WHERE (" ++
              Join (keys.map (fun key => key.ColumnName)) ", " ++ ") >= (" ++
              Join ((List.range keys.length).map
                (fun (i : Nat) => placeholder ((i : Int) + 1))) ", " ++
              ") AND (" ++ Join (keys.map (fun key => key.ColumnName)) ", " ++ ") <= (" ++
              Join ((List.range keys.length).map
                (fun (i : Nat) => placeholder ((i : Int) + (keys.length : Int) + 1))) ", " ++
              ") ORDER BY " ++ Join (keys.map (fun key => key.ColumnName)) ", "
            args := keys.map (fun key => mapIndex idsStart key.ColumnName) ++
              keys.map (fun key => mapIndex idsEnd key.ColumnName) } with
        | .error err => .ok (.error err)
        | .ok rows =>
          match deserializeRecords Marshal (SliceToMap columns) (columns.map (fun c => c.Name))
              rows with
          | .error f => .error f
          | .ok records => .ok (.ok records)) := by
    simp only [GetRecordsByMultiPrimaryKeys, rhsValuePlaceHolders_eq, foldl_pair_append_map,
      List.nil_append]
  refine ⟨hrun, ?_, ?_, ?_, ?_⟩
  · rw [hrun]
    split
    · exact ⟨_, rfl⟩
    · rename_i rows _
      obtain ⟨records, hrec⟩ := deserializeRecords_ok Marshal (SliceToMap columns)
        (columns.map (fun c => c.Name)) rows
      rw [hrec]
      exact ⟨_, rfl⟩
  · simp only [List.length_append, List.length_map]; omega
  · simp only [List.length_append, List.length_map]; omega
  · intro i hi
    refine ⟨keys[i], List.getElem?_eq_getElem hi, ?_, ?_⟩
    · rw [List.getElem?_append_left (by simpa using hi), List.getElem?_map,
        List.getElem?_eq_getElem hi]
      rfl
    · rw [List.getElem?_append_right (by simp), List.length_map, Nat.add_sub_cancel_left,
        List.getElem?_map, List.getElem?_eq_getElem hi]
      rfl

/-- Witness of C27: the range from `(1, u1)` to `(2, u3)` of scenario S3,
against a driver that answers this statement alone with its three rows. -/
theorem composite_range_fetch_witness :
    GetRecordsByMultiPrimaryKeys (fun _ => .error "unused") tenantIdDriver tenantIdColumns
        tenantIdKey "public" "events"
        [("id", .str "00000000-0000-0000-0000-000000000001"), ("tenant", .pointer (.int 1))]
        tenantIdCursor
      = .ok (.ok
          [[("id", .str "00000000-0000-0000-0000-000000000001"), ("tenant", .pointer (.int 1))],
           [("id", .str "00000000-0000-0000-0000-000000000002"), ("tenant", .pointer (.int 1))],
           [("id", .str "00000000-0000-0000-0000-000000000003"),
            ("tenant", .pointer (.int 2))]]) :=
  (composite_range_fetch (fun _ => .error "unused") tenantIdDriver tenantIdColumns tenantIdKey
    "public" "events" _ tenantIdCursor (by decide)).1.trans rfl

/-! ## Decoding of scanned values -/

/-- C23. UUID decoding: for a 16-byte value scanned into the cell of a column
of type `uuid`, `getRecord` returns a string of 36 characters: five groups of
8, 4, 4, 4 and 12 characters of `0123456789abcdef` with a hyphen between two
groups, and the 32 digits read back as the 16 bytes.  For a column whose type
is neither `uuid` nor `json` nor `jsonb` it returns its argument, the cell of
the scanned value, as it is. -/
theorem uuid_decoding (Marshal : Value → Except String String)
    (columnMetaMap : GoMap ColumnInfo) (name : String) (b : List Nat)
    (hty : dataTypeOf columnMetaMap name = "uuid") (hlen : b.length = 16)
    (hb : ∀ x ∈ b, x < 256) :
    (∃ g1 g2 g3 g4 g5 : List Char,
      getRecord Marshal columnMetaMap name (Value.pointer (Value.array16 b))
        = .ok (Value.str (String.mk (g1 ++ '-' :: g2 ++ '-' :: g3 ++ '-' :: g4 ++ '-' :: g5))) ∧
      (String.mk (g1 ++ '-' :: g2 ++ '-' :: g3 ++ '-' :: g4 ++ '-' :: g5)).length = 36 ∧
      g1.length = 8 ∧ g2.length = 4 ∧ g3.length = 4 ∧ g4.length = 4 ∧ g5.length = 12 ∧
      (∀ c ∈ g1 ++ (g2 ++ (g3 ++ (g4 ++ g5))), c ∈ "0123456789abcdef".toList) ∧
      hexDecode (g1 ++ (g2 ++ (g3 ++ (g4 ++ g5)))) = some b) ∧
    ∀ (meta : GoMap ColumnInfo) (col : String) (rawValue : Value),
      dataTypeOf meta col ≠ "uuid" → dataTypeOf meta col ≠ "json" →
      dataTypeOf meta col ≠ "jsonb" →
      getRecord Marshal meta col rawValue = .ok rawValue := by
  constructor
  · have h4 : ∀ x ∈ b.take 4, x < 256 := fun x hx => hb x (List.mem_of_mem_take hx)
    have h46 : ∀ x ∈ (b.drop 4).take 2, x < 256 :=
      fun x hx => hb x (List.mem_of_mem_drop (List.mem_of_mem_take hx))
    have h68 : ∀ x ∈ (b.drop 6).take 2, x < 256 :=
      fun x hx => hb x (List.mem_of_mem_drop (List.mem_of_mem_take hx))
    have h810 : ∀ x ∈ (b.drop 8).take 2, x < 256 :=
      fun x hx => hb x (List.mem_of_mem_drop (List.mem_of_mem_take hx))
    have h10 : ∀ x ∈ b.drop 10, x < 256 := fun x hx => hb x (List.mem_of_mem_drop hx)
    have l1 : (hexEncode (b.take 4)).length = 8 := by
      rw [hexEncode_length, List.length_take]; omega
    have l2 : (hexEncode ((b.drop 4).take 2)).length = 4 := by
      rw [hexEncode_length, List.length_take, List.length_drop]; omega
    have l3 : (hexEncode ((b.drop 6).take 2)).length = 4 := by
      rw [hexEncode_length, List.length_take, List.length_drop]; omega
    have l4 : (hexEncode ((b.drop 8).take 2)).length = 4 := by
      rw [hexEncode_length, List.length_take, List.length_drop]; omega
    have l5 : (hexEncode (b.drop 10)).length = 12 := by
      rw [hexEncode_length, List.length_drop]; omega
    refine ⟨hexEncode (b.take 4), hexEncode ((b.drop 4).take 2), hexEncode ((b.drop 6).take 2),
      hexEncode ((b.drop 8).take 2), hexEncode (b.drop 10), ?_, ?_, l1, l2, l3, l4, l5, ?_, ?_⟩
    · simp only [getRecord, hty, if_true, UUIDString]
    · simp only [String.length, List.length_append, List.length_cons, l1, l2, l3, l4, l5]
    · intro c hc
      simp only [List.mem_append] at hc
      rcases hc with hc | hc | hc | hc | hc
      · exact hexEncode_mem _ h4 c hc
      · exact hexEncode_mem _ h46 c hc
      · exact hexEncode_mem _ h68 c hc
      · exact hexEncode_mem _ h810 c hc
      · exact hexEncode_mem _ h10 c hc
    · rw [← hexEncode_append, ← hexEncode_append, ← hexEncode_append, ← hexEncode_append,
        uuid_groups]
      exact hexDecode_hexEncode b hb
  · intro meta col rawValue h1 h2 h3
    simp only [getRecord, h1, h2, h3, if_false, or_self]

/-- Witness of C23: the UUID `123e4567-e89b-12d3-a456-426614174000` in the
column `id` and a text in the column `note` of `public.events`. -/
theorem uuid_decoding_witness :
    (∃ g1 g2 g3 g4 g5 : List Char,
      getRecord (fun _ => .error "unused") (SliceToMap eventsColumns) "id"
          (Value.pointer (Value.array16 sampleUuid))
        = .ok (Value.str (String.mk (g1 ++ '-' :: g2 ++ '-' :: g3 ++ '-' :: g4 ++ '-' :: g5))) ∧
      (String.mk (g1 ++ '-' :: g2 ++ '-' :: g3 ++ '-' :: g4 ++ '-' :: g5)).length = 36 ∧
      g1.length = 8 ∧ g2.length = 4 ∧ g3.length = 4 ∧ g4.length = 4 ∧ g5.length = 12 ∧
      (∀ c ∈ g1 ++ (g2 ++ (g3 ++ (g4 ++ g5))), c ∈ "0123456789abcdef".toList) ∧
      hexDecode (g1 ++ (g2 ++ (g3 ++ (g4 ++ g5)))) = some sampleUuid) ∧
    getRecord (fun _ => .error "unused") (SliceToMap eventsColumns) "note"
        (Value.pointer (Value.str "abc"))
      = .ok (Value.pointer (Value.str "abc")) ∧
    getRecord (fun _ => .error "unused") (SliceToMap eventsColumns) "id"
        (Value.pointer (Value.array16 sampleUuid))
      = .ok (Value.str "123e4567-e89b-12d3-a456-426614174000") :=
  ⟨(uuid_decoding (fun _ => .error "unused") (SliceToMap eventsColumns) "id" sampleUuid
      (by decide) (by decide) (by decide)).1,
   (uuid_decoding (fun _ => .error "unused") (SliceToMap eventsColumns) "id" sampleUuid
      (by decide) (by decide) (by decide)).2 (SliceToMap eventsColumns) "note"
      (Value.pointer (Value.str "abc")) (by decide) (by decide) (by decide),
   rfl⟩

/-- Counterexample to C24 as stated: the `jsonb` column `doc` of
`public.events` holds the text `storedDoc`, with a blank after each colon and
comma; the record gets the text `json.Marshal` writes for the decoded
document, which has none. -/
theorem json_fidelity_as_stated_fails :
    getRecord sampleMarshal (SliceToMap eventsColumns) "doc" (Value.pointer scannedDoc)
      = .ok (Value.str "\x7b\"a\":\"y\",\"b\":\"x\"\x7d") ∧
    Value.str "\x7b\"a\":\"y\",\"b\":\"x\"\x7d" ≠ Value.str storedDoc ∧
    storedDoc.length = 20 ∧ "\x7b\"a\":\"y\",\"b\":\"x\"\x7d".length = 17 := by
  refine ⟨rfl, ?_, by decide, by decide⟩
  intro h
  injection h with h
  exact absurd h (by decide)

/-- C24 (amended). JSON columns: for a value scanned into the cell of a `json`
or `jsonb` column, the value `getRecord` puts in the record is the text
`json.Marshal` writes for that scanned value whenever it can be marshalled,
and its argument, the cell, otherwise; it depends on the decoded value alone,
not on the stored text. -/
theorem json_reencoded (Marshal : Value → Except String String)
    (columnMetaMap : GoMap ColumnInfo) (name : String) (cell : Value)
    (hty : dataTypeOf columnMetaMap name = "json" ∨ dataTypeOf columnMetaMap name = "jsonb") :
    (∀ text, Marshal cell = .ok text →
      getRecord Marshal columnMetaMap name (Value.pointer cell) = .ok (Value.str text)) ∧
    ∀ err, Marshal cell = .error err →
      getRecord Marshal columnMetaMap name (Value.pointer cell) = .ok (Value.pointer cell) := by
  have huuid : ¬ dataTypeOf columnMetaMap name = "uuid" := by
    rcases hty with h | h <;> rw [h] <;> decide
  constructor
  · intro text hm
    simp only [getRecord, huuid, if_false, hty, if_true, hm]
  · intro err hm
    simp only [getRecord, huuid, if_false, hty, if_true, hm]

/-- Witness of C24 (amended): the sample document in the `jsonb` column `doc`. -/
theorem json_reencoded_witness :
    getRecord sampleMarshal (SliceToMap eventsColumns) "doc" (Value.pointer scannedDoc)
      = .ok (Value.str "\x7b\"a\":\"y\",\"b\":\"x\"\x7d") :=
  (json_reencoded sampleMarshal (SliceToMap eventsColumns) "doc" scannedDoc
    (Or.inr (by decide))).1 _ rfl

/-! ## Failed-record files -/

/-- Counterexample to C25 as stated: one table, one record that the JSON
encoder rejects, `R = 1`.  The batch cannot be serialized and goes to
`failed["platform"]`; when `Run` returns, `failed["platform"]` holds the record
and no file has been written, since serializing it for the file fails again. -/
theorem failed_record_files_as_stated_fail :
    (Run rejectingMarshal (NewMigrationRunner ⟨1, 0, 0, 1, 1000, 1⟩)
        [RunEvent.admitted (NewTableInfoChan platformTable 5 5),
         RunEvent.recv
           [Event.record 0 "r1" ⟨"b1", .response 200 "200 OK" ""⟩,
            Event.timeout ⟨"b2", .response 200 "200 OK" ""⟩ true 1],
         RunEvent.cancel, RunEvent.done] : Except Fault (RunResult Nat Nat)).toOption.map
      (fun r => (r.state.m.failed "platform", r.files)) = some ([0], []) := by
  decide

/-- C25 (amended). Failed-record files: when `Run` returns, for every table
name `t` a file `t_failed_records.json` is written if and only if `failed[t]`
is not empty and the JSON encoder serializes it, its content being that
serialization of exactly `failed[t]`; and every file written is the file of
such a table. -/
theorem failed_record_files {κ ρ : Type} (marshal : List ρ → Except String String)
    (m : migrationRunner ρ) (events : List (RunEvent κ ρ)) (r : RunResult κ ρ)
    (hrun : Run marshal m events = .ok r) :
    (∀ (t content : String),
      (t ++ "_failed_records.json", content) ∈ r.files ↔
        r.state.m.failed t ≠ [] ∧ marshal (r.state.m.failed t) = .ok content) ∧
    ∀ file ∈ r.files, ∃ t, file.1 = t ++ "_failed_records.json" ∧
      r.state.m.failed t ≠ [] ∧ marshal (r.state.m.failed t) = .ok file.2 := by
  simp only [Run] at hrun
  split at hrun
  · exact Except.noConfusion hrun
  split at hrun
  · exact Except.noConfusion hrun
  · rename_i s hloop
    have hnd : (s.m.failedRecords.map Prod.fst).Nodup :=
      RunLoop_keys marshal events _ s (by simp) hloop
    split at hrun
    · injection hrun with hrun
      subst hrun
      have hfailed : ∀ entry ∈ s.m.failedRecords, s.m.failed entry.1 = entry.2 := by
        intro entry hmem
        simp only [migrationRunner.failed, mapGet_of_mem _ entry.1 entry.2 hnd hmem,
          Option.getD_some]
      have hfiles : ∀ (t content : String),
          (t ++ "_failed_records.json", content) ∈ saveFailedRecords marshal s.m.failedRecords ↔
            s.m.failed t ≠ [] ∧ marshal (s.m.failed t) = .ok content := by
        intro t content
        rw [mem_saveFailedRecords]
        constructor
        · rintro ⟨entry, hmem, hne, hm, hpath⟩
          have ht : t = entry.1 := append_right_cancel _ _ _ hpath
          rw [ht, hfailed entry hmem]
          exact ⟨hne, hm⟩
        · rintro ⟨hne, hm⟩
          cases hg : mapGet s.m.failedRecords t with
          | none => simp [migrationRunner.failed, hg] at hne
          | some v =>
            have hv : s.m.failed t = v := by simp [migrationRunner.failed, hg]
            rw [hv] at hne hm
            exact ⟨(t, v), mapGet_mem _ _ _ hg, hne, hm, rfl⟩
      refine ⟨hfiles, ?_⟩
      intro file hfile
      obtain ⟨entry, hmem, hne, hm, hpath⟩ :=
        (mem_saveFailedRecords marshal s.m.failedRecords file.1 file.2).mp hfile
      refine ⟨entry.1, hpath, ?_, ?_⟩
      · rw [hfailed entry hmem]; exact hne
      · rw [hfailed entry hmem]; exact hm
    · exact Except.noConfusion hrun

/-- Witness of C25 (amended): scenario S4 scaled down, a run whose only PUT
is answered 500; the file of `platform` holds the failed record. -/
theorem failed_record_files_witness :
    (("platform" ++ "_failed_records.json", "[10]") ∈ failedRun.files ↔
      failedRun.state.m.failed "platform" ≠ [] ∧
        (fun rs : List Nat => (.ok (toString rs) : Except String String))
          (failedRun.state.m.failed "platform") = .ok "[10]") ∧
    failedRun.files = [("platform_failed_records.json", "[10]")] :=
  ⟨(failed_record_files (fun rs : List Nat => (.ok (toString rs) : Except String String))
    (NewMigrationRunner ⟨1, 0, 0, 1, 1000, 1⟩)
    [RunEvent.admitted (NewTableInfoChan platformTable 5 5),
     RunEvent.recv
       [Event.record 10 "r1" ⟨"b1", .response 500 "500" ""⟩,
        Event.timeout ⟨"b2", .response 200 "200 OK" ""⟩ true 1],
     RunEvent.cancel, RunEvent.done] failedRun (by decide)).1 "platform" "[10]", rfl⟩

/-! ## Stage A: key count and termination -/

/-- C26. Key count: over a strictly increasing key list `K` of `n` keys, with
page size `b ≥ 1`, slice size `w ≥ 1`, keyset pages and the minimum of `K` as
first cursor, `getPrimaryKeyRange` returns (any fuel above `⌈n / b⌉` is
enough) with `totalUuidsRead` raised by exactly `n`.  Its effects are, page
by page of the consecutive pages of `K`: the fetch of the page, the ranges of
the page, and only then the count of the page.  For the keys 1..12 the counter
of a fresh channel object ends at 12. -/
theorem key_count {κ ρ ε : Type} [LinearOrder κ]
    (fetch : κ → Bool → Int → Except ε (List κ)) (K : List κ) (c : κ) (b w : Nat)
    (t : TableInfoChan κ ρ)
    (hb : 1 ≤ b) (hw : 1 ≤ w) (hK : K.Pairwise (· < ·)) (hc : K.head? = some c)
    (hfetch : ∀ cur incl, fetch cur incl (b : Int) = .ok (keysetPage K cur incl b)) :
    (∀ fuel, (K.length + b - 1) / b < fuel →
      ∃ (t1 : TableInfoChan κ ρ) (log : List (StageAEffect κ)),
        getPrimaryKeyRange fetch fuel c true (b : Int) (w : Int) t = .ok t1 ∧
        getPrimaryKeyRangeLog fetch fuel c true (b : Int) (w : Int) t = .ok (t1, log) ∧
        t1.totalUuidsRead = t.totalUuidsRead + K.length ∧
        log = pagesLog w c true (pagesOf b K) ∧
        (pagesOf b K).flatten = K ∧
        ((pagesOf b K).map List.length).sum = K.length) ∧
    (getPrimaryKeyRange
        (fun cur incl limit =>
          (.ok (keysetPage [1, 2, 3, 4, 5, 6, 7, 8, 9, 10, 11, 12] cur incl limit.toNat) :
            Except Unit (List Nat)))
        2 1 true 12 5 (NewTableInfoChan platformTable 5 12 : TableInfoChan Nat Unit)).toOption.map
      (fun t1 => t1.totalUuidsRead) = some 12 := by
  refine ⟨?_, by decide⟩
  intro fuel hfuel
  obtain ⟨t1, hrun, hcount, _⟩ := getPrimaryKeyRangeLog_keyset fetch K b w hb hw hK hfetch fuel []
    K c true t rfl (by simp)
    (by
      intro s hs
      simpa using head_le_of_sorted K c hK hc s hs)
    (by rw [pagesOf_length b hb]; exact hfuel)
  refine ⟨t1, _, ?_, hrun, hcount, rfl, pagesOf_flatten b K, ?_⟩
  · rw [← getPrimaryKeyRangeLog_fst, hrun]
    rfl
  · rw [← List.length_flatten, pagesOf_flatten]

/-- Witness of C26: the keys 1..12 in pages of 5 and slices of 2. -/
theorem key_count_witness :
    ∃ (t1 : TableInfoChan Nat Unit) (log : List (StageAEffect Nat)),
      getPrimaryKeyRange
        (fun cur incl limit =>
          (.ok (keysetPage [1, 2, 3, 4, 5, 6, 7, 8, 9, 10, 11, 12] cur incl limit.toNat) :
            Except Unit (List Nat)))
        4 1 true ((5 : Nat) : Int) ((2 : Nat) : Int) (NewTableInfoChan platformTable 2 5) = .ok t1 ∧
      getPrimaryKeyRangeLog
        (fun cur incl limit =>
          (.ok (keysetPage [1, 2, 3, 4, 5, 6, 7, 8, 9, 10, 11, 12] cur incl limit.toNat) :
            Except Unit (List Nat)))
        4 1 true ((5 : Nat) : Int) ((2 : Nat) : Int) (NewTableInfoChan platformTable 2 5)
          = .ok (t1, log) ∧
      t1.totalUuidsRead
        = (NewTableInfoChan platformTable 2 5 : TableInfoChan Nat Unit).totalUuidsRead
          + [1, 2, 3, 4, 5, 6, 7, 8, 9, 10, 11, 12].length ∧
      log = pagesLog 2 1 true (pagesOf 5 [1, 2, 3, 4, 5, 6, 7, 8, 9, 10, 11, 12]) ∧
      (pagesOf 5 [1, 2, 3, 4, 5, 6, 7, 8, 9, 10, 11, 12]).flatten
        = [1, 2, 3, 4, 5, 6, 7, 8, 9, 10, 11, 12] ∧
      ((pagesOf 5 [1, 2, 3, 4, 5, 6, 7, 8, 9, 10, 11, 12]).map List.length).sum
        = [1, 2, 3, 4, 5, 6, 7, 8, 9, 10, 11, 12].length :=
  (key_count _ [1, 2, 3, 4, 5, 6, 7, 8, 9, 10, 11, 12] 1 5 2 (NewTableInfoChan platformTable 2 5)
    (by decide) (by decide) (by decide) rfl (fun _ _ => rfl)).1 4 (by decide)

/-- Counterexample to C30 as stated: a table with the single key 1, page size
1 and slice size 1.  Stage A fetches twice, `⌈1 / 1⌉ + 1`, and both fetches
carry the cursor 1: the first is inclusive and returns the page `[1]`, the
second starts after the last key of that page, which is 1 again. -/
theorem stage_a_termination_as_stated_fails :
    (getPrimaryKeyRangeLog
        (fun cur incl limit => (.ok (keysetPage [1] cur incl limit.toNat) : Except Unit (List Nat)))
        2 1 true 1 1 (NewTableInfoChan platformTable 1 1 : TableInfoChan Nat Unit)).toOption.map
      (fun r => fetches r.2) = some [(1, true, [1]), (1, false, [])] ∧
    ¬ ([1, 1] : List Nat).Pairwise (· < ·) := by
  refine ⟨by decide, by decide⟩

/-- C30 (amended). Stage A termination: over a strictly increasing key list of
`n ≥ 1` keys, with page size `b ≥ 1`, slice size `w ≥ 1`, keyset pages and the
minimum key as first cursor, `getPrimaryKeyRange` returns for every fuel of
at least `⌈n / b⌉ + 1` turns, with `ReadingIdsDone` set, after exactly
`⌈n / b⌉ + 1` page fetches.  The cursor never decreases from fetch to fetch
and strictly increases from the second fetch on; the pages fetched are the
consecutive non-empty pages of the key list followed by one empty page. -/
theorem stage_a_termination {κ ρ ε : Type} [LinearOrder κ]
    (fetch : κ → Bool → Int → Except ε (List κ)) (K : List κ) (c : κ) (b w : Nat)
    (t : TableInfoChan κ ρ)
    (hn : 1 ≤ K.length) (hb : 1 ≤ b) (hw : 1 ≤ w) (hK : K.Pairwise (· < ·))
    (hc : K.head? = some c)
    (hfetch : ∀ cur incl, fetch cur incl (b : Int) = .ok (keysetPage K cur incl b)) :
    ∀ fuel, (K.length + b - 1) / b + 1 ≤ fuel →
      ∃ (t1 : TableInfoChan κ ρ) (log : List (StageAEffect κ)),
        getPrimaryKeyRange fetch fuel c true (b : Int) (w : Int) t = .ok t1 ∧
        getPrimaryKeyRangeLog fetch fuel c true (b : Int) (w : Int) t = .ok (t1, log) ∧
        t1.ReadingIdsDone = true ∧
        (fetches log).length = (K.length + b - 1) / b + 1 ∧
        2 ≤ (fetches log).length ∧
        ((fetches log).map (fun f => f.1)).Pairwise (· ≤ ·) ∧
        ((fetches log).map (fun f => f.1)).tail.Pairwise (· < ·) ∧
        (fetches log).map (fun f => f.2.2) = pagesOf b K ++ [[]] ∧
        (∀ p ∈ pagesOf b K, p ≠ []) := by
  intro fuel hfuel
  obtain ⟨t1, hrun, _, hdone⟩ := getPrimaryKeyRangeLog_keyset fetch K b w hb hw hK hfetch fuel []
    K c true t rfl (by simp)
    (by
      intro s hs
      simpa using head_le_of_sorted K c hK hc s hs)
    (by rw [pagesOf_length b hb]; omega)
  have hpos : 1 ≤ (K.length + b - 1) / b := by
    rw [Nat.le_div_iff_mul_le (by omega)]
    omega
  refine ⟨t1, _, ?_, hrun, hdone, ?_, ?_, ?_, ?_, fetches_pagesLog_pages w _ c true,
    pagesOf_ne_nil b K⟩
  · rw [← getPrimaryKeyRangeLog_fst, hrun]
    rfl
  · rw [fetches_pagesLog_length, pagesOf_length b hb]
  · rw [fetches_pagesLog_length, pagesOf_length b hb]
    omega
  all_goals
    cases hpages : pagesOf b K with
    | nil =>
      have := pagesOf_length b hb K
      rw [hpages, List.length_nil] at this
      omega
    | cons page rest =>
      have hne := pagesOf_ne_nil b K
      have hflat := pagesOf_flatten b K
      rw [hpages] at hne hflat
      have hpne : page ≠ [] := hne page (List.mem_cons_self _ _)
      have hlast : page.getLastD c = page.getLast hpne := by
        rw [List.getLastD_eq_getLast?, List.getLast?_eq_getLast _ hpne]; rfl
      have hlastmem : page.getLast hpne ∈ page := List.getLast_mem hpne
      have hs : (page ++ rest.flatten).Pairwise (· < ·) := by
        rw [← List.flatten_cons, hflat]; exact hK
      obtain ⟨_, hrest, hcross⟩ := List.pairwise_append.mp hs
      obtain ⟨hsorted, hmem⟩ := fetches_pagesLog_sorted w rest (page.getLast hpne) false
        (fun p hp => hne p (List.mem_cons_of_mem _ hp)) hrest
        (fun x hx => hcross _ hlastmem x hx)
      rw [fetches_pagesLog_cons, hlast, List.map_cons]
      first
      | exact hsorted
      | refine List.pairwise_cons.mpr ⟨?_, hsorted.imp le_of_lt⟩
        intro y hy
        apply head_le_of_sorted K c hK hc
        rw [← hflat, List.flatten_cons]
        rcases hmem y hy with rfl | hy
        · exact List.mem_append_left _ hlastmem
        · exact List.mem_append_right _ hy

/-- Witness of C30 (amended): the keys 1..12 in pages of 5 and slices of 2,
four fetches with the cursors 1, 5, 10 and 12. -/
theorem stage_a_termination_witness :
    ∃ (t1 : TableInfoChan Nat Unit) (log : List (StageAEffect Nat)),
      getPrimaryKeyRange
        (fun cur incl limit =>
          (.ok (keysetPage [1, 2, 3, 4, 5, 6, 7, 8, 9, 10, 11, 12] cur incl limit.toNat) :
            Except Unit (List Nat)))
        4 1 true ((5 : Nat) : Int) ((2 : Nat) : Int) (NewTableInfoChan platformTable 2 5) = .ok t1 ∧
      getPrimaryKeyRangeLog
        (fun cur incl limit =>
          (.ok (keysetPage [1, 2, 3, 4, 5, 6, 7, 8, 9, 10, 11, 12] cur incl limit.toNat) :
            Except Unit (List Nat)))
        4 1 true ((5 : Nat) : Int) ((2 : Nat) : Int) (NewTableInfoChan platformTable 2 5)
          = .ok (t1, log) ∧
      t1.ReadingIdsDone = true ∧
      (fetches log).length = ([1, 2, 3, 4, 5, 6, 7, 8, 9, 10, 11, 12].length + 5 - 1) / 5 + 1 ∧
      2 ≤ (fetches log).length ∧
      ((fetches log).map (fun f => f.1)).Pairwise (· ≤ ·) ∧
      ((fetches log).map (fun f => f.1)).tail.Pairwise (· < ·) ∧
      (fetches log).map (fun f => f.2.2)
        = pagesOf 5 [1, 2, 3, 4, 5, 6, 7, 8, 9, 10, 11, 12] ++ [[]] ∧
      (∀ p ∈ pagesOf 5 [1, 2, 3, 4, 5, 6, 7, 8, 9, 10, 11, 12], p ≠ []) :=
  stage_a_termination _ [1, 2, 3, 4, 5, 6, 7, 8, 9, 10, 11, 12] 1 5 2
    (NewTableInfoChan platformTable 2 5) (by decide) (by decide) (by decide) (by decide) rfl
    (fun _ _ => rfl) 4 (by decide)

/-! ## Stage C: conservation and the buffer -/

/-- C28. Stage C conservation: with `record_batch_size = R ≥ 1`, for every
sequence of events `processTableInfo` is in a state `s` in which it has
handled the first `n` of them (all of them unless it has returned before, and
it had not returned before any of those `n`), and the batches flushed so far,
in flush order, followed by the buffer are exactly the records received in
those `n` events, in order.  For the records 1..12 with `R = 5` and a final idle
timeout the batches are 1..5, 6..10 and then 11, 12, and the buffer is empty. -/
theorem stage_c_conservation {ρ : Type} (marshal : List ρ → Except String String)
    (m : migrationRunner ρ) (tableName : String) (events : List (Event ρ))
    (hR : 1 ≤ m.workerConfig.RecordBatchSize) :
    (∃ (s : StageC ρ) (n : Nat),
      processTableInfo marshal m tableName events = .ok s ∧ n ≤ events.length ∧
      processTableInfo marshal m tableName (events.take n) = .ok s ∧
      (n < events.length → s.processedRecordsChan = true) ∧
      (∀ j, j < n → ∃ sj, processTableInfo marshal m tableName (events.take j) = .ok sj ∧
        sj.processedRecordsChan = false) ∧
      flushed s ++ s.records = receivedRecords (events.take n)) ∧
    (processTableInfo (fun rs : List Nat => (.ok (toString rs) : Except String String))
        (NewMigrationRunner ⟨1, 5, 5, 1, 1000, 5⟩) "platform" twelveRecords).toOption.map
      (fun s => (s.calls.map (fun c => c.records), s.records, s.processedRecordsChan))
      = some ([[1, 2, 3, 4, 5], [6, 7, 8, 9, 10], [11, 12]], [], true) := by
  refine ⟨?_, by decide⟩
  obtain ⟨s, n, hrun, hn, htake, hflag, hprev, hcons⟩ :=
    conservation_loop marshal tableName _ hR events _ (StageCInv_init m tableName hR)
  refine ⟨s, n, hrun, hn, htake, hflag, hprev, ?_⟩
  rw [hcons]
  simp [flushed]

/-- Witness of C28: five records with `R = 2` and a final idle timeout. -/
theorem stage_c_conservation_witness :
    ∃ (s : StageC Nat) (n : Nat),
      processTableInfo (fun rs : List Nat => (.ok (toString rs) : Except String String))
        (NewMigrationRunner ⟨1, 5, 5, 1, 1000, 2⟩) "platform"
        [Event.record 1 "r1" ⟨"b1", .response 200 "200 OK" ""⟩,
         Event.record 2 "r2" ⟨"b2", .response 200 "200 OK" ""⟩,
         Event.record 3 "r3" ⟨"b3", .response 200 "200 OK" ""⟩,
         Event.timeout ⟨"b4", .response 500 "500" ""⟩ true 3] = .ok s ∧
      n ≤ [Event.record 1 "r1" ⟨"b1", .response 200 "200 OK" ""⟩,
         Event.record 2 "r2" ⟨"b2", .response 200 "200 OK" ""⟩,
         Event.record 3 "r3" ⟨"b3", .response 200 "200 OK" ""⟩,
         Event.timeout ⟨"b4", .response 500 "500" ""⟩ true 3].length ∧
      processTableInfo (fun rs : List Nat => (.ok (toString rs) : Except String String))
        (NewMigrationRunner ⟨1, 5, 5, 1, 1000, 2⟩) "platform"
        ([Event.record 1 "r1" ⟨"b1", .response 200 "200 OK" ""⟩,
         Event.record 2 "r2" ⟨"b2", .response 200 "200 OK" ""⟩,
         Event.record 3 "r3" ⟨"b3", .response 200 "200 OK" ""⟩,
         Event.timeout ⟨"b4", .response 500 "500" ""⟩ true 3].take n) = .ok s ∧
      (n < [Event.record 1 "r1" ⟨"b1", .response 200 "200 OK" ""⟩,
         Event.record 2 "r2" ⟨"b2", .response 200 "200 OK" ""⟩,
         Event.record 3 "r3" ⟨"b3", .response 200 "200 OK" ""⟩,
         Event.timeout ⟨"b4", .response 500 "500" ""⟩ true 3].length →
        s.processedRecordsChan = true) ∧
      (∀ j, j < n → ∃ sj,
        processTableInfo (fun rs : List Nat => (.ok (toString rs) : Except String String))
          (NewMigrationRunner ⟨1, 5, 5, 1, 1000, 2⟩) "platform"
          ([Event.record 1 "r1" ⟨"b1", .response 200 "200 OK" ""⟩,
           Event.record 2 "r2" ⟨"b2", .response 200 "200 OK" ""⟩,
           Event.record 3 "r3" ⟨"b3", .response 200 "200 OK" ""⟩,
           Event.timeout ⟨"b4", .response 500 "500" ""⟩ true 3].take j) = .ok sj ∧
        sj.processedRecordsChan = false) ∧
      flushed s ++ s.records = receivedRecords
        ([Event.record 1 "r1" ⟨"b1", .response 200 "200 OK" ""⟩,
         Event.record 2 "r2" ⟨"b2", .response 200 "200 OK" ""⟩,
         Event.record 3 "r3" ⟨"b3", .response 200 "200 OK" ""⟩,
         Event.timeout ⟨"b4", .response 500 "500" ""⟩ true 3].take n) :=
  (stage_c_conservation _ (NewMigrationRunner ⟨1, 5, 5, 1, 1000, 2⟩) "platform" _
    (by decide)).1

/-- C29. Stage C buffer invariant: with `record_batch_size = R ≥ 1`, after
every sequence of events `processTableInfo` is in a state whose buffer holds
fewer than `R` records, so the test `len(records) >= RecordBatchSize` of the
timeout case fails there; an idle timeout in that state flushes the whole
buffer in at most one batch and leaves it empty; and, the records queue never
being closed, the buffer is empty once `processedRecordsChan` is set, which is
the remainder `processTableInfo` returns. -/
theorem buffer_invariant {ρ : Type} (marshal : List ρ → Except String String)
    (m : migrationRunner ρ) (tableName : String) (events : List (Event ρ))
    (hR : 1 ≤ m.workerConfig.RecordBatchSize) (hopen : Event.closed ∉ events) :
    ∃ s, processTableInfo marshal m tableName events = .ok s ∧
      (s.records.length : Int) < m.workerConfig.RecordBatchSize ∧
      ¬ ((s.records.length : Int) ≥ s.m.workerConfig.RecordBatchSize) ∧
      (∀ (env : SinkEnv) (readingRecordsDone : Bool) (totalRecordsRead : Nat),
        ∃ s1, processTableInfoStep marshal tableName s
            (.timeout env readingRecordsDone totalRecordsRead) = .ok s1 ∧
          s1.records = [] ∧ flushed s1 = flushed s ++ s.records ∧
          s1.calls.length ≤ s.calls.length + 1) ∧
      (s.processedRecordsChan = true → s.records = []) := by
  have hinit := StageCInv_init m tableName hR
  obtain ⟨s, hs, hinv⟩ := StageCInv_loop marshal tableName _ hR events _ hinit
  refine ⟨s, hs, hinv.2.1, ?_, ?_, ?_⟩
  · rw [hinv.1]
    have := hinv.2.1
    omega
  · intro env rd total
    exact timeout_empties marshal tableName _ s env rd total hinv
  · exact returned_empty_loop marshal tableName _ hR events _ s hinit (fun _ => rfl) hopen hs

/-- Witness of C29: three records with `R = 2` and a final idle timeout that
finds the table read to the end. -/
theorem buffer_invariant_witness :
    ∃ s, processTableInfo (fun rs : List Nat => (.ok (toString rs) : Except String String))
        (NewMigrationRunner ⟨1, 5, 5, 1, 1000, 2⟩) "platform"
        [Event.record 1 "r1" ⟨"b1", .response 200 "200 OK" ""⟩,
         Event.record 2 "r2" ⟨"b2", .response 200 "200 OK" ""⟩,
         Event.record 3 "r3" ⟨"b3", .response 200 "200 OK" ""⟩,
         Event.timeout ⟨"b4", .response 200 "200 OK" ""⟩ true 3] = .ok s ∧
      (s.records.length : Int)
        < (NewMigrationRunner ⟨1, 5, 5, 1, 1000, 2⟩ : migrationRunner Nat).workerConfig.RecordBatchSize ∧
      ¬ ((s.records.length : Int) ≥ s.m.workerConfig.RecordBatchSize) ∧
      (∀ (env : SinkEnv) (readingRecordsDone : Bool) (totalRecordsRead : Nat),
        ∃ s1, processTableInfoStep (fun rs : List Nat => (.ok (toString rs) : Except String String))
            "platform" s (.timeout env readingRecordsDone totalRecordsRead) = .ok s1 ∧
          s1.records = [] ∧ flushed s1 = flushed s ++ s.records ∧
          s1.calls.length ≤ s.calls.length + 1) ∧
      (s.processedRecordsChan = true → s.records = []) :=
  buffer_invariant _ (NewMigrationRunner ⟨1, 5, 5, 1, 1000, 2⟩) "platform" _ (by decide)
    (by decide)

end MigrationTool
